import Mathlib

/-!
# Pianissimo (Version 1.6, `main.cpp`): a shallow embedding and its properties

The firmware receives BLE-MIDI chunks (`MidiCallbacks::onWrite`), keeps an
on/off flag per note column (`active`), scrolls a history of those flags
(`bufferRain`) and paints it on a serpentine LED strip (`loop`).

Conventions of the embedding:
* a `uint8_t` is a `Byte = Fin 256`; arithmetic on it is done on its value
  in `Nat` (the integer promotion of C++), with an explicit `% 256` or
  `% 65536` where the source stores the result back in a fixed width;
* the global arrays are total functions on their index type
  (`Fin 44 → Bool` for `bool active[44]`), a write is `Function.update`;
* the globals of the sketch are the fields of `State`, and every `void`
  function of the source is a function `State → State`;
* a `while (j < n)` scan of the chunk is a recursion on the part of the
  chunk that is still to be read (the suffix starting at the cursor `j`).
-/

namespace Pianissimo

/-! ## Hardware configuration (`#define`s) -/

abbrev NUM_NOTES : Nat := 12
abbrev NOTE_COLUMNS : Nat := 4
abbrev NUM_NOTE_COLUMNS : Nat := 44
abbrev LEDS_PER_NOTE : Nat := 8
abbrev BLANK_PER_NOTE : Nat := 3
abbrev REGION_SIZE : Nat := LEDS_PER_NOTE + BLANK_PER_NOTE
abbrev NUM_LEDS : Nat := NUM_NOTE_COLUMNS * REGION_SIZE

/-- An octet, the `uint8_t` of the source. -/
abbrev Byte := Fin 256

/-- Physical LED index of `(key, row)`: `inline uint16_t physicalIndex(uint8_t key, uint8_t row)`.
The two arguments are converted to `uint8_t` (`% 256`), the arithmetic is
done in `int`, and the results are stored in `uint16_t` (`% 65536`). -/
def physicalIndex (key row : Nat) : Nat :=
  let key := key % 256
  let row := row % 256
  let base : Nat := (key * REGION_SIZE) % 65536
  if key &&& 1 ≠ 0 then
    (((base : Int) + ((LEDS_PER_NOTE : Int) - 1 - (row : Int))) % 65536).toNat
  else
    (base + row) % 65536

/-- The octet of value `n % 256`: conversion of an integer to `uint8_t`. -/
def byte (n : Nat) : Byte := ⟨n % 256, Nat.mod_lt n (by decide)⟩

/-! ## Global state -/

/-- An RGB colour, the `CRGB` of FastLED: three octets. -/
structure CRGB where
  r : Byte
  g : Byte
  b : Byte
deriving DecidableEq, Repr

namespace CRGB

/-- Colour `CRGB::Black` of FastLED (`0x000000`), the colour of a cleared LED. -/
def Black : CRGB := ⟨0, 0, 0⟩
/-- Colour `CRGB::Blue` of FastLED (`0x0000FF`). -/
def Blue : CRGB := ⟨0, 0, 255⟩
/-- Colour `CRGB::Purple` of FastLED (`0x800080`). -/
def Purple : CRGB := ⟨128, 0, 128⟩
/-- Colour `CRGB::Green` of FastLED (`0x008000`). -/
def Green : CRGB := ⟨0, 128, 0⟩

end CRGB

/-- Width of `unsigned long` on the target (32 bits): `millis()` and the
timers wrap modulo this value. -/
abbrev ULONG_MOD : Nat := 4294967296

/-- The globals of the sketch, and the two pieces of the FastLED driver the
sketch acts on (its global brightness and the frame last pushed by `show`). -/
structure State where
  /-- Frame buffer `CRGB leds[NUM_LEDS]`. -/
  leds : Fin NUM_LEDS → CRGB
  /-- Column on/off flags `bool active[NUM_NOTE_COLUMNS]`. -/
  active : Fin NUM_NOTE_COLUMNS → Bool
  /-- Rain history `bool bufferRain[LEDS_PER_NOTE][NUM_NOTE_COLUMNS]`. -/
  bufferRain : Fin LEDS_PER_NOTE → Fin NUM_NOTE_COLUMNS → Bool
  /-- Time of the last rain step, `rainState.lastStep`. -/
  lastStep : Nat
  /-- Tick interval `uint16_t bufferIntervalMs`. -/
  bufferIntervalMs : Nat
  /-- Brightness `uint8_t ledBrightness`. -/
  ledBrightness : Byte
  colorWhiteKey : CRGB
  colorBlackKey : CRGB
  showReadyFlag : Bool
  readyStartTime : Nat
  btBlinkOn : Bool
  btBlinkLast : Nat
  isConnected : Bool
  /-- Global brightness held by the driver (`FastLED.setBrightness`). -/
  fastledBrightness : Byte
  /-- Frame last pushed to the strip (`FastLED.show`). -/
  shown : Fin NUM_LEDS → CRGB

/-! ## The FastLED calls the sketch makes -/

/-- Call `FastLED.clear()`: every LED of the frame buffer becomes black. -/
def fastLEDclear (s : State) : State :=
  { s with leds := fun _ => CRGB.Black }

/-- Call `FastLED.show()`: the frame buffer is pushed to the strip. -/
def fastLEDshow (s : State) : State :=
  { s with shown := s.leds }

/-- Call `FastLED.setBrightness(b)`. -/
def fastLEDsetBrightness (b : Byte) (s : State) : State :=
  { s with fastledBrightness := b }

/-- Assignment `leds[i] = c`. The index is written only when it lies inside
the array: the source has no check, every index it computes comes from
`physicalIndex` on a column below 44 and a row below 8. -/
def setLed (i : Nat) (c : CRGB) (s : State) : State :=
  if h : i < NUM_LEDS then { s with leds := Function.update s.leds ⟨i, h⟩ c } else s

/-- A counted loop `for (int i = 0; i < n; ++i) body(i)`. -/
def forUpTo {σ : Type} (n : Nat) (body : Nat → σ → σ) (s : σ) : σ :=
  (List.range n).foldl (fun acc i => body i acc) s

/-- Character `bitmap[r][c]` of a table of C strings; the position right
after the last character of a row holds the terminating NUL. -/
def bitmapAt (bitmap : List String) (r c : Nat) : Char :=
  ((bitmap.getD r "").toList).getD c (Char.ofNat 0)

/-! ## Status screens -/

/-- Table `BT_bitmap` of `drawBT`. -/
def BT_bitmap : List String := [
    ".....##.....",
    ".....#.#....",
    "...#.#.#....",
    "....###.....",
    "....###.....",
    "...#.#.#....",
    ".....#.#....",
    ".....##....."
  ]

/-- Function `void drawBT(bool on)`; the argument `on` is named `lit` here. -/
def drawBT (lit : Bool) (s : State) : State :=
  let s := fastLEDclear s
  let s :=
    if lit then
      forUpTo 8 (fun r s =>
        forUpTo 12 (fun c s =>
          if bitmapAt BT_bitmap r c = '#' then setLed (physicalIndex c r) CRGB.Blue s else s) s) s
    else s
  fastLEDshow s

/-- Table `READY_bitmap` of `showReady`. -/
def READY_bitmap : List String := [
    "......#...#.",
    ".###..#..#.",
    "#...#.#.#...",
    "#...#.##....",
    "#...#.#.#...",
    "#...#.#..#..",
    ".###..#...#.",
    "............"
  ]

/-- Function `void showReady()`. -/
def showReady (s : State) : State :=
  let s := fastLEDclear s
  let s :=
    forUpTo 8 (fun r s =>
      forUpTo 12 (fun c s =>
        if bitmapAt READY_bitmap r c = '#' then setLed (physicalIndex c r) CRGB.Green s else s) s) s
  fastLEDshow s

/-! ## SysEx command interpreter -/

/-- Function `void processSysEx(const std::vector<uint8_t>& msg)`.
`pl` is the pointer `msg.data()+3`, `len` the count `msg.size()-4`. -/
def processSysEx (msg : List Byte) (s : State) : State :=
  if msg.length < 5 then s
  else if msg.getD 0 0 ≠ 0xF0 ∨ msg.getD 1 0 ≠ 0x7D ∨ msg.getLastD 0 ≠ 0xF7 then s
  else
    let cmd : Byte := msg.getD 2 0
    let pl : List Byte := msg.drop 3
    let len : Nat := msg.length - 4
    if cmd = 0x01 then
      if len ≥ 1 then
        let s := { s with ledBrightness := pl.getD 0 0 }
        fastLEDsetBrightness s.ledBrightness s
      else s
    else if cmd = 0x02 then
      if len ≥ 3 then { s with colorWhiteKey := ⟨pl.getD 0 0, pl.getD 1 0, pl.getD 2 0⟩ } else s
    else if cmd = 0x03 then
      if len ≥ 3 then { s with colorBlackKey := ⟨pl.getD 0 0, pl.getD 1 0, pl.getD 2 0⟩ } else s
    else if cmd = 0x04 then
      if len ≥ 2 then
        { s with bufferIntervalMs :=
            (((pl.getD 0 0).val <<< 7) ||| (pl.getD 1 0).val) % 65536 }
      else s
    else s

/-! ## Column state -/

/-- Function `void allNotesOff()`. -/
def allNotesOff (s : State) : State :=
  let s := { s with active := fun _ => false }
  let s := { s with bufferRain := fun _ _ => false }
  fastLEDshow (fastLEDclear s)

/-! ## The BLE-MIDI decoder (`MidiCallbacks::onWrite`) -/

/-- First loop of `onWrite` ("Procesar SysEx"), from the cursor on: `d` is
the part of the chunk still to be read, `sysExBuf` the accumulation buffer.
The call `processSysEx(sysExBuf)` is the parameter `handle`, so that the
same scan can also list the frames it hands over. -/
def sysExPass {σ : Type} (handle : List Byte → σ → σ) :
    List Byte → List Byte → σ → σ
  | [], _, s => s
  | b :: rest, sysExBuf, s =>
    if b = 0xF0 then
      sysExPass handle rest [b] s
    else if ¬ sysExBuf.isEmpty then
      let sysExBuf := sysExBuf ++ [b]
      if b = 0xF7 then
        sysExPass handle rest [] (handle sysExBuf s)
      else
        sysExPass handle rest sysExBuf s
    else
      sysExPass handle rest sysExBuf s

/-- Frames that the first loop of `onWrite` hands to `processSysEx` for the
chunk `d`, in the order of the calls. -/
def sysExFrames (d : List Byte) : List (List Byte) :=
  sysExPass (fun frame acc => acc ++ [frame]) d [] []

/-- The statements under "NOTE ON / OFF" once `note` and `vel` are read. -/
def noteEvent (runningStatus : Nat) (note vel : Byte) (s : State) : State :=
  let degree := (note.val % 12) % 256
  let octave := (note.val / 12) % 256
  let key := (degree + (octave % NOTE_COLUMNS) * NUM_NOTES) % 256
  if h : key < NUM_NOTE_COLUMNS then
    if (runningStatus &&& 0xF0) = 0x90 ∧ vel.val > 0 then
      { s with active := Function.update s.active ⟨key, h⟩ true }
    else
      { s with active := Function.update s.active ⟨key, h⟩ false }
  else s

/-- Second loop of `onWrite` (notes and control changes), from the cursor
on: `d` is the part of the chunk still to be read (`b` is `d[j]`, the head
of `rest` is `d[j+1]`, and `j + 1 >= n` holds when `rest` is empty). -/
def notePass : List Byte → Nat → State → State
  | [], _, s => s
  | b :: rest, runningStatus, s =>
    if (b.val &&& 0x80) ≠ 0 ∧ (b.val &&& 0xF0) ≠ 0x80 ∧ (b.val &&& 0xF0) ≠ 0x90
        ∧ (b.val &&& 0xF0) ≠ 0xB0 then
      notePass rest runningStatus s
    else if (b.val &&& 0x80) ≠ 0 then
      notePass rest b.val s
    else if runningStatus = 0 then
      notePass rest runningStatus s
    else if (runningStatus &&& 0xF0) = 0x90 ∨ (runningStatus &&& 0xF0) = 0x80 then
      match rest with
      | [] => s
      | vel :: rest2 => notePass rest2 runningStatus (noteEvent runningStatus b vel s)
    else if (runningStatus &&& 0xF0) = 0xB0 then
      match rest with
      | [] => s
      | val :: rest2 =>
        notePass rest2 runningStatus (if b = 123 ∧ val = 0 then allNotesOff s else s)
    else
      notePass rest runningStatus s

/-- Method `MidiCallbacks::onWrite`, on the chunk `d` returned by
`chr->getValue()`. Both `sysExBuf` and `runningStatus` are locals: each
call starts with an empty buffer and with running status 0. -/
def onWrite (d : List Byte) (s : State) : State :=
  if d.isEmpty then s
  else
    let s := sysExPass processSysEx d [] s
    notePass d 0 s

/-! ## Connection callbacks -/

/-- Method `MyServerCallbacks::onConnect`; `now` is the value of `millis()`. -/
def onConnect (now : Nat) (s : State) : State :=
  { s with isConnected := true, showReadyFlag := true, readyStartTime := now % ULONG_MOD }

/-- Method `MyServerCallbacks::onDisconnect` (restarting the advertising
has no effect on the globals). -/
def onDisconnect (s : State) : State :=
  { s with isConnected := false }

/-! ## The control loop -/

/-- Difference `a - b` of two `unsigned long` values. -/
def subUL (a b : Nat) : Nat :=
  (a % ULONG_MOD + ULONG_MOD - b % ULONG_MOD) % ULONG_MOD

/-- Assignment `bufferRain[r][k] = v`. -/
def setRain (r : Fin LEDS_PER_NOTE) (k : Fin NUM_NOTE_COLUMNS) (v : Bool) (s : State) : State :=
  { s with bufferRain := Function.update s.bufferRain r (Function.update (s.bufferRain r) k v) }

/-- Rows visited by `for (int r = LEDS_PER_NOTE-1; r>0; --r)`. -/
def rowsDown : List (Fin LEDS_PER_NOTE) := [7, 6, 5, 4, 3, 2, 1]

/-- The two shift loops of `loop`: every row takes the row above it, then
row 0 takes `active`. -/
def shiftRain (s : State) : State :=
  let s := rowsDown.foldl (fun s r =>
    (List.finRange NUM_NOTE_COLUMNS).foldl (fun s k =>
      setRain r k (s.bufferRain ⟨r.val - 1, by omega⟩ k) s) s) s
  (List.finRange NUM_NOTE_COLUMNS).foldl (fun s k => setRain 0 k (s.active k) s) s

/-- The test `white` of `loop` on the column `k`. -/
def isWhiteKey (k : Nat) : Bool :=
  k % 12 == 0 || k % 12 == 2 || k % 12 == 4 || k % 12 == 5 || k % 12 == 7 || k % 12 == 9
    || k % 12 == 11

/-- The drawing loops of `loop`, after `FastLED.clear()`. -/
def paintRain (s : State) : State :=
  (List.finRange LEDS_PER_NOTE).foldl (fun s r =>
    (List.finRange NUM_NOTE_COLUMNS).foldl (fun s k =>
      if s.bufferRain r k then
        setLed (physicalIndex k.val r.val)
          (if isWhiteKey k.val then s.colorWhiteKey else s.colorBlackKey) s
      else s) s) s

/-- Function `void loop()`; `now` is the value returned by `millis()`. -/
def loop (now : Nat) (s : State) : State :=
  let now := now % ULONG_MOD
  if s.showReadyFlag then
    let s := showReady s
    if subUL now s.readyStartTime > 4000 then
      let s := { s with showReadyFlag := false }
      let s := fastLEDshow (fastLEDclear s)
      { s with bufferRain := fun _ _ => false }
    else s
  else if ¬ s.isConnected then
    if subUL now s.btBlinkLast > 600 then
      let s := { s with btBlinkLast := now }
      let s := { s with btBlinkOn := !s.btBlinkOn }
      drawBT s.btBlinkOn s
    else s
  else if subUL now s.lastStep ≥ s.bufferIntervalMs then
    let s := { s with lastStep := now }
    let s := shiftRain s
    let s := fastLEDclear s
    let s := paintRain s
    fastLEDshow s
  else s

/-- State after `setup()`: the initialisers of the globals, with the frame
cleared and shown, and both arrays zeroed. -/
def initState : State where
  leds := fun _ => CRGB.Black
  active := fun _ => false
  bufferRain := fun _ _ => false
  lastStep := 0
  bufferIntervalMs := 100
  ledBrightness := 50
  colorWhiteKey := CRGB.Blue
  colorBlackKey := CRGB.Purple
  showReadyFlag := false
  readyStartTime := 0
  btBlinkOn := false
  btBlinkLast := 0
  isConnected := false
  fastledBrightness := 50
  shown := fun _ => CRGB.Black

/-! ## SysEx frames of a chunk, by the words of the specification -/

/-- A frame by the specification: it begins with `0xF0`, ends with `0xF7`
and holds no other `0xF0` or `0xF7` byte in between. -/
def isSysExFrame (f : List Byte) : Bool :=
  f.head? == some 0xF0 && f.getLast? == some 0xF7 &&
    f.tail.dropLast.all (fun b => b != 0xF0 && b != 0xF7)

/-- Contiguous sub-sequences of a chunk, in order of occurrence: by start
position, then by length (the prefixes of every suffix). -/
def contiguous (d : List Byte) : List (List Byte) :=
  d.tails.flatMap List.inits

/-- Frames of a chunk by the specification: the contiguous sub-sequences
that are frames, in order of occurrence. -/
def framesBySpec (d : List Byte) : List (List Byte) :=
  (contiguous d).filter isSysExFrame

/-- A byte that is neither `0xF0` nor `0xF7`. -/
def notDelim (b : Byte) : Bool := b != 0xF0 && b != 0xF7

/-- The frame, if any, that an open accumulation `0xF0 :: acc` completes in
the bytes `r` that follow: the bytes up to the first `0xF0` or `0xF7` are
accumulated, and the frame is closed when that byte is `0xF7`. -/
def frameAfter (acc r : List Byte) : List (List Byte) :=
  match r.dropWhile notDelim with
  | [] => []
  | b :: _ => if b = 0xF7 then [0xF0 :: (acc ++ r.takeWhile notDelim ++ [0xF7])] else []

/-- Frames of a chunk, position by position: a frame starts at every `0xF0`
whose first following `0xF0` or `0xF7` is a `0xF7`. -/
def framesFrom : List Byte → List (List Byte)
  | [] => []
  | b :: rest => (if b = 0xF0 then frameAfter [] rest else []) ++ framesFrom rest

/-! ## RenderConfig -/

/-- The RenderConfig of a state: brightness, white-key colour, black-key
colour and tick interval (`ledBrightness`, `colorWhiteKey`, `colorBlackKey`,
`bufferIntervalMs`). -/
def renderConfig (s : State) : Byte × CRGB × CRGB × Nat :=
  (s.ledBrightness, s.colorWhiteKey, s.colorBlackKey, s.bufferIntervalMs)

/-! ## Sequences of render ticks -/

/-- The iteration of `loop` at time `now` from the state `s` is a streaming
render tick: the banner is off, the link is up, and the tick interval has
elapsed since the last step. -/
def isStreamingTick (now : Nat) (s : State) : Prop :=
  s.showReadyFlag = false ∧ s.isConnected = true ∧ subUL now s.lastStep ≥ s.bufferIntervalMs

instance (now : Nat) (s : State) : Decidable (isStreamingTick now s) := by
  unfold isStreamingTick
  infer_instance

/-- Consecutive iterations of `loop` at the times `nows`, nothing else
happening in between. -/
def runTicks (nows : List Nat) (s : State) : State :=
  nows.foldl (fun s now => loop now s) s

/-- Every iteration of `runTicks nows s` is a streaming render tick. -/
def allStreaming : List Nat → State → Prop
  | [], _ => True
  | now :: rest, s => isStreamingTick now s ∧ allStreaming rest (loop now s)

/-- State in which the strip is connected and streaming, no column is active
and the whole rain history is set. -/
def staleState : State :=
  { initState with isConnected := true, bufferRain := fun _ _ => true }

/-- The times `nows` are each at least the tick interval `interval` after
the one before, starting from `last` (the differences are those of
`unsigned long`). -/
def ticksElapsed (interval : Nat) : Nat → List Nat → Bool
  | _, [] => true
  | last, now :: rest =>
    decide (subUL now last ≥ interval) && ticksElapsed interval (now % ULONG_MOD) rest

/-! ## Overwriting transformers -/

/-- The transformer `f` overwrites the observation `o`: it either leaves it
as it is, or sets it to a value that does not depend on the state. -/
def Overwrites {α : Type} (o : State → α) (f : State → State) : Prop :=
  (∀ s, o (f s) = o s) ∨ (∃ v, ∀ s, o (f s) = v)

/-! ## The note/CC loop with a log of its running status -/

/-- Adds one iteration to the log of `notePassLog`: the running status `rs`
at the start of the iteration, and whether the iteration ran the final
`j++` of the loop body. -/
def logStep (rs : Nat) (fell : Bool) (r : State × List Nat × Bool) : State × List Nat × Bool :=
  (r.1, rs :: r.2.1, fell || r.2.2)

/-- The second loop of `onWrite` with a log: it returns the final state, the
values of `runningStatus` at the start of every iteration and when the loop
is left, and whether some iteration reached the final `j++` of the loop body
(the byte-by-byte skip kept for other status families). -/
def notePassLog : List Byte → Nat → State → State × List Nat × Bool
  | [], runningStatus, s => (s, [runningStatus], false)
  | b :: rest, runningStatus, s =>
    if (b.val &&& 0x80) ≠ 0 ∧ (b.val &&& 0xF0) ≠ 0x80 ∧ (b.val &&& 0xF0) ≠ 0x90
        ∧ (b.val &&& 0xF0) ≠ 0xB0 then
      logStep runningStatus false (notePassLog rest runningStatus s)
    else if (b.val &&& 0x80) ≠ 0 then
      logStep runningStatus false (notePassLog rest b.val s)
    else if runningStatus = 0 then
      logStep runningStatus false (notePassLog rest runningStatus s)
    else if (runningStatus &&& 0xF0) = 0x90 ∨ (runningStatus &&& 0xF0) = 0x80 then
      match rest with
      | [] => (s, [runningStatus], false)
      | vel :: rest2 =>
        logStep runningStatus false
          (notePassLog rest2 runningStatus (noteEvent runningStatus b vel s))
    else if (runningStatus &&& 0xF0) = 0xB0 then
      match rest with
      | [] => (s, [runningStatus], false)
      | val :: rest2 =>
        logStep runningStatus false
          (notePassLog rest2 runningStatus (if b = 123 ∧ val = 0 then allNotesOff s else s))
    else
      logStep runningStatus true (notePassLog rest runningStatus s)

/-- A running status that is 0 (none) or a byte of the families `0x8_`,
`0x9_`, `0xB_`. -/
def RsOK (x : Nat) : Prop :=
  x = 0 ∨ x &&& 0xF0 = 0x80 ∨ x &&& 0xF0 = 0x90 ∨ x &&& 0xF0 = 0xB0

/-! ## The decoder with checked reads

The same two loops and the same interpreter, written with the cursor `j` of
the source and with every read of a byte checked against the size of the
array it reads: a read outside the array stops the run with
`Fault.outOfBounds`. Each loop is given as many iterations as the chunk has
bytes; a loop that would need more stops with `Fault.outOfFuel`. -/

/-- What stops a checked run. -/
inductive Fault where
  | outOfBounds
  | outOfFuel
deriving DecidableEq, Repr

/-- Read `v[i]`, checked. -/
def readAt (v : List Byte) (i : Nat) : Except Fault Byte :=
  match v[i]? with
  | some b => Except.ok b
  | none => Except.error Fault.outOfBounds

/-- Function `processSysEx` with checked reads: `msg[0]`, `msg[1]`,
`msg.back()` (index `size - 1`), `msg[2]` and `pl[i]` (index `3 + i`). The
three reads of the shape test are all made, where the source stops at the
first one that decides the test. -/
def processSysExChecked (msg : List Byte) (s : State) : Except Fault State :=
  if msg.length < 5 then Except.ok s
  else
    match readAt msg 0, readAt msg 1, readAt msg (msg.length - 1) with
    | Except.ok b0, Except.ok b1, Except.ok bl =>
      if b0 ≠ 0xF0 ∨ b1 ≠ 0x7D ∨ bl ≠ 0xF7 then Except.ok s
      else
        match readAt msg 2 with
        | Except.error e => Except.error e
        | Except.ok cmd =>
          let len : Nat := msg.length - 4
          if cmd = 0x01 then
            if len ≥ 1 then
              match readAt msg 3 with
              | Except.ok p0 =>
                let s := { s with ledBrightness := p0 }
                Except.ok (fastLEDsetBrightness s.ledBrightness s)
              | Except.error e => Except.error e
            else Except.ok s
          else if cmd = 0x02 then
            if len ≥ 3 then
              match readAt msg 3, readAt msg 4, readAt msg 5 with
              | Except.ok p0, Except.ok p1, Except.ok p2 =>
                Except.ok { s with colorWhiteKey := ⟨p0, p1, p2⟩ }
              | _, _, _ => Except.error Fault.outOfBounds
            else Except.ok s
          else if cmd = 0x03 then
            if len ≥ 3 then
              match readAt msg 3, readAt msg 4, readAt msg 5 with
              | Except.ok p0, Except.ok p1, Except.ok p2 =>
                Except.ok { s with colorBlackKey := ⟨p0, p1, p2⟩ }
              | _, _, _ => Except.error Fault.outOfBounds
            else Except.ok s
          else if cmd = 0x04 then
            if len ≥ 2 then
              match readAt msg 3, readAt msg 4 with
              | Except.ok p0, Except.ok p1 =>
                Except.ok { s with bufferIntervalMs := ((p0.val <<< 7) ||| p1.val) % 65536 }
              | _, _ => Except.error Fault.outOfBounds
            else Except.ok s
          else Except.ok s
    | _, _, _ => Except.error Fault.outOfBounds

/-- First loop of `onWrite` with the cursor `j` and checked reads; `fuel` is
the number of iterations still allowed. -/
def sysExLoop (d : List Byte) : Nat → Nat → List Byte → State → Except Fault State
  | 0, j, _, s => if j < d.length then Except.error Fault.outOfFuel else Except.ok s
  | fuel + 1, j, sysExBuf, s =>
    if j < d.length then
      match readAt d j with
      | Except.error e => Except.error e
      | Except.ok b =>
        if b = 0xF0 then
          sysExLoop d fuel (j + 1) [b] s
        else if ¬ sysExBuf.isEmpty then
          if b = 0xF7 then
            match processSysExChecked (sysExBuf ++ [b]) s with
            | Except.error e => Except.error e
            | Except.ok s2 => sysExLoop d fuel (j + 1) [] s2
          else
            sysExLoop d fuel (j + 1) (sysExBuf ++ [b]) s
        else
          sysExLoop d fuel (j + 1) sysExBuf s
    else Except.ok s

/-- Second loop of `onWrite` with the cursor `j` and checked reads (`d[j]`,
and `d[j + 1]` after the test `j + 1 >= n`); `fuel` is the number of
iterations still allowed. -/
def noteLoop (d : List Byte) : Nat → Nat → Nat → State → Except Fault State
  | 0, j, _, s => if j < d.length then Except.error Fault.outOfFuel else Except.ok s
  | fuel + 1, j, runningStatus, s =>
    if j < d.length then
      match readAt d j with
      | Except.error e => Except.error e
      | Except.ok b =>
        if (b.val &&& 0x80) ≠ 0 ∧ (b.val &&& 0xF0) ≠ 0x80 ∧ (b.val &&& 0xF0) ≠ 0x90
            ∧ (b.val &&& 0xF0) ≠ 0xB0 then
          noteLoop d fuel (j + 1) runningStatus s
        else if (b.val &&& 0x80) ≠ 0 then
          noteLoop d fuel (j + 1) b.val s
        else if runningStatus = 0 then
          noteLoop d fuel (j + 1) runningStatus s
        else if (runningStatus &&& 0xF0) = 0x90 ∨ (runningStatus &&& 0xF0) = 0x80 then
          if j + 1 ≥ d.length then Except.ok s
          else
            match readAt d j, readAt d (j + 1) with
            | Except.ok note, Except.ok vel =>
              noteLoop d fuel (j + 2) runningStatus (noteEvent runningStatus note vel s)
            | _, _ => Except.error Fault.outOfBounds
        else if (runningStatus &&& 0xF0) = 0xB0 then
          if j + 1 ≥ d.length then Except.ok s
          else
            match readAt d j, readAt d (j + 1) with
            | Except.ok ctrl, Except.ok val =>
              noteLoop d fuel (j + 2) runningStatus
                (if ctrl = 123 ∧ val = 0 then allNotesOff s else s)
            | _, _ => Except.error Fault.outOfBounds
        else
          noteLoop d fuel (j + 1) runningStatus s
    else Except.ok s

/-- Method `MidiCallbacks::onWrite` with checked reads: each loop starts at
`j = 0` and may run `d.length` iterations. -/
def onWriteChecked (d : List Byte) (s : State) : Except Fault State :=
  if d.isEmpty then Except.ok s
  else
    match sysExLoop d d.length 0 [] s with
    | Except.error e => Except.error e
    | Except.ok s2 => noteLoop d d.length 0 0 s2

/-! ## The pairs decoded by the note/CC loop -/

/-- The second loop of `onWrite` with its two pair branches listed instead of
run: the triples `(runningStatus, d[j], d[j+1])` for which the loop reaches
the statements under "NOTE ON / OFF" or under "CONTROL CHANGE", in the order
in which it reaches them. -/
def notePairs : List Byte → Nat → List (Nat × Byte × Byte)
  | [], _ => []
  | b :: rest, runningStatus =>
    if (b.val &&& 0x80) ≠ 0 ∧ (b.val &&& 0xF0) ≠ 0x80 ∧ (b.val &&& 0xF0) ≠ 0x90
        ∧ (b.val &&& 0xF0) ≠ 0xB0 then
      notePairs rest runningStatus
    else if (b.val &&& 0x80) ≠ 0 then
      notePairs rest b.val
    else if runningStatus = 0 then
      notePairs rest runningStatus
    else if (runningStatus &&& 0xF0) = 0x90 ∨ (runningStatus &&& 0xF0) = 0x80 then
      match rest with
      | [] => []
      | vel :: rest2 => (runningStatus, b, vel) :: notePairs rest2 runningStatus
    else if (runningStatus &&& 0xF0) = 0xB0 then
      match rest with
      | [] => []
      | val :: rest2 => (runningStatus, b, val) :: notePairs rest2 runningStatus
    else
      notePairs rest runningStatus

/-- The statements the second loop runs on a pair it has decoded under the
running status `p.1`: those under "NOTE ON / OFF" for the families `0x9_`
and `0x8_`, those under "CONTROL CHANGE" for the family `0xB_`. -/
def pairEffect (p : Nat × Byte × Byte) (s : State) : State :=
  if (p.1 &&& 0xF0) = 0x90 ∨ (p.1 &&& 0xF0) = 0x80 then noteEvent p.1 p.2.1 p.2.2 s
  else if (p.1 &&& 0xF0) = 0xB0 then
    if p.2.1 = 123 ∧ p.2.2 = 0 then allNotesOff s else s
  else s

/-- Whether the statements run on a decoded pair reach a write of `active`:
the guard `key < NUM_NOTE_COLUMNS` of a note pair, the guard
`ctrl == 123 && val == 0` of a control-change pair. -/
def writesColumns (p : Nat × Byte × Byte) : Bool :=
  if (p.1 &&& 0xF0) = 0x90 ∨ (p.1 &&& 0xF0) = 0x80 then
    decide (((p.2.1.val % 12) % 256 + (((p.2.1.val / 12) % 256) % NOTE_COLUMNS) * NUM_NOTES) % 256
      < NUM_NOTE_COLUMNS)
  else if (p.1 &&& 0xF0) = 0xB0 then decide (p.2.1 = 123 ∧ p.2.2 = 0)
  else false

/-! ## States used as concrete inputs -/

/-- State in which the strip is connected and streaming, with every column
active and the whole rain history set. -/
def fullState : State :=
  { initState with isConnected := true, active := fun _ => true, bufferRain := fun _ _ => true }

/-! ## Physical addressing -/

/-- On the domain of the strip the index is `key * 11` plus the row, counted
from the top of the region on an odd column. -/
theorem physicalIndex_eq (key row : Nat) (hk : key < 44) (hr : row < 8) :
    physicalIndex key row = key * 11 + (if key % 2 = 1 then 7 - row else row) := by
  unfold physicalIndex
  have h1 : key % 256 = key := Nat.mod_eq_of_lt (by omega)
  have h2 : row % 256 = row := Nat.mod_eq_of_lt (by omega)
  have h3 : key * 11 % 65536 = key * 11 := Nat.mod_eq_of_lt (by omega)
  simp only [Nat.and_one_is_mod, REGION_SIZE, LEDS_PER_NOTE, BLANK_PER_NOTE, h1, h2, h3]
  split_ifs
  · omega
  · omega
  · omega
  · omega

/-- C1. For every column in `[0, 44)` and row in `[0, 8)` the value of
`physicalIndex` is below `NUM_LEDS = 484`, and `physicalIndex` is injective on
that domain. -/
theorem physicalIndex_in_range_and_injective :
    (∀ p : Fin NUM_NOTE_COLUMNS × Fin LEDS_PER_NOTE, physicalIndex p.1 p.2 < NUM_LEDS) ∧
    NUM_LEDS = 484 ∧
    Function.Injective
      (fun p : Fin NUM_NOTE_COLUMNS × Fin LEDS_PER_NOTE => physicalIndex p.1 p.2) := by
  refine ⟨?_, rfl, ?_⟩
  · rintro ⟨⟨k, hk⟩, ⟨r, hr⟩⟩
    simp only [NUM_NOTE_COLUMNS, LEDS_PER_NOTE] at hk hr
    simp only [physicalIndex_eq k r hk hr, NUM_LEDS, NUM_NOTE_COLUMNS, REGION_SIZE,
      LEDS_PER_NOTE, BLANK_PER_NOTE]
    split_ifs <;> omega
  · rintro ⟨⟨k1, hk1⟩, ⟨r1, hr1⟩⟩ ⟨⟨k2, hk2⟩, ⟨r2, hr2⟩⟩ h
    simp only [NUM_NOTE_COLUMNS, LEDS_PER_NOTE] at hk1 hr1 hk2 hr2
    simp only [physicalIndex_eq k1 r1 hk1 hr1, physicalIndex_eq k2 r2 hk2 hr2] at h
    have : k1 = k2 ∧ r1 = r2 := by
      split_ifs at h <;> omega
    simp [this.1, this.2]

/-! ## Bytes -/

theorem byte_val (n : Nat) (h : n < 256) : (byte n).val = n := Nat.mod_eq_of_lt h

theorem byte_ne_F0_of_lt (n : Nat) (h : n < 0xF0) : byte n ≠ 0xF0 := by
  intro e
  have h2 : (byte n).val = 240 := by rw [e]; rfl
  rw [byte_val n (by omega)] at h2
  omega

/-- A data byte (`0..127`) has its high bit clear. -/
theorem data_bits : ∀ n < 128, n &&& 0x80 = 0 := by
  decide

/-- The bits of a status byte `hi | c` of the family `hi`, for a channel nibble `c`. -/
theorem family_bits : ∀ c < 16, ∀ hi, hi = 0x80 ∨ hi = 0x90 ∨ hi = 0xB0 →
    (hi ||| c) < 0xF0 ∧ (hi ||| c) &&& 0x80 ≠ 0 ∧ (hi ||| c) &&& 0xF0 = hi := by
  intro c hc hi hhi
  rcases hhi with rfl | rfl | rfl <;> revert c <;> decide

set_option maxRecDepth 100000 in
/-- A byte of one of the families `0x8_`, `0x9_`, `0xB_` has its high bit set. -/
theorem status_high_bit : ∀ b : Byte,
    (b.val &&& 0xF0 = 0x80 ∨ b.val &&& 0xF0 = 0x90 ∨ b.val &&& 0xF0 = 0xB0) →
      b.val &&& 0x80 ≠ 0 := by
  decide

/-! ## One step of the note/CC loop -/

theorem notePass_status (b : Byte) (rest : List Byte) (rs : Nat) (s : State)
    (h : b.val &&& 0xF0 = 0x80 ∨ b.val &&& 0xF0 = 0x90 ∨ b.val &&& 0xF0 = 0xB0) :
    notePass (b :: rest) rs s = notePass rest b.val s := by
  have hb : b.val &&& 0x80 ≠ 0 := status_high_bit b h
  cases rest <;> rcases h with h | h | h <;> simp [notePass, hb, h]

theorem notePass_skip (b : Byte) (rest : List Byte) (rs : Nat) (s : State)
    (hb : b.val &&& 0x80 ≠ 0)
    (h : b.val &&& 0xF0 ≠ 0x80 ∧ b.val &&& 0xF0 ≠ 0x90 ∧ b.val &&& 0xF0 ≠ 0xB0) :
    notePass (b :: rest) rs s = notePass rest rs s := by
  cases rest <;> simp [notePass, hb, h]

theorem notePass_data_zero (b : Byte) (rest : List Byte) (s : State)
    (hb : b.val &&& 0x80 = 0) :
    notePass (b :: rest) 0 s = notePass rest 0 s := by
  cases rest <;> simp [notePass, hb]

theorem notePass_note (b vel : Byte) (rest : List Byte) (rs : Nat) (s : State)
    (hb : b.val &&& 0x80 = 0) (h : rs &&& 0xF0 = 0x90 ∨ rs &&& 0xF0 = 0x80) :
    notePass (b :: vel :: rest) rs s = notePass rest rs (noteEvent rs b vel s) := by
  have h0 : rs ≠ 0 := by rintro rfl; simp at h
  simp [notePass, hb, h, h0]

theorem notePass_note_last (b : Byte) (rs : Nat) (s : State)
    (hb : b.val &&& 0x80 = 0) (h : rs &&& 0xF0 = 0x90 ∨ rs &&& 0xF0 = 0x80) :
    notePass [b] rs s = s := by
  simp [notePass, hb, h]

theorem notePass_cc (b val : Byte) (rest : List Byte) (rs : Nat) (s : State)
    (hb : b.val &&& 0x80 = 0) (h : rs &&& 0xF0 = 0xB0) :
    notePass (b :: val :: rest) rs s
      = notePass rest rs (if b = 123 ∧ val = 0 then allNotesOff s else s) := by
  have h0 : rs ≠ 0 := by rintro rfl; simp at h
  simp [notePass, hb, h, h0]

theorem notePass_cc_last (b : Byte) (rs : Nat) (s : State)
    (hb : b.val &&& 0x80 = 0) (h : rs &&& 0xF0 = 0xB0) :
    notePass [b] rs s = s := by
  simp [notePass, hb, h]

/-! ## Chunks without a SysEx start -/

theorem sysExPass_no_start {σ : Type} (handle : List Byte → σ → σ) (d : List Byte)
    (h : ∀ b ∈ d, b ≠ 0xF0) (s : σ) : sysExPass handle d [] s = s := by
  induction d with
  | nil => rfl
  | cons b rest ih =>
    have hb : b ≠ 0xF0 := h b (List.mem_cons_self _ _)
    rw [sysExPass, if_neg hb, if_neg (by simp)]
    exact ih (fun x hx => h x (List.mem_cons_of_mem _ hx))

/-! ## Note messages -/

/-- The column of a note: `degree + (octave % NOTE_COLUMNS) * NUM_NOTES`. -/
theorem noteEvent_key (N : Nat) (hN : N < 128) :
    ((byte N).val % 12 % 256 + (byte N).val / 12 % 256 % NOTE_COLUMNS * NUM_NOTES) % 256
      = N % 12 + N / 12 % 4 * 12 := by
  rw [byte_val N (by omega)]
  have h1 : N % 12 % 256 = N % 12 := Nat.mod_eq_of_lt (by omega)
  have h2 : N / 12 % 256 = N / 12 := Nat.mod_eq_of_lt (by omega)
  rw [h1, h2]
  simp only [NOTE_COLUMNS, NUM_NOTES]
  exact Nat.mod_eq_of_lt (by omega)

/-- A complete three-byte note message in a chunk of its own is one `noteEvent`. -/
theorem onWrite_note_chunk (s : State) (hi c N v : Nat)
    (hhi : hi = 0x90 ∨ hi = 0x80) (hc : c < 16) (hN : N < 128) (hv : v < 128) :
    onWrite [byte (hi ||| c), byte N, byte v] s = noteEvent (hi ||| c) (byte N) (byte v) s := by
  obtain ⟨hF0, -, hfam⟩ := family_bits c hc hi (by tauto)
  have h256 : (hi ||| c) < 256 := by omega
  unfold onWrite
  simp only [List.isEmpty_cons, Bool.false_eq_true, if_false]
  rw [sysExPass_no_start]
  · rw [notePass_status _ _ _ _ (by rw [byte_val _ h256, hfam]; tauto), byte_val _ h256,
      notePass_note _ _ _ _ _ (by rw [byte_val _ (by omega)]; exact data_bits N hN)
        (by rw [hfam]; tauto)]
    rfl
  · intro b hb
    simp only [List.mem_cons, List.mem_singleton, List.not_mem_nil, or_false] at hb
    rcases hb with rfl | rfl | rfl
    · exact byte_ne_F0_of_lt _ hF0
    · exact byte_ne_F0_of_lt _ (by omega)
    · exact byte_ne_F0_of_lt _ (by omega)

/-- C2. For every channel nibble `c`, note `N` and velocity `v` in `0..127`,
decoding the single chunk `[0x90|c, N, v]` or `[0x80|c, N, v]` (`hi` is `0x90`
or `0x80`), with `column = N % 12 + (N / 12 % 4) * 12`: if `column ≥ 44` the
column state is unchanged; otherwise the column is active afterwards exactly
when the status is Note-On and `v > 0`, and every other column is unchanged. -/
theorem onWrite_note_message (s : State) (hi c N v : Nat)
    (hhi : hi = 0x90 ∨ hi = 0x80) (hc : c < 16) (hN : N < 128) (hv : v < 128) :
    (44 ≤ N % 12 + N / 12 % 4 * 12 →
      (onWrite [byte (hi ||| c), byte N, byte v] s).active = s.active) ∧
    (∀ h : N % 12 + N / 12 % 4 * 12 < 44,
      (onWrite [byte (hi ||| c), byte N, byte v] s).active ⟨N % 12 + N / 12 % 4 * 12, h⟩
          = decide (hi = 0x90 ∧ 0 < v) ∧
      ∀ k : Fin NUM_NOTE_COLUMNS, k ≠ ⟨N % 12 + N / 12 % 4 * 12, h⟩ →
        (onWrite [byte (hi ||| c), byte N, byte v] s).active k = s.active k) := by
  obtain ⟨-, -, hfam⟩ := family_bits c hc hi (by tauto)
  rw [onWrite_note_chunk s hi c N v hhi hc hN hv]
  unfold noteEvent
  simp only [noteEvent_key N hN, hfam, byte_val v (by omega : v < 256)]
  constructor
  · intro hge
    rw [dif_neg (by simp only [NUM_NOTE_COLUMNS]; omega)]
  · intro h
    rw [dif_pos (by simp only [NUM_NOTE_COLUMNS]; omega)]
    by_cases hp : hi = 0x90 ∧ v > 0
    · simp [hp, Function.update]
      intro k hk; simp [hk]
    · have hp2 : ¬ (hi = 0x90 ∧ 0 < v) := hp
      simp [hp, hp2, Function.update]
      intro k hk; simp [hk]

/-- Witness of C2: Note-On of middle C (note 60, velocity 100) on channel 0
switches column 12 on. -/
theorem onWrite_note_message_witness :
    ((0x90 : Nat) = 0x90 ∨ (0x90 : Nat) = 0x80) ∧ (0 : Nat) < 16 ∧ (60 : Nat) < 128
      ∧ (100 : Nat) < 128 ∧
    (onWrite [byte (0x90 ||| 0), byte 60, byte 100] initState).active ⟨12, by decide⟩ = true :=
  ⟨Or.inl rfl, by decide, by decide, by decide,
    ((onWrite_note_message initState 0x90 0 60 100 (Or.inl rfl) (by decide) (by decide)
      (by decide)).2 (by decide)).1⟩

/-! ## Messages split over two chunks -/

/-- A chunk made of one status byte changes nothing: the running status it
sets is a local of that call. -/
theorem onWrite_status_only (s : State) (hi c : Nat)
    (hhi : hi = 0x80 ∨ hi = 0x90 ∨ hi = 0xB0) (hc : c < 16) :
    onWrite [byte (hi ||| c)] s = s := by
  obtain ⟨hF0, -, hfam⟩ := family_bits c hc hi hhi
  have h256 : (hi ||| c) < 256 := by omega
  unfold onWrite
  simp only [List.isEmpty_cons, Bool.false_eq_true, if_false]
  rw [sysExPass_no_start]
  · rw [notePass_status _ _ _ _ (by rw [byte_val _ h256, hfam]; tauto)]
    rfl
  · intro b hb
    simp only [List.mem_singleton] at hb
    subst hb
    exact byte_ne_F0_of_lt _ hF0

/-- Data bytes met with running status 0 are discarded. -/
theorem notePass_data_only (d : List Byte) (s : State)
    (h : ∀ b ∈ d, b.val &&& 0x80 = 0) : notePass d 0 s = s := by
  induction d with
  | nil => rfl
  | cons b rest ih =>
    rw [notePass_data_zero b rest s (h b (List.mem_cons_self _ _))]
    exact ih (fun x hx => h x (List.mem_cons_of_mem _ hx))

set_option maxRecDepth 100000 in
/-- A data byte is not the SysEx start byte. -/
theorem data_ne_F0 : ∀ b : Byte, b.val &&& 0x80 = 0 → b ≠ 0xF0 := by
  decide

/-- A chunk of data bytes only changes nothing. -/
theorem onWrite_data_only (d : List Byte) (s : State)
    (h : ∀ b ∈ d, b.val &&& 0x80 = 0) : onWrite d s = s := by
  unfold onWrite
  split_ifs
  · rfl
  · simp only
    rw [sysExPass_no_start _ _ (fun b hb => data_ne_F0 b (h b hb)), notePass_data_only d s h]

theorem byte_data (n : Nat) (h : n < 128) : (byte n).val &&& 0x80 = 0 := by
  rw [byte_val n (by omega)]; exact data_bits n h

/-- C3, counterexample. From the state after `setup()`, the Note-On of note 60
with velocity 100 split as `[0x90]` then `[60, 100]` leaves column 12 inactive,
while the single chunk `[0x90, 60, 100]` activates it. -/
theorem split_after_status_counterexample :
    (onWrite [byte 60, byte 100] (onWrite [byte 0x90] initState)).active ⟨12, by decide⟩ = false ∧
    (onWrite [byte 0x90, byte 60, byte 100] initState).active ⟨12, by decide⟩ = true := by
  decide

/-- C3, amended. For every note `N` in `0..127` and velocity `v` in `1..127`,
the chunk `[0x90]` followed by the chunk `[N, v]` drops the event: the state
after the two chunks is the state before them, since the running status
restarts at 0 with every chunk; and when the derived column is below 44 the
single chunk `[0x90, N, v]` makes it active. -/
theorem split_after_status_dropped (s : State) (N v : Nat) (hN : N < 128) (hv1 : 1 ≤ v)
    (hv : v < 128) :
    onWrite [byte N, byte v] (onWrite [byte 0x90] s) = s ∧
    ∀ h : N % 12 + N / 12 % 4 * 12 < 44,
      (onWrite [byte 0x90, byte N, byte v] s).active ⟨N % 12 + N / 12 % 4 * 12, h⟩ = true := by
  constructor
  · have h1 : onWrite [byte 0x90] s = s := onWrite_status_only s 0x90 0 (by tauto) (by decide)
    rw [h1]
    apply onWrite_data_only
    intro b hb
    simp only [List.mem_cons, List.mem_singleton, List.not_mem_nil, or_false] at hb
    rcases hb with rfl | rfl
    · exact byte_data N hN
    · exact byte_data v hv
  · intro h
    have e := onWrite_note_chunk s 0x90 0 N v (Or.inl rfl) (by decide) hN hv
    have e2 : byte (0x90 ||| 0) = byte 0x90 := rfl
    rw [e2] at e
    rw [e]
    unfold noteEvent
    simp only [noteEvent_key N hN, byte_val v (by omega : v < 256)]
    rw [dif_pos (by simp only [NUM_NOTE_COLUMNS]; omega)]
    have hp : (0x90 ||| 0) &&& 0xF0 = 0x90 ∧ v > 0 := ⟨by decide, by omega⟩
    rw [if_pos hp]
    simp [Function.update]

/-- Witness of C3 (amended) at note 60, velocity 100. -/
theorem split_after_status_dropped_witness :
    (60 : Nat) < 128 ∧ 1 ≤ (100 : Nat) ∧ (100 : Nat) < 128 ∧
    onWrite [byte 60, byte 100] (onWrite [byte 0x90] initState) = initState :=
  ⟨by decide, by decide, by decide,
    (split_after_status_dropped initState 60 100 (by decide) (by decide) (by decide)).1⟩

/-- C4. For every Note-On or Note-Off status byte `hi | c`, note `N` and
velocity `v` in `0..127`, the chunk `[hi|c, N]` followed by the chunk `[v]`
drops the event: `active` and `bufferRain` after both chunks are those before
the first. -/
theorem split_between_note_and_velocity_dropped (s : State) (hi c N v : Nat)
    (hhi : hi = 0x90 ∨ hi = 0x80) (hc : c < 16) (hN : N < 128) (hv : v < 128) :
    (onWrite [byte v] (onWrite [byte (hi ||| c), byte N] s)).active = s.active ∧
    (onWrite [byte v] (onWrite [byte (hi ||| c), byte N] s)).bufferRain = s.bufferRain := by
  obtain ⟨hF0, -, hfam⟩ := family_bits c hc hi (by tauto)
  have h256 : (hi ||| c) < 256 := by omega
  have h1 : onWrite [byte (hi ||| c), byte N] s = s := by
    unfold onWrite
    simp only [List.isEmpty_cons, Bool.false_eq_true, if_false]
    rw [sysExPass_no_start]
    · rw [notePass_status _ _ _ _ (by rw [byte_val _ h256, hfam]; tauto), byte_val _ h256,
        notePass_note_last _ _ _ (byte_data N hN) (by rw [hfam]; tauto)]
    · intro b hb
      simp only [List.mem_cons, List.mem_singleton, List.not_mem_nil, or_false] at hb
      rcases hb with rfl | rfl
      · exact byte_ne_F0_of_lt _ hF0
      · exact byte_ne_F0_of_lt _ (by omega)
  have h2 : onWrite [byte v] s = s := by
    apply onWrite_data_only
    intro b hb
    simp only [List.mem_singleton] at hb
    subst hb
    exact byte_data v hv
  rw [h1, h2]
  exact ⟨rfl, rfl⟩

/-- Witness of C4 at Note-On, channel 0, note 60, velocity 100. -/
theorem split_between_note_and_velocity_dropped_witness :
    ((0x90 : Nat) = 0x90 ∨ (0x90 : Nat) = 0x80) ∧ (0 : Nat) < 16 ∧ (60 : Nat) < 128
      ∧ (100 : Nat) < 128 ∧
    (onWrite [byte 100] (onWrite [byte (0x90 ||| 0), byte 60] initState)).active
      = initState.active ∧
    (onWrite [byte 100] (onWrite [byte (0x90 ||| 0), byte 60] initState)).bufferRain
      = initState.bufferRain :=
  ⟨Or.inl rfl, by decide, by decide, by decide,
    split_between_note_and_velocity_dropped initState 0x90 0 60 100 (Or.inl rfl) (by decide)
      (by decide) (by decide)⟩

/-! ## All notes off -/

/-- A property that every step of a loop keeps holds after the loop. -/
theorem foldl_invariant {α σ : Type} (P : σ → Prop) (f : σ → α → σ) (l : List α) (s : σ)
    (h0 : P s) (hstep : ∀ s a, P s → P (f s a)) : P (l.foldl f s) := by
  induction l generalizing s with
  | nil => exact h0
  | cons a rest ih => exact ih (f s a) (hstep s a h0)

/-- The message `Bn 7B 00` in a chunk of its own is one call of `allNotesOff`. -/
theorem onWrite_allNotesOff_chunk (s : State) (c : Nat) (hc : c < 16) :
    onWrite [byte (0xB0 ||| c), byte 123, byte 0] s = allNotesOff s := by
  obtain ⟨hF0, -, hfam⟩ := family_bits c hc 0xB0 (by tauto)
  have h256 : (0xB0 ||| c) < 256 := by omega
  unfold onWrite
  simp only [List.isEmpty_cons, Bool.false_eq_true, if_false]
  rw [sysExPass_no_start]
  · rw [notePass_status _ _ _ _ (by rw [byte_val _ h256, hfam]; tauto), byte_val _ h256,
      notePass_cc _ _ _ _ _ (byte_data 123 (by decide)) hfam]
    rw [if_pos ⟨rfl, rfl⟩]
    rfl
  · intro b hb
    simp only [List.mem_cons, List.mem_singleton, List.not_mem_nil, or_false] at hb
    rcases hb with rfl | rfl | rfl
    · exact byte_ne_F0_of_lt _ hF0
    · exact byte_ne_F0_of_lt _ (by decide)
    · exact byte_ne_F0_of_lt _ (by decide)

/-- Reading `bufferRain` after the assignment `bufferRain[r][k] = v`. -/
theorem setRain_bufferRain (r r2 : Fin LEDS_PER_NOTE) (k k2 : Fin NUM_NOTE_COLUMNS) (v : Bool)
    (s : State) :
    (setRain r k v s).bufferRain r2 k2 = if r2 = r ∧ k2 = k then v else s.bufferRain r2 k2 := by
  unfold setRain
  by_cases hr : r2 = r
  · subst hr
    by_cases hk : k2 = k
    · subst hk; simp
    · simp [hk]
  · simp [hr]

/-- With no active column and an empty history, the shift leaves the history empty. -/
theorem shiftRain_all_false (s : State) (ha : ∀ k, s.active k = false)
    (hb : ∀ r k, s.bufferRain r k = false) :
    ∀ r k, (shiftRain s).bufferRain r k = false := by
  have step : ∀ (s : State) (r : Fin LEDS_PER_NOTE) (k : Fin NUM_NOTE_COLUMNS),
      ((∀ k, s.active k = false) ∧ ∀ r k, s.bufferRain r k = false) →
      ((∀ k, (setRain r k false s).active k = false)
        ∧ ∀ r2 k2, (setRain r k false s).bufferRain r2 k2 = false) := by
    intro s r k h
    refine ⟨h.1, fun r2 k2 => ?_⟩
    rw [setRain_bufferRain]
    split_ifs
    · rfl
    · exact h.2 _ _
  unfold shiftRain
  refine (foldl_invariant
    (fun s : State => (∀ k, s.active k = false) ∧ ∀ r k, s.bufferRain r k = false) _ _ _ ?_ ?_).2
  · refine foldl_invariant
      (fun s : State => (∀ k, s.active k = false) ∧ ∀ r k, s.bufferRain r k = false) _ _ _
      ⟨ha, hb⟩ ?_
    intro s r h
    refine foldl_invariant
      (fun s : State => (∀ k, s.active k = false) ∧ ∀ r k, s.bufferRain r k = false) _ _ _ h ?_
    intro s k h
    rw [h.2]
    exact step s r k h
  · intro s k h
    rw [h.1]
    exact step s 0 k h

/-- With an empty history the drawing loops write no LED. -/
theorem paintRain_all_false (s : State) (hb : ∀ r k, s.bufferRain r k = false) :
    paintRain s = s := by
  unfold paintRain
  refine (foldl_invariant
    (fun t : State => t = s) _ _ _ rfl ?_)
  intro t r ht
  refine (foldl_invariant
    (fun t : State => t = s) _ _ _ ht ?_)
  intro t k ht
  subst ht
  simp [hb]

/-- After `FastLED.clear()`, an empty history paints nothing. -/
theorem paintRain_clear_all_false (s : State) (hb : ∀ r k, s.bufferRain r k = false) :
    paintRain (fastLEDclear s) = fastLEDclear s :=
  paintRain_all_false (fastLEDclear s) hb

/-- The time difference does not depend on the reduction of `now`. -/
theorem subUL_mod (a b : Nat) : subUL (a % ULONG_MOD) b = subUL a b := by
  unfold subUL
  rw [Nat.mod_mod]

/-- A tick taken in streaming mode (banner off, connected, interval elapsed):
the time is recorded, the history shifted, and the frame rebuilt from black. -/
theorem loop_streaming (now : Nat) (s : State) (hready : s.showReadyFlag = false)
    (hconn : s.isConnected = true) (htick : subUL now s.lastStep ≥ s.bufferIntervalMs) :
    loop now s
      = fastLEDshow (paintRain (fastLEDclear (shiftRain { s with lastStep := now % ULONG_MOD }))) := by
  unfold loop
  dsimp only
  rw [if_neg (by simp [hready]), if_neg (by simp [hconn]), if_pos (by rwa [subUL_mod])]

/-- The shift that follows `allNotesOff` leaves the history empty. -/
theorem shiftRain_after_allNotesOff (s : State) (now : Nat) :
    ∀ r k, (shiftRain { allNotesOff s with lastStep := now % ULONG_MOD }).bufferRain r k
      = false := by
  have ha : ∀ k, (allNotesOff s).active k = false := fun _ => rfl
  have hb : ∀ r k, (allNotesOff s).bufferRain r k = false := fun _ _ => rfl
  exact shiftRain_all_false { allNotesOff s with lastStep := now % ULONG_MOD } ha hb

/-- A streaming tick right after `allNotesOff` clears and shows the frame, painting nothing. -/
theorem loop_after_allNotesOff_eq (s : State) (now : Nat)
    (hready : (allNotesOff s).showReadyFlag = false)
    (hconn : (allNotesOff s).isConnected = true)
    (htick : subUL now (allNotesOff s).lastStep ≥ (allNotesOff s).bufferIntervalMs) :
    loop now (allNotesOff s)
      = fastLEDshow (fastLEDclear
          (shiftRain { allNotesOff s with lastStep := now % ULONG_MOD })) := by
  rw [loop_streaming now (allNotesOff s) hready hconn htick,
    paintRain_clear_all_false _ (shiftRain_after_allNotesOff s now)]

/-- A streaming tick right after `allNotesOff` shows an all-black frame. -/
theorem loop_after_allNotesOff (s : State) (now : Nat)
    (hready : (allNotesOff s).showReadyFlag = false)
    (hconn : (allNotesOff s).isConnected = true)
    (htick : subUL now (allNotesOff s).lastStep ≥ (allNotesOff s).bufferIntervalMs) :
    (∀ i, (loop now (allNotesOff s)).leds i = CRGB.Black) ∧
    (∀ i, (loop now (allNotesOff s)).shown i = CRGB.Black) := by
  rw [loop_after_allNotesOff_eq s now hready hconn htick]
  exact ⟨fun _ => rfl, fun _ => rfl⟩

/-- C5. From every state, decoding the chunk `[0xB0|c, 123, 0]` makes every
column inactive and every cell of the rain history false, and the frame
produced by the next streaming render tick (banner off, connected, interval
elapsed at time `now`) has no lit LED, in the buffer and on the strip. -/
theorem allNotesOff_message_clears (s : State) (c now : Nat) (hc : c < 16)
    (hready : (onWrite [byte (0xB0 ||| c), byte 123, byte 0] s).showReadyFlag = false)
    (hconn : (onWrite [byte (0xB0 ||| c), byte 123, byte 0] s).isConnected = true)
    (htick : subUL now (onWrite [byte (0xB0 ||| c), byte 123, byte 0] s).lastStep
      ≥ (onWrite [byte (0xB0 ||| c), byte 123, byte 0] s).bufferIntervalMs) :
    (∀ k, (onWrite [byte (0xB0 ||| c), byte 123, byte 0] s).active k = false) ∧
    (∀ r k, (onWrite [byte (0xB0 ||| c), byte 123, byte 0] s).bufferRain r k = false) ∧
    (∀ i, (loop now (onWrite [byte (0xB0 ||| c), byte 123, byte 0] s)).leds i = CRGB.Black) ∧
    (∀ i, (loop now (onWrite [byte (0xB0 ||| c), byte 123, byte 0] s)).shown i = CRGB.Black) := by
  have e := onWrite_allNotesOff_chunk s c hc
  rw [e] at hready hconn htick
  rw [e]
  exact ⟨fun _ => rfl, fun _ _ => rfl, loop_after_allNotesOff s now hready hconn htick⟩

/-- Witness of C5: from `fullState`, after `B3 7B 00` the render tick at
time 1000 shows an all-black frame. -/
theorem allNotesOff_message_clears_witness :
    (3 : Nat) < 16 ∧
    (onWrite [byte (0xB0 ||| 3), byte 123, byte 0] fullState).showReadyFlag = false ∧
    (onWrite [byte (0xB0 ||| 3), byte 123, byte 0] fullState).isConnected = true ∧
    subUL 1000 (onWrite [byte (0xB0 ||| 3), byte 123, byte 0] fullState).lastStep
      ≥ (onWrite [byte (0xB0 ||| 3), byte 123, byte 0] fullState).bufferIntervalMs ∧
    (∀ i, (loop 1000 (onWrite [byte (0xB0 ||| 3), byte 123, byte 0] fullState)).shown i
      = CRGB.Black) :=
  ⟨by decide, by decide, by decide, by decide,
    (allNotesOff_message_clears fullState 3 1000 (by decide) (by decide) (by decide)
      (by decide)).2.2.2⟩

/-! ## The SysEx command interpreter -/

/-- Shape of a frame `F0 7D cmd payload... F7` as `processSysEx` reads it. -/
theorem frame_shape (cmd : Byte) (payload : List Byte) :
    ([0xF0, 0x7D, cmd] ++ payload ++ [0xF7]).length = payload.length + 4 ∧
    ([0xF0, 0x7D, cmd] ++ payload ++ [0xF7]).getD 0 0 = 0xF0 ∧
    ([0xF0, 0x7D, cmd] ++ payload ++ [0xF7]).getD 1 0 = 0x7D ∧
    ([0xF0, 0x7D, cmd] ++ payload ++ [0xF7]).getD 2 0 = cmd ∧
    ([0xF0, 0x7D, cmd] ++ payload ++ [0xF7]).getLastD 0 = 0xF7 ∧
    ([0xF0, 0x7D, cmd] ++ payload ++ [0xF7]).drop 3 = payload ++ [0xF7] := by
  refine ⟨by simp, rfl, rfl, rfl, List.getLastD_concat _ _ _, rfl⟩

/-- What `processSysEx` does on a frame `F0 7D cmd payload... F7` with at
least one payload byte: the dispatch on `cmd`, reading the payload. -/
theorem processSysEx_frame (cmd p0 : Byte) (rest : List Byte) (s : State) :
    processSysEx ([0xF0, 0x7D, cmd] ++ (p0 :: rest) ++ [0xF7]) s =
      if cmd = 0x01 then { s with ledBrightness := p0, fastledBrightness := p0 }
      else if cmd = 0x02 then
        if rest.length ≥ 2 then
          { s with colorWhiteKey := ⟨p0, (rest ++ [0xF7]).getD 0 0, (rest ++ [0xF7]).getD 1 0⟩ }
        else s
      else if cmd = 0x03 then
        if rest.length ≥ 2 then
          { s with colorBlackKey := ⟨p0, (rest ++ [0xF7]).getD 0 0, (rest ++ [0xF7]).getD 1 0⟩ }
        else s
      else if cmd = 0x04 then
        if rest.length ≥ 1 then
          { s with bufferIntervalMs := ((p0.val <<< 7) ||| ((rest ++ [0xF7]).getD 0 0).val) % 65536 }
        else s
      else s := by
  obtain ⟨hlen, h0, h1, h2, hL, hd⟩ := frame_shape cmd (p0 :: rest)
  unfold processSysEx
  rw [h0, h1, h2, hL, hd, hlen]
  simp only [List.length_cons, Nat.add_sub_cancel]
  rw [if_neg (by omega), if_neg (by simp)]
  have e1 : rest.length + 1 ≥ 1 := by omega
  have e3 : (rest.length + 1 ≥ 3) = (rest.length ≥ 2) := by
    apply propext; constructor <;> intro h <;> omega
  have e2 : (rest.length + 1 ≥ 2) = (rest.length ≥ 1) := by
    apply propext; constructor <;> intro h <;> omega
  simp only [e1, e3, e2, if_true, List.cons_append, List.getD_cons_zero, List.getD_cons_succ]
  rfl

/-- C6. For every frame `[0xF0, 0x7D, cmd, payload..., 0xF7]` given to
`processSysEx`: command `0x01` with a first payload byte `p0` sets the
brightness (of the sketch and of the driver) to `p0`; command `0x02` with
payload `p0 p1 p2 ...` sets the white-key colour to `(p0, p1, p2)`; command
`0x03` sets the black-key colour likewise; every other field is unchanged.
In particular `F0 7D 01 64 F7` sets the brightness to 100. -/
theorem processSysEx_commands (s : State) (p0 p1 p2 : Byte) (rest : List Byte) :
    processSysEx ([0xF0, 0x7D, 0x01] ++ (p0 :: rest) ++ [0xF7]) s
      = { s with ledBrightness := p0, fastledBrightness := p0 } ∧
    processSysEx ([0xF0, 0x7D, 0x02] ++ (p0 :: p1 :: p2 :: rest) ++ [0xF7]) s
      = { s with colorWhiteKey := ⟨p0, p1, p2⟩ } ∧
    processSysEx ([0xF0, 0x7D, 0x03] ++ (p0 :: p1 :: p2 :: rest) ++ [0xF7]) s
      = { s with colorBlackKey := ⟨p0, p1, p2⟩ } ∧
    (processSysEx [0xF0, 0x7D, 0x01, 0x64, 0xF7] s).ledBrightness = 100 := by
  refine ⟨?_, ?_, ?_, ?_⟩
  · rw [processSysEx_frame, if_pos rfl]
  · rw [processSysEx_frame, if_neg (by decide), if_pos rfl, if_pos (by simp)]
    rfl
  · rw [processSysEx_frame, if_neg (by decide), if_neg (by decide), if_pos rfl, if_pos (by simp)]
    rfl
  · have h := processSysEx_frame 0x01 0x64 [] s
    rw [if_pos rfl] at h
    have e : ([0xF0, 0x7D, 0x01, 0x64, 0xF7] : List Byte)
        = [0xF0, 0x7D, 0x01] ++ (0x64 :: []) ++ [0xF7] := rfl
    rw [e, h]

/-- C7. The interpreter `processSysEx` leaves the whole state, hence all of
RenderConfig, unchanged for every byte sequence `msg` that is shorter than 5
bytes, or whose first byte is not `0xF0`, or whose second byte is not `0x7D`,
or whose last byte is not `0xF7`, or whose command byte `msg[2]` is none of
`0x01..0x04`, or whose payload (`msg.length - 4` bytes) is shorter than the
command requires (1, 3, 3, 2 bytes). -/
theorem processSysEx_ignored (msg : List Byte) (s : State)
    (h : msg.length < 5 ∨ msg[0]? ≠ some 0xF0 ∨ msg[1]? ≠ some 0x7D ∨ msg.getLast? ≠ some 0xF7 ∨
      (msg[2]? ≠ some 0x01 ∧ msg[2]? ≠ some 0x02 ∧ msg[2]? ≠ some 0x03 ∧ msg[2]? ≠ some 0x04) ∨
      (msg[2]? = some 0x01 ∧ msg.length - 4 < 1) ∨
      (msg[2]? = some 0x02 ∧ msg.length - 4 < 3) ∨
      (msg[2]? = some 0x03 ∧ msg.length - 4 < 3) ∨
      (msg[2]? = some 0x04 ∧ msg.length - 4 < 2)) :
    processSysEx msg s = s := by
  unfold processSysEx
  by_cases hl : msg.length < 5
  · rw [if_pos hl]
  · rw [if_neg hl]
    have h0 : msg[0]? = some (msg.getD 0 0) := by
      rw [List.getD_eq_getElem?_getD, List.getElem?_eq_getElem (by omega)]; rfl
    have h1 : msg[1]? = some (msg.getD 1 0) := by
      rw [List.getD_eq_getElem?_getD, List.getElem?_eq_getElem (by omega)]; rfl
    have h2 : msg[2]? = some (msg.getD 2 0) := by
      rw [List.getD_eq_getElem?_getD, List.getElem?_eq_getElem (by omega)]; rfl
    have hL : msg.getLast? = some (msg.getLastD 0) := by
      cases msg with
      | nil => simp at hl
      | cons a l => simp [List.getLast?_eq_getLast]
    rw [h0, h1, h2, hL] at h
    simp only [Option.some.injEq, ne_eq] at h
    by_cases hg : msg.getD 0 0 ≠ 0xF0 ∨ msg.getD 1 0 ≠ 0x7D ∨ msg.getLastD 0 ≠ 0xF7
    · rw [if_pos hg]
    · rw [if_neg hg]
      dsimp only
      have hg0 := not_or.mp hg
      have hg1 := not_or.mp hg0.2
      rcases h with h | h | h | h | h | h | h | h | h
      · exact absurd h hl
      · exact absurd h hg0.1
      · exact absurd h hg1.1
      · exact absurd h hg1.2
      · rw [if_neg h.1, if_neg h.2.1, if_neg h.2.2.1, if_neg h.2.2.2]
      · omega
      · rw [h.1, if_neg (by decide), if_pos rfl, if_neg (by omega)]
      · rw [h.1, if_neg (by decide), if_neg (by decide), if_pos rfl, if_neg (by omega)]
      · rw [h.1, if_neg (by decide), if_neg (by decide), if_neg (by decide), if_pos rfl,
          if_neg (by omega)]

/-- Witness of C7: the frame `F0 7E 01 64 F7` has the wrong vendor byte. -/
theorem processSysEx_ignored_witness :
    ([0xF0, 0x7E, 0x01, 0x64, 0xF7] : List Byte)[1]? ≠ some 0x7D ∧
    processSysEx [0xF0, 0x7E, 0x01, 0x64, 0xF7] initState = initState :=
  ⟨by decide,
    processSysEx_ignored [0xF0, 0x7E, 0x01, 0x64, 0xF7] initState
      (Or.inr (Or.inr (Or.inl (by decide))))⟩

/-- The two 7-bit halves of the tick interval do not overflow 16 bits, and
the `|` of the source is a sum when the low byte is a 7-bit value. -/
theorem interval_bits (p0 p1 : Byte) :
    ((p0.val <<< 7) ||| p1.val) % 65536 = (p0.val <<< 7) ||| p1.val ∧
    (p1.val < 128 → (p0.val <<< 7) ||| p1.val = p0.val * 128 + p1.val) := by
  have h0 : p0.val <<< 7 = 2 ^ 7 * p0.val := by rw [Nat.shiftLeft_eq, Nat.mul_comm]
  constructor
  · apply Nat.mod_eq_of_lt
    have h1 : p0.val <<< 7 < 2 ^ 16 := by rw [h0]; have := p0.isLt; omega
    have h2 : p1.val < 2 ^ 16 := by have := p1.isLt; omega
    exact Nat.or_lt_two_pow h1 h2
  · intro h
    rw [h0, ← Nat.mul_add_lt_is_or (by omega : p1.val < 2 ^ 7)]
    omega

/-- C8, counterexample. The frame `F0 7D 04 01 80 F7` sets the tick interval
to 128, not to `1 * 128 + 128`, and the frame `F0 7D 04 FF 00 F7` sets it to
32640, which is not a 14-bit value. -/
theorem tick_interval_counterexample :
    (processSysEx [0xF0, 0x7D, 0x04, 0x01, 0x80, 0xF7] initState).bufferIntervalMs
      ≠ 0x01 * 128 + 0x80 ∧
    ¬ ((processSysEx [0xF0, 0x7D, 0x04, 0xFF, 0x00, 0xF7] initState).bufferIntervalMs
      < 16384) := by
  decide

/-- C8, amended. For every frame `[0xF0, 0x7D, 0x04, p0, p1, ..., 0xF7]`,
`processSysEx` sets the tick interval to `(p0 << 7) | p1` and changes nothing
else; the interval is `p0 * 128 + p1` when `p1` is in `0..127`, and it is a
14-bit value when `p0` and `p1` are both in `0..127`. -/
theorem tick_interval_command (s : State) (p0 p1 : Byte) (rest : List Byte) :
    processSysEx ([0xF0, 0x7D, 0x04] ++ (p0 :: p1 :: rest) ++ [0xF7]) s
      = { s with bufferIntervalMs := (p0.val <<< 7) ||| p1.val } ∧
    (p1.val < 128 →
      (processSysEx ([0xF0, 0x7D, 0x04] ++ (p0 :: p1 :: rest) ++ [0xF7]) s).bufferIntervalMs
        = p0.val * 128 + p1.val) ∧
    (p0.val < 128 → p1.val < 128 →
      (processSysEx ([0xF0, 0x7D, 0x04] ++ (p0 :: p1 :: rest) ++ [0xF7]) s).bufferIntervalMs
        < 16384) := by
  have e : processSysEx ([0xF0, 0x7D, 0x04] ++ (p0 :: p1 :: rest) ++ [0xF7]) s
      = { s with bufferIntervalMs := (p0.val <<< 7) ||| p1.val } := by
    rw [processSysEx_frame, if_neg (by decide), if_neg (by decide), if_neg (by decide),
      if_pos rfl, if_pos (by simp)]
    simp only [List.cons_append, List.getD_cons_zero, (interval_bits p0 p1).1]
  refine ⟨e, ?_, ?_⟩
  · intro h1
    rw [e]
    exact (interval_bits p0 p1).2 h1
  · intro h0 h1
    rw [e]
    have := (interval_bits p0 p1).2 h1
    show (p0.val <<< 7) ||| p1.val < 16384
    omega

/-- Witness of C8 (amended): `F0 7D 04 01 2C F7` sets the interval to 172 ms. -/
theorem tick_interval_command_witness :
    ((0x2C : Byte).val < 128) ∧
    (processSysEx ([0xF0, 0x7D, 0x04] ++ (0x01 :: 0x2C :: []) ++ [0xF7]) initState).bufferIntervalMs
      = (0x01 : Byte).val * 128 + (0x2C : Byte).val :=
  ⟨by decide, (tick_interval_command initState 0x01 0x2C []).2.1 (by decide)⟩

/-! ## The SysEx pass -/

/-- One step of the SysEx loop. -/
theorem sysExPass_cons {σ : Type} (handle : List Byte → σ → σ) (b : Byte)
    (rest buf : List Byte) (s : σ) :
    sysExPass handle (b :: rest) buf s =
      if b = 0xF0 then sysExPass handle rest [b] s
      else if buf = [] then sysExPass handle rest buf s
      else if b = 0xF7 then sysExPass handle rest [] (handle (buf ++ [b]) s)
      else sysExPass handle rest (buf ++ [b]) s := by
  rw [sysExPass]
  by_cases h1 : b = 0xF0
  · rw [if_pos h1, if_pos h1]
  · rw [if_neg h1, if_neg h1]
    by_cases h2 : buf = []
    · subst h2
      rw [if_neg (by simp), if_pos rfl]
    · have h3 : ¬ buf.isEmpty = true := by simpa using h2
      rw [if_pos h3, if_neg h2]

/-- The frames handed over are appended to those already listed. -/
theorem sysExPass_trace_acc (d buf : List Byte) (acc : List (List Byte)) :
    sysExPass (fun frame acc => acc ++ [frame]) d buf acc
      = acc ++ sysExPass (fun frame acc => acc ++ [frame]) d buf [] := by
  induction d generalizing buf acc with
  | nil => simp [sysExPass]
  | cons b rest ih =>
    rw [sysExPass_cons, sysExPass_cons]
    split_ifs with h1 h2 h3
    · exact ih _ _
    · exact ih _ _
    · rw [ih _ (acc ++ [buf ++ [b]]), ih _ ([] ++ [buf ++ [b]])]
      simp
    · exact ih _ _

/-- The SysEx pass of `onWrite` calls its handler on the frames of
`sysExFrames`, in that order. -/
theorem sysExPass_eq_foldl {σ : Type} (handle : List Byte → σ → σ) (d buf : List Byte) (s : σ) :
    sysExPass handle d buf s
      = (sysExPass (fun frame acc => acc ++ [frame]) d buf []).foldl
          (fun s frame => handle frame s) s := by
  induction d generalizing buf s with
  | nil => simp [sysExPass]
  | cons b rest ih =>
    rw [sysExPass_cons, sysExPass_cons]
    split_ifs with h1 h2 h3
    · exact ih _ _
    · exact ih _ _
    · rw [ih, sysExPass_trace_acc rest [] ([] ++ [buf ++ [b]])]
      simp
    · exact ih _ _

theorem notDelim_iff (b : Byte) : notDelim b = true ↔ b ≠ 0xF0 ∧ b ≠ 0xF7 := by
  simp [notDelim]

/-- The scan of the source, with an empty buffer and with an open
accumulation, in terms of the frames found position by position. -/
theorem sysExPass_trace_eq (d : List Byte) :
    sysExPass (fun frame acc => acc ++ [frame]) d [] [] = framesFrom d ∧
    ∀ acc, sysExPass (fun frame acc => acc ++ [frame]) d (0xF0 :: acc) []
      = frameAfter acc d ++ framesFrom d := by
  induction d with
  | nil => exact ⟨rfl, fun _ => rfl⟩
  | cons b rest ih =>
    obtain ⟨ih1, ih2⟩ := ih
    constructor
    · rw [sysExPass_cons, framesFrom]
      by_cases h1 : b = 0xF0
      · subst h1
        rw [if_pos rfl, if_pos rfl]
        exact ih2 []
      · rw [if_neg h1, if_neg h1, if_pos rfl, ih1]
        rfl
    · intro acc
      rw [sysExPass_cons, framesFrom]
      by_cases h1 : b = 0xF0
      · subst h1
        rw [if_pos rfl, if_pos rfl, ih2 []]
        have : frameAfter acc (0xF0 :: rest) = [] := by
          simp [frameAfter, List.dropWhile, notDelim]
        rw [this]
        rfl
      · rw [if_neg h1, if_neg h1, if_neg (by simp)]
        by_cases h2 : b = 0xF7
        · subst h2
          rw [if_pos rfl, sysExPass_trace_acc, ih1]
          have : frameAfter acc (0xF7 :: rest) = [0xF0 :: (acc ++ [0xF7])] := by
            simp [frameAfter, List.dropWhile, List.takeWhile, notDelim]
          rw [this]
          simp
        · rw [if_neg h2]
          have hn : notDelim b = true := (notDelim_iff b).2 ⟨h1, h2⟩
          have e : (0xF0 :: acc) ++ [b] = 0xF0 :: (acc ++ [b]) := rfl
          rw [e, ih2 (acc ++ [b])]
          have : frameAfter acc (b :: rest) = frameAfter (acc ++ [b]) rest := by
            simp [frameAfter, List.dropWhile, List.takeWhile, hn]
          rw [this]
          simp

/-! ## Frames by the specification -/

theorem isSysExFrame_nil : isSysExFrame [] = false := rfl

theorem isSysExFrame_start : isSysExFrame [0xF0] = false := by decide

theorem isSysExFrame_two (z : Byte) : isSysExFrame [0xF0, z] = (z == 0xF7) := by
  simp [isSysExFrame]

theorem isSysExFrame_step (c c2 : Byte) (y : List Byte) :
    isSysExFrame (0xF0 :: c :: c2 :: y) = (notDelim c && isSysExFrame (0xF0 :: c2 :: y)) := by
  simp only [isSysExFrame, notDelim, List.head?_cons, List.getLast?_cons_cons, List.tail_cons,
    List.dropLast_cons₂, List.all_cons]
  cases (List.getLast? (c2 :: y) == some 0xF7) <;> simp

theorem isSysExFrame_other (b : Byte) (y : List Byte) (h : b ≠ 0xF0) :
    isSysExFrame (b :: y) = false := by
  simp [isSysExFrame, h]

/-- Among the prefixes of a list, only the first one is empty. -/
theorem filter_isEmpty_inits (r : List Byte) :
    (List.inits r).filter (fun y => y.isEmpty) = [[]] := by
  cases r with
  | nil => rfl
  | cons a r =>
    rw [List.inits_cons, List.filter_cons_of_pos (by rfl)]
    congr 1
    rw [List.filter_eq_nil_iff]
    intro y hy
    rw [List.mem_map] at hy
    obtain ⟨z, -, rfl⟩ := hy
    simp

/-- The prefixes of `r` that close a frame opened just before `r`. -/
theorem filter_inits_frame (r : List Byte) :
    ((List.inits r).filter (fun y => isSysExFrame (0xF0 :: y))).map (fun y => 0xF0 :: y)
      = frameAfter [] r := by
  induction r with
  | nil => simp [frameAfter, isSysExFrame_start]
  | cons c r ih =>
    rw [List.inits_cons, List.filter_cons_of_neg (by simp [isSysExFrame_start]), List.filter_map]
    by_cases h1 : c = 0xF0
    · subst h1
      have hf : ∀ y ∈ List.inits r, ¬ ((fun y => isSysExFrame (0xF0 :: y)) ∘ fun t => 0xF0 :: t) y = true := by
        intro y _
        cases y with
        | nil => simp [isSysExFrame_two]
        | cons c2 y => simp [isSysExFrame_step, notDelim]
      rw [List.filter_eq_nil_iff.2 hf]
      simp [frameAfter, List.dropWhile, notDelim]
    · by_cases h2 : c = 0xF7
      · subst h2
        have hf : ((fun y => isSysExFrame (0xF0 :: y)) ∘ fun t => 0xF7 :: t)
            = fun y => y.isEmpty := by
          funext y
          cases y with
          | nil => simp [isSysExFrame_two]
          | cons c2 y => simp [isSysExFrame_step, notDelim]
        rw [hf, filter_isEmpty_inits]
        simp [frameAfter, List.dropWhile, List.takeWhile, notDelim]
      · have hn : notDelim c = true := (notDelim_iff c).2 ⟨h1, h2⟩
        have hf : ((fun y => isSysExFrame (0xF0 :: y)) ∘ fun t => c :: t)
            = fun y => isSysExFrame (0xF0 :: y) := by
          funext y
          cases y with
          | nil => simp [isSysExFrame_two, isSysExFrame_start, h2]
          | cons c2 y => simp [isSysExFrame_step, hn]
        rw [hf]
        have e : frameAfter [] (c :: r) = (frameAfter [] r).map (fun f => 0xF0 :: c :: f.tail) := by
          simp only [frameAfter, List.dropWhile, List.takeWhile, hn]
          split
          · rfl
          · split_ifs <;> simp
        rw [e, ← ih]
        simp [List.map_map, Function.comp]

/-- The frames that start at the first byte of a chunk. -/
theorem filter_inits_cons (b : Byte) (rest : List Byte) :
    (List.inits (b :: rest)).filter isSysExFrame
      = if b = 0xF0 then frameAfter [] rest else [] := by
  rw [List.inits_cons, List.filter_cons_of_neg (by simp [isSysExFrame_nil]), List.filter_map]
  by_cases h : b = 0xF0
  · subst h
    rw [if_pos rfl, ← filter_inits_frame rest]
    rfl
  · rw [if_neg h]
    have hf : ∀ y ∈ List.inits rest, ¬ (isSysExFrame ∘ fun t => b :: t) y = true := by
      intro y _
      simp [isSysExFrame_other b y h]
    rw [List.filter_eq_nil_iff.2 hf]
    rfl

/-- The frames by the specification are the frames found position by position. -/
theorem framesBySpec_eq_framesFrom (d : List Byte) : framesBySpec d = framesFrom d := by
  induction d with
  | nil => rfl
  | cons b rest ih =>
    have e : framesBySpec (b :: rest)
        = (List.inits (b :: rest)).filter isSysExFrame ++ framesBySpec rest := by
      unfold framesBySpec contiguous
      rw [List.tails_cons, List.flatMap, List.map_cons, List.flatten_cons, List.filter_append]
      rfl
    rw [e, filter_inits_cons, ih, framesFrom]

/-- C9. For every chunk `d`, the frames that the SysEx pass of `onWrite`
hands to `processSysEx` (the pass is the fold of `processSysEx` over
`sysExFrames d`) are exactly, in order of occurrence, the contiguous
sub-sequences of `d` that begin with `0xF0`, end with `0xF7` and hold no
other `0xF0` or `0xF7` in between; in particular every frame handed over has
that shape, so no byte accumulated before a restarting `0xF0` is in it. -/
theorem sysExFrames_eq_framesBySpec (d : List Byte) :
    (∀ s : State, sysExPass processSysEx d [] s
      = (sysExFrames d).foldl (fun s frame => processSysEx frame s) s) ∧
    sysExFrames d = framesBySpec d ∧
    ∀ f ∈ sysExFrames d, isSysExFrame f = true := by
  have e : sysExFrames d = framesBySpec d := by
    rw [framesBySpec_eq_framesFrom]
    exact (sysExPass_trace_eq d).1
  refine ⟨fun s => sysExPass_eq_foldl processSysEx d [] s, e, ?_⟩
  intro f hf
  rw [e, framesBySpec, List.mem_filter] at hf
  exact hf.2

/-! ## A SysEx frame and the note/CC loop -/

/-- The interpreter `processSysEx` writes neither `active` nor `bufferRain`. -/
theorem processSysEx_columns (msg : List Byte) (s : State) :
    (processSysEx msg s).active = s.active ∧ (processSysEx msg s).bufferRain = s.bufferRain := by
  unfold processSysEx
  dsimp only
  split_ifs <;> exact ⟨rfl, rfl⟩

/-- The SysEx pass writes neither `active` nor `bufferRain`. -/
theorem sysExPass_columns (d buf : List Byte) (s : State) :
    (sysExPass processSysEx d buf s).active = s.active ∧
    (sysExPass processSysEx d buf s).bufferRain = s.bufferRain := by
  rw [sysExPass_eq_foldl]
  refine foldl_invariant (fun t : State => t.active = s.active ∧ t.bufferRain = s.bufferRain)
    _ _ s ⟨rfl, rfl⟩ ?_
  intro t f ht
  obtain ⟨h1, h2⟩ := processSysEx_columns f t
  exact ⟨h1.trans ht.1, h2.trans ht.2⟩

/-- With no byte of the families `0x8_`, `0x9_`, `0xB_` in the chunk, the
running status stays 0 and the note/CC loop changes nothing. -/
theorem notePass_no_status (d : List Byte) (s : State)
    (h : ∀ b ∈ d, b.val &&& 0xF0 ≠ 0x80 ∧ b.val &&& 0xF0 ≠ 0x90 ∧ b.val &&& 0xF0 ≠ 0xB0) :
    notePass d 0 s = s := by
  induction d with
  | nil => rfl
  | cons b rest ih =>
    have hb := h b (List.mem_cons_self _ _)
    have hrest := ih (fun x hx => h x (List.mem_cons_of_mem _ hx))
    by_cases hbit : b.val &&& 0x80 = 0
    · rw [notePass_data_zero b rest s hbit, hrest]
    · rw [notePass_skip b rest 0 s hbit hb, hrest]

/-- A chunk with no byte of the families `0x8_`, `0x9_`, `0xB_` leaves
`active` and `bufferRain` as they were. -/
theorem onWrite_no_status (d : List Byte) (s : State)
    (h : ∀ b ∈ d, b.val &&& 0xF0 ≠ 0x80 ∧ b.val &&& 0xF0 ≠ 0x90 ∧ b.val &&& 0xF0 ≠ 0xB0) :
    (onWrite d s).active = s.active ∧ (onWrite d s).bufferRain = s.bufferRain := by
  unfold onWrite
  split_ifs
  · exact ⟨rfl, rfl⟩
  · dsimp only
    rw [notePass_no_status d _ h]
    exact sysExPass_columns d [] s

/-- C10, counterexample. The chunk `F0 7D 02 90 3C 64 F7` is one well-formed
frame (white-key colour `(0x90, 0x3C, 0x64)`), and decoding it from the state
after `setup()` switches column 12 on: the payload is read as a Note-On. -/
theorem sysEx_frame_reinterpreted_counterexample :
    initState.active ⟨12, by decide⟩ = false ∧
    (onWrite [0xF0, 0x7D, 0x02, 0x90, 0x3C, 0x64, 0xF7] initState).active ⟨12, by decide⟩ = true ∧
    (onWrite [0xF0, 0x7D, 0x02, 0x90, 0x3C, 0x64, 0xF7] initState).colorWhiteKey
      = ⟨0x90, 0x3C, 0x64⟩ := by
  decide

/-! ## The passes as compositions of events -/

/-- Whatever holds of the identity, of every note event and of `allNotesOff`,
and is kept by composition, holds of the note/CC loop on every chunk. -/
theorem notePass_closure (C : (State → State) → Prop) (hid : C (fun s => s))
    (hcomp : ∀ f g, C f → C g → C (fun s => f (g s)))
    (hnote : ∀ rs note vel, C (noteEvent rs note vel)) (hoff : C allNotesOff) :
    ∀ (d : List Byte) (rs : Nat), C (fun s => notePass d rs s) := by
  have key : ∀ n (d : List Byte), d.length ≤ n → ∀ rs, C (fun s => notePass d rs s) := by
    intro n
    induction n with
    | zero =>
      intro d hd rs
      have : d = [] := List.length_eq_zero.mp (by omega)
      subst this
      exact hid
    | succ n ih =>
      intro d hd rs
      cases d with
      | nil => exact hid
      | cons b rest =>
        have hrest : rest.length ≤ n := by simpa using hd
        cases rest with
        | nil =>
          have e : (fun s => notePass [b] rs s) = fun s => s := by
            funext s
            simp only [notePass]
            split_ifs <;> rfl
          rw [e]
          exact hid
        | cons v rest2 =>
          have h2 : rest2.length ≤ n := by
            simp only [List.length_cons] at hrest; omega
          have c1 := fun rs => ih (v :: rest2) hrest rs
          have c2 := fun rs => ih rest2 h2 rs
          simp only [notePass]
          split_ifs
          · exact c1 rs
          · exact c1 _
          · exact c1 rs
          · exact hcomp _ _ (c2 rs) (hnote rs b v)
          · exact hcomp _ _ (c2 rs) hoff
          · exact c2 rs
          · exact c1 rs
  intro d rs
  exact key d.length d (Nat.le_refl _) rs

/-- Whatever the note events and `allNotesOff` keep, the note/CC loop keeps. -/
theorem notePass_preserves (Q : State → Prop)
    (hnote : ∀ rs note vel s, Q s → Q (noteEvent rs note vel s))
    (hoff : ∀ s, Q s → Q (allNotesOff s)) (d : List Byte) (rs : Nat) (s : State) (h : Q s) :
    Q (notePass d rs s) :=
  notePass_closure (fun f => ∀ s, Q s → Q (f s)) (fun _ h => h)
    (fun _ _ hf hg s h => hf _ (hg s h)) (fun rs note vel s h => hnote rs note vel s h)
    hoff d rs s h

/-- A note event writes no field of RenderConfig. -/
theorem noteEvent_renderConfig (rs : Nat) (note vel : Byte) (s : State) :
    renderConfig (noteEvent rs note vel s) = renderConfig s := by
  unfold noteEvent
  dsimp only
  split_ifs <;> rfl

/-- The note/CC loop writes no field of RenderConfig. -/
theorem notePass_renderConfig (d : List Byte) (rs : Nat) (s : State) :
    renderConfig (notePass d rs s) = renderConfig s :=
  notePass_preserves (fun t => renderConfig t = renderConfig s)
    (fun rs note vel t h => (noteEvent_renderConfig rs note vel t).trans h)
    (fun _ h => h) d rs s rfl

/-- The RenderConfig after a chunk is the one left by its SysEx pass. -/
theorem onWrite_renderConfig (d : List Byte) (s : State) :
    renderConfig (onWrite d s) = renderConfig (sysExPass processSysEx d [] s) := by
  unfold onWrite
  split_ifs with h
  · have : d = [] := by simpa using h
    subst this
    rfl
  · exact notePass_renderConfig d 0 _

/-- Without a `0xF7` in the chunk the SysEx pass hands over nothing. -/
theorem sysExPass_no_end {σ : Type} (handle : List Byte → σ → σ) (d : List Byte)
    (h : ∀ b ∈ d, b ≠ 0xF7) (buf : List Byte) (s : σ) : sysExPass handle d buf s = s := by
  induction d generalizing buf with
  | nil => rfl
  | cons b rest ih =>
    have hb : b ≠ 0xF7 := h b (List.mem_cons_self _ _)
    have hr := fun buf => ih (fun x hx => h x (List.mem_cons_of_mem _ hx)) buf
    rw [sysExPass_cons]
    split_ifs
    · exact hr _
    · exact hr _
    · exact hr _

/-- An open accumulation followed by bytes without `0xF0`/`0xF7` and by a
`0xF7` hands over exactly one frame. -/
theorem sysExPass_close {σ : Type} (handle : List Byte → σ → σ) (mid : List Byte)
    (h : ∀ b ∈ mid, b ≠ 0xF0 ∧ b ≠ 0xF7) (acc : List Byte) (s : σ) :
    sysExPass handle (mid ++ [0xF7]) (0xF0 :: acc) s = handle (0xF0 :: (acc ++ mid ++ [0xF7])) s := by
  induction mid generalizing acc with
  | nil =>
    rw [List.nil_append, sysExPass_cons, if_neg (by decide), if_neg (by simp), if_pos rfl]
    simp [sysExPass]
  | cons b rest ih =>
    have hb := h b (List.mem_cons_self _ _)
    rw [List.cons_append, sysExPass_cons, if_neg hb.1, if_neg (by simp), if_neg hb.2]
    have e : (0xF0 :: acc) ++ [b] = 0xF0 :: (acc ++ [b]) := rfl
    rw [e, ih (fun x hx => h x (List.mem_cons_of_mem _ hx))]
    simp

/-- The SysEx pass over a chunk that is one frame is one call of `processSysEx`. -/
theorem sysExPass_one_frame {σ : Type} (handle : List Byte → σ → σ) (mid : List Byte)
    (h : ∀ b ∈ mid, b ≠ 0xF0 ∧ b ≠ 0xF7) (s : σ) :
    sysExPass handle (0xF0 :: (mid ++ [0xF7])) [] s = handle (0xF0 :: (mid ++ [0xF7])) s := by
  rw [sysExPass_cons, if_pos rfl, sysExPass_close handle mid h [] s]
  rfl

/-- C11, counterexample. From the state after `setup()` (brightness 50), the
frame `F0 7D 01 64 F7` fed as `F0 7D 01 64` then `F7` leaves the brightness at
50, while the whole frame in one chunk sets it to 100: the two RenderConfigs
differ. -/
theorem sysEx_split_counterexample :
    (onWrite [0xF7] (onWrite [0xF0, 0x7D, 0x01, 0x64] initState)).ledBrightness = 50 ∧
    (onWrite [0xF0, 0x7D, 0x01, 0x64, 0xF7] initState).ledBrightness = 100 ∧
    renderConfig (onWrite [0xF7] (onWrite [0xF0, 0x7D, 0x01, 0x64] initState))
      ≠ renderConfig (onWrite [0xF0, 0x7D, 0x01, 0x64, 0xF7] initState) := by
  decide

/-- C11, amended. For every frame `[0xF0, 0x7D, cmd, payload..., 0xF7]`
whose command and payload bytes are neither `0xF0` nor `0xF7`, and every split
point `i` strictly inside the frame, feeding the two pieces as two consecutive
chunks leaves RenderConfig as it was before them (the frame is dropped: the
accumulation buffer is a local of each `onWrite` call), whereas the whole
frame in one chunk leaves the RenderConfig that `processSysEx` computes on it. -/
theorem sysEx_split_dropped (s : State) (cmd : Byte) (payload : List Byte) (i : Nat)
    (h : ∀ b ∈ cmd :: payload, b ≠ 0xF0 ∧ b ≠ 0xF7)
    (hi0 : 0 < i) (hi : i < ([0xF0, 0x7D, cmd] ++ payload ++ [0xF7]).length) :
    renderConfig (onWrite (([0xF0, 0x7D, cmd] ++ payload ++ [0xF7]).drop i)
        (onWrite (([0xF0, 0x7D, cmd] ++ payload ++ [0xF7]).take i) s)) = renderConfig s ∧
    renderConfig (onWrite ([0xF0, 0x7D, cmd] ++ payload ++ [0xF7]) s)
      = renderConfig (processSysEx ([0xF0, 0x7D, cmd] ++ payload ++ [0xF7]) s) := by
  have hmid : ∀ b ∈ (0x7D : Byte) :: cmd :: payload, b ≠ 0xF0 ∧ b ≠ 0xF7 := by
    intro b hb
    rcases List.mem_cons.mp hb with rfl | hb
    · decide
    · exact h b hb
  constructor
  · have h1 : ∀ b ∈ ([0xF0, 0x7D, cmd] ++ payload ++ [0xF7]).take i, b ≠ 0xF7 := by
      intro b hb
      have hlen : i ≤ ([0xF0, 0x7D, cmd] ++ payload).length := by
        simp only [List.length_append, List.length_cons, List.length_nil] at hi ⊢
        omega
      rw [List.take_append_of_le_length hlen] at hb
      have hb2 := List.mem_of_mem_take hb
      rcases List.mem_cons.mp hb2 with rfl | hb3
      · decide
      · exact (hmid b hb3).2
    have h2 : ∀ b ∈ ([0xF0, 0x7D, cmd] ++ payload ++ [0xF7]).drop i, b ≠ 0xF0 := by
      intro b hb
      obtain ⟨j, rfl⟩ : ∃ j, i = j + 1 := ⟨i - 1, by omega⟩
      have e : ([0xF0, 0x7D, cmd] ++ payload ++ [0xF7])
          = 0xF0 :: ((0x7D :: cmd :: payload) ++ [0xF7]) := rfl
      rw [e, List.drop_succ_cons] at hb
      have hb2 := List.mem_of_mem_drop hb
      rcases List.mem_append.mp hb2 with hb3 | hb3
      · exact (hmid b hb3).1
      · rw [List.mem_singleton] at hb3
        subst hb3
        decide
    rw [onWrite_renderConfig, sysExPass_no_start processSysEx _ h2, onWrite_renderConfig,
      sysExPass_no_end processSysEx _ h1]
  · rw [onWrite_renderConfig]
    have e : ([0xF0, 0x7D, cmd] ++ payload ++ [0xF7])
        = 0xF0 :: ((0x7D :: cmd :: payload) ++ [0xF7]) := rfl
    rw [e, sysExPass_one_frame processSysEx _ hmid]

set_option maxRecDepth 100000 in
/-- Witness of C11 (amended): `F0 7D 01 64` followed by `F7`, from the state
after `setup()`. -/
theorem sysEx_split_dropped_witness :
    (∀ b ∈ (0x01 : Byte) :: [0x64], b ≠ 0xF0 ∧ b ≠ 0xF7) ∧ 0 < 4 ∧
    4 < ([0xF0, 0x7D, 0x01] ++ [0x64] ++ [(0xF7 : Byte)]).length ∧
    renderConfig (onWrite (([0xF0, 0x7D, 0x01] ++ [0x64] ++ [0xF7]).drop 4)
        (onWrite (([0xF0, 0x7D, 0x01] ++ [0x64] ++ [0xF7]).take 4) initState))
      = renderConfig initState :=
  ⟨by decide, by decide, by decide,
    (sysEx_split_dropped initState 0x01 [0x64] 4 (by decide) (by decide) (by decide)).1⟩

/-! ## Timestamp bytes and note round trips -/

set_option maxRecDepth 100000 in
/-- A byte of the families `0x8_`, `0x9_`, `0xB_` and a data byte are neither
`0xF0` nor `0xF7`. -/
theorem not_delim_of_status_or_data : ∀ b : Byte,
    (b.val &&& 0xF0 = 0x80 ∨ b.val &&& 0xF0 = 0x90 ∨ b.val &&& 0xF0 = 0xB0 ∨ b.val < 128) →
      b ≠ 0xF0 ∧ b ≠ 0xF7 := by
  decide

set_option maxRecDepth 100000 in
/-- A byte below 128 has its high bit clear. -/
theorem data_high_bit : ∀ b : Byte, b.val < 128 → b.val &&& 0x80 = 0 := by
  decide

/-- C12. For every status byte `s` of the families `0x8_`, `0x9_`, `0xB_`,
data bytes `d1`, `d2` in `0..127` and byte `t` with the high bit set whose
top nibble is none of 8, 9, B, decoding `[s, t, d1, d2]` from any state gives
the same state as decoding `[s, d1, d2]`, and so the same column flags, rain
history and RenderConfig: `t` is skipped and the running status stays `s`. -/
theorem timestamp_between_status_and_data (st : State) (s t d1 d2 : Byte)
    (hs : s.val &&& 0xF0 = 0x80 ∨ s.val &&& 0xF0 = 0x90 ∨ s.val &&& 0xF0 = 0xB0)
    (h1 : d1.val < 128) (h2 : d2.val < 128) (ht : t.val &&& 0x80 ≠ 0)
    (htf : t.val &&& 0xF0 ≠ 0x80 ∧ t.val &&& 0xF0 ≠ 0x90 ∧ t.val &&& 0xF0 ≠ 0xB0) :
    onWrite [s, t, d1, d2] st = onWrite [s, d1, d2] st ∧
    (onWrite [s, t, d1, d2] st).active = (onWrite [s, d1, d2] st).active ∧
    (onWrite [s, t, d1, d2] st).bufferRain = (onWrite [s, d1, d2] st).bufferRain ∧
    renderConfig (onWrite [s, t, d1, d2] st) = renderConfig (onWrite [s, d1, d2] st) := by
  have hsd := not_delim_of_status_or_data s (by tauto)
  have hd1 := not_delim_of_status_or_data d1 (by tauto)
  have hd2 := not_delim_of_status_or_data d2 (by tauto)
  have e : onWrite [s, t, d1, d2] st = onWrite [s, d1, d2] st := by
    have eR : sysExPass processSysEx [s, d1, d2] [] st = st := by
      apply sysExPass_no_start
      intro b hb
      simp only [List.mem_cons, List.mem_singleton, List.not_mem_nil, or_false] at hb
      rcases hb with rfl | rfl | rfl
      · exact hsd.1
      · exact hd1.1
      · exact hd2.1
    have hdd : ∀ b ∈ [d1, d2], b ≠ 0xF0 ∧ b ≠ 0xF7 := by
      intro b hb
      simp only [List.mem_cons, List.mem_singleton, List.not_mem_nil, or_false] at hb
      rcases hb with rfl | rfl
      · exact hd1
      · exact hd2
    have eL : sysExPass processSysEx [s, t, d1, d2] [] st = st := by
      rw [sysExPass_cons, if_neg hsd.1, if_pos rfl, sysExPass_cons]
      by_cases htF0 : t = 0xF0
      · rw [if_pos htF0]
        exact sysExPass_no_end processSysEx _ (fun b hb => (hdd b hb).2) _ st
      · rw [if_neg htF0, if_pos rfl]
        exact sysExPass_no_start processSysEx _ (fun b hb => (hdd b hb).1) st
    unfold onWrite
    simp only [List.isEmpty_cons, Bool.false_eq_true, if_false]
    rw [eL, eR, notePass_status s _ 0 st hs, notePass_status s _ 0 st hs,
      notePass_skip t _ _ st ht htf]
  rw [e]
  exact ⟨rfl, rfl, rfl, rfl⟩

set_option maxRecDepth 100000 in
/-- Witness of C12: the byte `0xC5` between `0x90` and the pair `60, 100`. -/
theorem timestamp_between_status_and_data_witness :
    ((0x90 : Byte).val &&& 0xF0 = 0x80 ∨ (0x90 : Byte).val &&& 0xF0 = 0x90
      ∨ (0x90 : Byte).val &&& 0xF0 = 0xB0) ∧
    (60 : Byte).val < 128 ∧ (100 : Byte).val < 128 ∧ (0xC5 : Byte).val &&& 0x80 ≠ 0 ∧
    ((0xC5 : Byte).val &&& 0xF0 ≠ 0x80 ∧ (0xC5 : Byte).val &&& 0xF0 ≠ 0x90
      ∧ (0xC5 : Byte).val &&& 0xF0 ≠ 0xB0) ∧
    onWrite [0x90, 0xC5, 60, 100] initState = onWrite [0x90, 60, 100] initState :=
  ⟨by decide, by decide, by decide, by decide, by decide,
    (timestamp_between_status_and_data initState 0x90 0xC5 60 100 (by decide) (by decide)
      (by decide) (by decide) (by decide)).1⟩

/-- The column flags after a note event on the note `N`. -/
theorem noteEvent_active (rs N v : Nat) (hN : N < 128) (hv : v < 128) (s : State) :
    (noteEvent rs (byte N) (byte v) s).active =
      if h : N % 12 + N / 12 % 4 * 12 < 44 then
        Function.update s.active ⟨N % 12 + N / 12 % 4 * 12, h⟩
          (decide (rs &&& 0xF0 = 0x90 ∧ 0 < v))
      else s.active := by
  unfold noteEvent
  simp only [noteEvent_key N hN, byte_val v (by omega : v < 256)]
  by_cases h : N % 12 + N / 12 % 4 * 12 < 44
  · rw [dif_pos (by simp only [NUM_NOTE_COLUMNS]; omega), dif_pos h]
    by_cases hp : rs &&& 0xF0 = 0x90 ∧ v > 0
    · rw [if_pos hp]
      have : decide (rs &&& 0xF0 = 0x90 ∧ 0 < v) = true := by simpa using hp
      rw [this]
    · rw [if_neg hp]
      have : decide (rs &&& 0xF0 = 0x90 ∧ 0 < v) = false := by simpa using hp
      rw [this]
  · rw [dif_neg (by simp only [NUM_NOTE_COLUMNS]; omega), dif_neg h]

/-- A Note-On and a Note-Off message in one chunk are two note events. -/
theorem onWrite_on_off_chunk (s : State) (N v : Nat) (hN : N < 128) (hv : v < 128) :
    onWrite [byte 0x90, byte N, byte v, byte 0x80, byte N, byte 0] s
      = noteEvent 0x80 (byte N) (byte 0) (noteEvent 0x90 (byte N) (byte v) s) := by
  unfold onWrite
  simp only [List.isEmpty_cons, Bool.false_eq_true, if_false]
  rw [sysExPass_no_start]
  · rw [notePass_status _ _ _ _ (by decide),
      notePass_note _ _ _ _ _ (byte_data N hN) (by decide),
      notePass_status _ _ _ _ (by decide),
      notePass_note _ _ _ _ _ (byte_data N hN) (by decide)]
    rfl
  · intro b hb
    simp only [List.mem_cons, List.mem_singleton, List.not_mem_nil, or_false] at hb
    rcases hb with rfl | rfl | rfl | rfl | rfl | rfl
    · decide
    · exact byte_ne_F0_of_lt _ (by omega)
    · exact byte_ne_F0_of_lt _ (by omega)
    · decide
    · exact byte_ne_F0_of_lt _ (by omega)
    · decide

/-- C13. For every note `N` in `0..127` and velocity `v` in `1..127`, from a
state in which the derived column `N % 12 + (N / 12 % 4) * 12` is inactive,
decoding Note-On `[0x90, N, v]` and then Note-Off `[0x80, N, 0]` (as two
chunks, or as one chunk of six bytes) returns the column flags to their
initial value; when the column is below 44 it is active in between; and the
column of note 60 is 12. -/
theorem note_on_off_round_trip (s : State) (N v : Nat) (hN : N < 128) (hv1 : 1 ≤ v)
    (hv : v < 128)
    (hoff : ∀ h : N % 12 + N / 12 % 4 * 12 < 44,
      s.active ⟨N % 12 + N / 12 % 4 * 12, h⟩ = false) :
    (onWrite [byte 0x80, byte N, byte 0] (onWrite [byte 0x90, byte N, byte v] s)).active
      = s.active ∧
    (onWrite [byte 0x90, byte N, byte v, byte 0x80, byte N, byte 0] s).active = s.active ∧
    (∀ h : N % 12 + N / 12 % 4 * 12 < 44,
      (onWrite [byte 0x90, byte N, byte v] s).active ⟨N % 12 + N / 12 % 4 * 12, h⟩ = true) ∧
    (60 % 12 + 60 / 12 % 4 * 12 = 12) := by
  have eOn : onWrite [byte 0x90, byte N, byte v] s = noteEvent 0x90 (byte N) (byte v) s :=
    onWrite_note_chunk s 0x90 0 N v (Or.inl rfl) (by decide) hN hv
  have eOff : ∀ t : State,
      onWrite [byte 0x80, byte N, byte 0] t = noteEvent 0x80 (byte N) (byte 0) t :=
    fun t => onWrite_note_chunk t 0x80 0 N 0 (Or.inr rfl) (by decide) hN (by decide)
  have hback : (noteEvent 0x80 (byte N) (byte 0) (noteEvent 0x90 (byte N) (byte v) s)).active
      = s.active := by
    rw [noteEvent_active 0x80 N 0 hN (by decide), noteEvent_active 0x90 N v hN hv]
    by_cases h : N % 12 + N / 12 % 4 * 12 < 44
    · rw [dif_pos h, dif_pos h]
      funext k
      by_cases hk : k = ⟨N % 12 + N / 12 % 4 * 12, h⟩
      · subst hk
        simp [hoff h]
      · simp [Function.update_noteq hk]
    · rw [dif_neg h, dif_neg h]
  refine ⟨?_, ?_, ?_, rfl⟩
  · rw [eOn, eOff]
    exact hback
  · rw [onWrite_on_off_chunk s N v hN hv]
    exact hback
  · intro h
    rw [eOn, noteEvent_active 0x90 N v hN hv, dif_pos h]
    have hnib : (0x90 : Nat) &&& 0xF0 = 0x90 := by decide
    have : decide ((0x90 : Nat) &&& 0xF0 = 0x90 ∧ 0 < v) = true :=
      decide_eq_true ⟨hnib, by omega⟩
    rw [this]
    simp

/-- Witness of C13: note 60 with velocity 100 from the state after `setup()`;
column 12 goes false, true, false. -/
theorem note_on_off_round_trip_witness :
    (60 : Nat) < 128 ∧ 1 ≤ (100 : Nat) ∧ (100 : Nat) < 128 ∧
    initState.active ⟨12, by decide⟩ = false ∧
    (onWrite [byte 0x90, byte 60, byte 100] initState).active ⟨12, by decide⟩ = true ∧
    (onWrite [byte 0x80, byte 60, byte 0] (onWrite [byte 0x90, byte 60, byte 100] initState)).active
      = initState.active :=
  ⟨by decide, by decide, by decide, rfl,
    (note_on_off_round_trip initState 60 100 (by decide) (by decide) (by decide)
      (fun _ => rfl)).2.2.1 (by decide),
    (note_on_off_round_trip initState 60 100 (by decide) (by decide) (by decide)
      (fun _ => rfl)).1⟩

/-! ## The rain history under a render tick -/

/-- Copying a row into another one, column by column. -/
theorem copyRow_eq (r r2 : Fin LEDS_PER_NOTE) (hne : r2 ≠ r) (l : List (Fin NUM_NOTE_COLUMNS))
    (s : State) :
    l.foldl (fun s k => setRain r k (s.bufferRain r2 k) s) s =
      { s with bufferRain := fun a k =>
          if a = r ∧ k ∈ l then s.bufferRain r2 k else s.bufferRain a k } := by
  induction l generalizing s with
  | nil => simp
  | cons k0 l ih =>
    rw [List.foldl_cons, ih]
    show ({ s with bufferRain := _ } : State) = _
    congr 1
    funext a k
    simp only [setRain_bufferRain, List.mem_cons]
    by_cases ha : a = r
    · subst ha
      by_cases hk : k ∈ l
      · simp [hk, hne]
      · by_cases hk0 : k = k0
        · subst hk0; simp [hk]
        · simp [hk, hk0]
    · simp [ha]

/-- Writing `active` into row 0, column by column. -/
theorem fillRow0_eq (l : List (Fin NUM_NOTE_COLUMNS)) (s : State) :
    l.foldl (fun s k => setRain 0 k (s.active k) s) s =
      { s with bufferRain := fun a k =>
          if a = 0 ∧ k ∈ l then s.active k else s.bufferRain a k } := by
  induction l generalizing s with
  | nil => simp
  | cons k0 l ih =>
    rw [List.foldl_cons, ih]
    show ({ s with bufferRain := _ } : State) = _
    congr 1
    funext a k
    simp only [setRain_bufferRain, List.mem_cons]
    have hact : (setRain 0 k0 (s.active k0) s).active = s.active := rfl
    rw [hact]
    by_cases ha : a = 0
    · subst ha
      by_cases hk : k ∈ l
      · simp [hk]
      · by_cases hk0 : k = k0
        · subst hk0; simp [hk]
        · simp [hk, hk0]
    · simp [ha]

/-- The inner shift loop for the row `r`: the row takes the row above it. -/
theorem copyRow_full (r r2 : Fin LEDS_PER_NOTE) (hne : r2 ≠ r) (s : State) :
    (List.finRange NUM_NOTE_COLUMNS).foldl (fun s k => setRain r k (s.bufferRain r2 k) s) s =
      { s with bufferRain := Function.update s.bufferRain r (s.bufferRain r2) } := by
  rw [copyRow_eq r r2 hne]
  congr 1
  funext a k
  by_cases ha : a = r
  · subst ha; simp [List.mem_finRange]
  · simp [ha, Function.update_noteq ha]

/-- One round of the outer shift loop: the row `r ≥ 1` takes the row `r - 1`. -/
theorem shiftRow_eq (r : Fin LEDS_PER_NOTE) (hr : 1 ≤ r.val) (s : State) :
    (List.finRange NUM_NOTE_COLUMNS).foldl
        (fun s k => setRain r k (s.bufferRain ⟨r.val - 1, by omega⟩ k) s) s =
      { s with bufferRain :=
          Function.update s.bufferRain r (s.bufferRain ⟨r.val - 1, by omega⟩) } :=
  copyRow_full r ⟨r.val - 1, by omega⟩ (by intro h; have := congrArg Fin.val h; simp at this; omega) s

/-- The loop that writes `active` into row 0. -/
theorem fillRow0_full (s : State) :
    (List.finRange NUM_NOTE_COLUMNS).foldl (fun s k => setRain 0 k (s.active k) s) s =
      { s with bufferRain := Function.update s.bufferRain 0 s.active } := by
  rw [fillRow0_eq]
  congr 1
  funext a k
  by_cases ha : a = 0
  · subst ha; simp [List.mem_finRange]
  · simp [ha, Function.update_noteq ha]

/-- The shift of `loop` in closed form: row 0 takes `active`, every other
row takes the former row above it; nothing else changes. -/
theorem shiftRain_eq (s : State) :
    shiftRain s = { s with bufferRain := fun r k =>
      (if r.val = 0 then s.active k
       else s.bufferRain (⟨r.val - 1, by have := r.isLt; omega⟩) k) } := by
  unfold shiftRain rowsDown
  simp only [List.foldl_cons, List.foldl_nil]
  rw [shiftRow_eq 7 (by decide), shiftRow_eq 6 (by decide), shiftRow_eq 5 (by decide),
    shiftRow_eq 4 (by decide), shiftRow_eq 3 (by decide), shiftRow_eq 2 (by decide),
    shiftRow_eq 1 (by decide), fillRow0_full]
  show ({ s with bufferRain := _ } : State) = _
  congr 1
  funext r k
  fin_cases r <;> simp [Function.update] <;> rfl

/-- Assigning an LED changes the frame buffer only. -/
theorem setLed_clear (i : Nat) (c : CRGB) (s : State) :
    fastLEDclear (setLed i c s) = fastLEDclear s := by
  unfold setLed
  split_ifs <;> rfl

/-- The drawing loops change the frame buffer only. -/
theorem paintRain_clear (s : State) : fastLEDclear (paintRain s) = fastLEDclear s := by
  unfold paintRain
  refine foldl_invariant (fun t : State => fastLEDclear t = fastLEDclear s) _ _ s rfl ?_
  intro t r ht
  refine foldl_invariant (fun t : State => fastLEDclear t = fastLEDclear s) _ _ t ht ?_
  intro t k ht
  split_ifs
  · rw [setLed_clear]; exact ht
  · rw [setLed_clear]; exact ht
  · exact ht

/-- The drawing loops keep the history, the column flags and the colours. -/
theorem paintRain_fields (s : State) :
    (paintRain s).bufferRain = s.bufferRain ∧ (paintRain s).active = s.active ∧
    (paintRain s).colorWhiteKey = s.colorWhiteKey ∧
    (paintRain s).colorBlackKey = s.colorBlackKey := by
  have h := paintRain_clear s
  simp only [fastLEDclear, State.mk.injEq] at h
  exact ⟨h.2.2.1, h.2.1, h.2.2.2.2.2.2.1, h.2.2.2.2.2.2.2.1⟩

theorem fastLEDshow_bufferRain (s : State) : (fastLEDshow s).bufferRain = s.bufferRain := rfl

theorem fastLEDshow_active (s : State) : (fastLEDshow s).active = s.active := rfl

theorem fastLEDclear_bufferRain (s : State) : (fastLEDclear s).bufferRain = s.bufferRain := rfl

theorem fastLEDclear_active (s : State) : (fastLEDclear s).active = s.active := rfl

/-- A streaming tick leaves the history and the column flags as the shift
leaves them. -/
theorem loop_streaming_clear (now : Nat) (s : State) (hready : s.showReadyFlag = false)
    (hconn : s.isConnected = true) (htick : subUL now s.lastStep ≥ s.bufferIntervalMs) :
    (loop now s).bufferRain = (shiftRain { s with lastStep := now % ULONG_MOD }).bufferRain ∧
    (loop now s).active = (shiftRain { s with lastStep := now % ULONG_MOD }).active := by
  rw [loop_streaming now s hready hconn htick]
  obtain ⟨h1, h2, -, -⟩ :=
    paintRain_fields (fastLEDclear (shiftRain { s with lastStep := now % ULONG_MOD }))
  constructor
  · rw [fastLEDshow_bufferRain, h1, fastLEDclear_bufferRain]
  · rw [fastLEDshow_active, h2, fastLEDclear_active]

/-- The history and the column flags after a streaming tick. -/
theorem loop_streaming_rain (now : Nat) (s : State) (hready : s.showReadyFlag = false)
    (hconn : s.isConnected = true) (htick : subUL now s.lastStep ≥ s.bufferIntervalMs) :
    (loop now s).bufferRain = (fun r k =>
      (if r.val = 0 then s.active k
       else s.bufferRain (⟨r.val - 1, by have := r.isLt; omega⟩) k)) ∧
    (loop now s).active = s.active := by
  obtain ⟨h1, h2⟩ := loop_streaming_clear now s hready hconn htick
  rw [h1, h2, shiftRain_eq]
  exact ⟨rfl, rfl⟩

/-- C14. One streaming render tick (banner off, connected, `now - lastStep`
at least the tick interval) turns the rain history into: new row 0 equal to
`active`, and for every row `r` with `1 ≤ r < 8` new row `r` equal to the old
row `r - 1` (so the old row 7 is read by no row); `active` is unchanged. -/
theorem streaming_tick_shifts_history (now : Nat) (s : State)
    (hready : s.showReadyFlag = false) (hconn : s.isConnected = true)
    (htick : subUL now s.lastStep ≥ s.bufferIntervalMs) :
    (∀ k, (loop now s).bufferRain 0 k = s.active k) ∧
    (∀ (r : Fin LEDS_PER_NOTE) (k : Fin NUM_NOTE_COLUMNS) (h : 1 ≤ r.val),
      (loop now s).bufferRain r k = s.bufferRain ⟨r.val - 1, by omega⟩ k) ∧
    (loop now s).active = s.active := by
  obtain ⟨hb, ha⟩ := loop_streaming_rain now s hready hconn htick
  refine ⟨?_, ?_, ha⟩
  · intro k
    rw [hb]
    rfl
  · intro r k h
    rw [hb]
    simp only
    rw [if_neg (by omega)]

/-- Witness of C14: the tick at time 1000 from `fullState` (last step 0,
interval 100). -/
theorem streaming_tick_shifts_history_witness :
    fullState.showReadyFlag = false ∧ fullState.isConnected = true ∧
    subUL 1000 fullState.lastStep ≥ fullState.bufferIntervalMs ∧
    (loop 1000 fullState).active = fullState.active :=
  ⟨rfl, rfl, by decide,
    (streaming_tick_shifts_history 1000 fullState rfl rfl (by decide)).2.2⟩

/-- Fields of a state `fastLEDshow P`, when `P` differs from a cleared `T`
by its frame only and `T` is `S` with a new time and a new history. -/
theorem tick_fields (P T S : State) (B : Fin LEDS_PER_NOTE → Fin NUM_NOTE_COLUMNS → Bool)
    (t : Nat) (h : fastLEDclear P = fastLEDclear (fastLEDclear T))
    (hT : T = { { S with lastStep := t } with bufferRain := B }) :
    (fastLEDshow P).showReadyFlag = S.showReadyFlag ∧
    (fastLEDshow P).isConnected = S.isConnected ∧
    (fastLEDshow P).lastStep = t ∧
    (fastLEDshow P).bufferIntervalMs = S.bufferIntervalMs ∧
    (fastLEDshow P).btBlinkOn = S.btBlinkOn ∧ (fastLEDshow P).btBlinkLast = S.btBlinkLast ∧
    (fastLEDshow P).readyStartTime = S.readyStartTime ∧
    (fastLEDshow P).colorWhiteKey = S.colorWhiteKey ∧
    (fastLEDshow P).colorBlackKey = S.colorBlackKey ∧
    (fastLEDshow P).ledBrightness = S.ledBrightness ∧
    (fastLEDshow P).fastledBrightness = S.fastledBrightness := by
  subst hT
  cases P
  cases S
  simp only [fastLEDclear, State.mk.injEq] at h
  simp only [fastLEDshow]
  tauto

/-- The fields that a streaming tick leaves alone, and the time it records. -/
theorem loop_streaming_fields (now : Nat) (s : State) (hready : s.showReadyFlag = false)
    (hconn : s.isConnected = true) (htick : subUL now s.lastStep ≥ s.bufferIntervalMs) :
    (loop now s).showReadyFlag = s.showReadyFlag ∧ (loop now s).isConnected = s.isConnected ∧
    (loop now s).lastStep = now % ULONG_MOD ∧
    (loop now s).bufferIntervalMs = s.bufferIntervalMs ∧
    (loop now s).btBlinkOn = s.btBlinkOn ∧ (loop now s).btBlinkLast = s.btBlinkLast ∧
    (loop now s).readyStartTime = s.readyStartTime ∧
    (loop now s).colorWhiteKey = s.colorWhiteKey ∧ (loop now s).colorBlackKey = s.colorBlackKey ∧
    (loop now s).ledBrightness = s.ledBrightness ∧
    (loop now s).fastledBrightness = s.fastledBrightness := by
  rw [loop_streaming now s hready hconn htick]
  exact tick_fields _ (shiftRain { s with lastStep := now % ULONG_MOD }) s _ (now % ULONG_MOD)
    (paintRain_clear _) (shiftRain_eq _)

/-! ## Ageing of the trail -/

/-- Ticks that keep the banner off and the link up, at times each an
interval after the one before, are all streaming ticks. -/
theorem allStreaming_of_times (nows : List Nat) (s : State) (hready : s.showReadyFlag = false)
    (hconn : s.isConnected = true)
    (ht : ticksElapsed s.bufferIntervalMs s.lastStep nows = true) : allStreaming nows s := by
  induction nows generalizing s with
  | nil => trivial
  | cons now rest ih =>
    simp only [ticksElapsed, Bool.and_eq_true, decide_eq_true_eq] at ht
    obtain ⟨h1, h2, h3, h4, -⟩ := loop_streaming_fields now s hready hconn ht.1
    refine ⟨⟨hready, hconn, ht.1⟩, ih (loop now s) (h1.trans hready) (h2.trans hconn) ?_⟩
    rw [h3, h4]
    exact ht.2

/-- The history after consecutive streaming ticks with no active column:
every cell has moved down by the number of ticks, and the rows above are
empty. -/
theorem runTicks_rain (nows : List Nat) (s : State) (hact : ∀ k, s.active k = false)
    (hstream : allStreaming nows s) :
    (∀ k, (runTicks nows s).active k = false) ∧
    ∀ (r : Fin LEDS_PER_NOTE) (k : Fin NUM_NOTE_COLUMNS),
      (runTicks nows s).bufferRain r k = true ↔
        ∃ r0 : Fin LEDS_PER_NOTE, r0.val + nows.length = r.val ∧ s.bufferRain r0 k = true := by
  induction nows generalizing s with
  | nil =>
    refine ⟨hact, fun r k => ?_⟩
    constructor
    · intro h
      exact ⟨r, rfl, h⟩
    · rintro ⟨r0, h0, h⟩
      have : r0 = r := Fin.ext (by simpa using h0)
      rw [← this]
      exact h
  | cons now rest ih =>
    obtain ⟨⟨hready, hconn, htick⟩, hrest⟩ := hstream
    obtain ⟨hb, ha⟩ := loop_streaming_rain now s hready hconn htick
    have hact2 : ∀ k, (loop now s).active k = false := fun k => by rw [ha]; exact hact k
    obtain ⟨ih1, ih2⟩ := ih (loop now s) hact2 hrest
    refine ⟨ih1, fun r k => ?_⟩
    have e : runTicks (now :: rest) s = runTicks rest (loop now s) := rfl
    rw [e, ih2 r k]
    constructor
    · rintro ⟨r1, h1, h⟩
      rw [hb] at h
      simp only at h
      by_cases hz : r1.val = 0
      · rw [if_pos hz, hact k] at h
        exact absurd h (by decide)
      · rw [if_neg hz] at h
        refine ⟨⟨r1.val - 1, by have hr : r1.val < 8 := r1.isLt; simp only [LEDS_PER_NOTE]; omega⟩,
          ?_, h⟩
        simp only [List.length_cons]
        omega
    · rintro ⟨r0, h0, h⟩
      simp only [List.length_cons] at h0
      have hlt : r0.val + 1 < LEDS_PER_NOTE := by
        have hr : r.val < 8 := r.isLt
        simp only [LEDS_PER_NOTE]
        omega
      refine ⟨⟨r0.val + 1, hlt⟩, by simp only; omega, ?_⟩
      rw [hb]
      simp only
      rw [if_neg (by omega)]
      exact h

/-- C15. With no active column, for every initial rain history and every
sequence of consecutive streaming render ticks: after 8 ticks the history is
entirely false; after 7 ticks, a history that had a true cell in row 0 still
has a true cell (in row 7); the columns stay inactive throughout. -/
theorem trail_ages_out_in_depth_ticks (nows : List Nat) (s : State)
    (hact : ∀ k, s.active k = false) (hstream : allStreaming nows s) :
    (nows.length = 8 → ∀ r k, (runTicks nows s).bufferRain r k = false) ∧
    (nows.length = 7 → (∃ k, s.bufferRain 0 k = true) →
      ∃ r k, (runTicks nows s).bufferRain r k = true) ∧
    (∀ k, (runTicks nows s).active k = false) := by
  obtain ⟨h1, h2⟩ := runTicks_rain nows s hact hstream
  refine ⟨?_, ?_, h1⟩
  · intro hlen r k
    cases hv : (runTicks nows s).bufferRain r k with
    | false => rfl
    | true =>
      obtain ⟨r0, h0, -⟩ := (h2 r k).1 hv
      have hr : r.val < 8 := r.isLt
      omega
  · rintro hlen ⟨k, hk⟩
    exact ⟨7, k, (h2 7 k).2 ⟨0, by rw [hlen]; rfl, hk⟩⟩

/-- Witness of C15: eight ticks, 100 ms apart, from `staleState`. -/
theorem trail_ages_out_in_depth_ticks_witness :
    (∀ k, staleState.active k = false) ∧
    allStreaming [100, 200, 300, 400, 500, 600, 700, 800] staleState ∧
    (∀ r k, (runTicks [100, 200, 300, 400, 500, 600, 700, 800] staleState).bufferRain r k
      = false) :=
  ⟨fun _ => rfl, allStreaming_of_times _ staleState rfl rfl (by decide),
    (trail_ages_out_in_depth_ticks [100, 200, 300, 400, 500, 600, 700, 800] staleState
      (fun _ => rfl) (allStreaming_of_times _ staleState rfl rfl (by decide))).1 rfl⟩

/-! ## The frame painted by a render tick -/

/-- On the strip, two places with the same physical index are the same place. -/
theorem physicalIndex_inj (k1 k2 : Fin NUM_NOTE_COLUMNS) (r1 r2 : Fin LEDS_PER_NOTE)
    (h : physicalIndex k1.val r1.val = physicalIndex k2.val r2.val) : k1 = k2 ∧ r1 = r2 := by
  have hk1 : k1.val < 44 := k1.isLt
  have hk2 : k2.val < 44 := k2.isLt
  have hr1 : r1.val < 8 := r1.isLt
  have hr2 : r2.val < 8 := r2.isLt
  rw [physicalIndex_eq _ _ hk1 hr1, physicalIndex_eq _ _ hk2 hr2] at h
  have : k1.val = k2.val ∧ r1.val = r2.val := by
    split_ifs at h <;> omega
  exact ⟨Fin.ext this.1, Fin.ext this.2⟩

/-- Reading the frame buffer after the assignment `leds[j] = c`. -/
theorem setLed_leds (j : Nat) (c : CRGB) (t : State) (i : Fin NUM_LEDS) :
    (setLed j c t).leds i = if j = i.val then c else t.leds i := by
  unfold setLed
  by_cases hj : j < NUM_LEDS
  · rw [dif_pos hj]
    by_cases hji : j = i.val
    · subst hji
      simp
    · have : i ≠ ⟨j, hj⟩ := fun e => hji (by rw [e])
      simp [Function.update_noteq this, hji]
  · rw [dif_neg hj]
    have : j ≠ i.val := fun e => hj (by rw [e]; exact i.isLt)
    rw [if_neg this]

/-- Two states with the same cleared form have the same history and colours. -/
theorem clear_fields (t X : State) (h : fastLEDclear t = fastLEDclear X) :
    t.bufferRain = X.bufferRain ∧ t.colorWhiteKey = X.colorWhiteKey ∧
    t.colorBlackKey = X.colorBlackKey := by
  cases t
  cases X
  simp only [fastLEDclear, State.mk.injEq] at h
  exact ⟨h.2.2.1, h.2.2.2.2.2.2.1, h.2.2.2.2.2.2.2.1⟩

/-- A step of a loop establishes a property that all steps keep: the
property holds after the loop. -/
theorem foldl_establish {α σ : Type} (Inv Post : σ → Prop) (f : σ → α → σ) (l : List α)
    (x : α) (hx : x ∈ l) (s : σ) (h0 : Inv s) (hinv : ∀ s a, Inv s → Inv (f s a))
    (hest : ∀ s, Inv s → Post (f s x)) (hkeep : ∀ s a, Inv s → Post s → Post (f s a)) :
    Post (l.foldl f s) := by
  induction l generalizing s with
  | nil => cases hx
  | cons a rest ih =>
    rw [List.foldl_cons]
    rcases List.mem_cons.mp hx with rfl | hx2
    · exact (foldl_invariant (fun t => Inv t ∧ Post t) f rest (f s x)
        ⟨hinv s x h0, hest s h0⟩ (fun t a ht => ⟨hinv t a ht.1, hkeep t a ht.1 ht.2⟩)).2
    · exact ih hx2 (f s a) (hinv s a h0)

/-- An LED that no set cell of the history maps to is left as it was. -/
theorem paintRain_led_of_miss (X : State) (i : Fin NUM_LEDS)
    (hmiss : ∀ r k, X.bufferRain r k = true → physicalIndex k.val r.val ≠ i.val) :
    (paintRain X).leds i = X.leds i := by
  unfold paintRain
  refine (foldl_invariant
    (fun t : State => fastLEDclear t = fastLEDclear X ∧ t.leds i = X.leds i) _ _ X ⟨rfl, rfl⟩ ?_).2
  intro t r ht
  refine foldl_invariant
    (fun t : State => fastLEDclear t = fastLEDclear X ∧ t.leds i = X.leds i) _ _ t ht ?_
  intro t k ht
  have hB : t.bufferRain = X.bufferRain := (clear_fields t X ht.1).1
  by_cases hb : t.bufferRain r k = true
  · rw [if_pos hb]
    refine ⟨(setLed_clear _ _ _).trans ht.1, ?_⟩
    rw [setLed_leds, if_neg (hmiss r k (by rw [← hB]; exact hb))]
    exact ht.2
  · rw [if_neg hb]
    exact ht

/-- An LED that a set cell of the history maps to takes the colour of the
column of that cell. -/
theorem paintRain_led_of_hit (X : State) (r0 : Fin LEDS_PER_NOTE) (k0 : Fin NUM_NOTE_COLUMNS)
    (hset : X.bufferRain r0 k0 = true) (i : Fin NUM_LEDS)
    (hi : physicalIndex k0.val r0.val = i.val) :
    (paintRain X).leds i = if isWhiteKey k0.val then X.colorWhiteKey else X.colorBlackKey := by
  have hstep : ∀ (t : State) (r : Fin LEDS_PER_NOTE) (k : Fin NUM_NOTE_COLUMNS),
      fastLEDclear t = fastLEDclear X →
      t.leds i = (if isWhiteKey k0.val then X.colorWhiteKey else X.colorBlackKey) →
      (if t.bufferRain r k = true then
          setLed (physicalIndex k.val r.val)
            (if isWhiteKey k.val then t.colorWhiteKey else t.colorBlackKey) t
        else t).leds i = (if isWhiteKey k0.val then X.colorWhiteKey else X.colorBlackKey) := by
    intro t r k ht hpost
    have hW : t.colorWhiteKey = X.colorWhiteKey := (clear_fields t X ht).2.1
    have hK : t.colorBlackKey = X.colorBlackKey := (clear_fields t X ht).2.2
    by_cases hb : t.bufferRain r k = true
    · rw [if_pos hb, setLed_leds]
      by_cases hp : physicalIndex k.val r.val = i.val
      · rw [if_pos hp]
        obtain ⟨hk, -⟩ := physicalIndex_inj k k0 r r0 (hp.trans hi.symm)
        rw [hk, hW, hK]
      · rw [if_neg hp]
        exact hpost
    · rw [if_neg hb]
      exact hpost
  have hinvstep : ∀ (t : State) (r : Fin LEDS_PER_NOTE) (k : Fin NUM_NOTE_COLUMNS),
      fastLEDclear t = fastLEDclear X →
      fastLEDclear (if t.bufferRain r k = true then
          setLed (physicalIndex k.val r.val)
            (if isWhiteKey k.val then t.colorWhiteKey else t.colorBlackKey) t
        else t) = fastLEDclear X := by
    intro t r k ht
    split_ifs
    · rw [setLed_clear]; exact ht
    · rw [setLed_clear]; exact ht
    · exact ht
  unfold paintRain
  refine foldl_establish (fun t : State => fastLEDclear t = fastLEDclear X)
    (fun t : State => t.leds i = if isWhiteKey k0.val then X.colorWhiteKey else X.colorBlackKey)
    _ _ r0 (List.mem_finRange r0) X rfl ?_ ?_ ?_
  · intro t r ht
    exact foldl_invariant (fun t : State => fastLEDclear t = fastLEDclear X) _ _ t ht
      (fun t k ht => hinvstep t r k ht)
  · intro t ht
    refine foldl_establish (fun t : State => fastLEDclear t = fastLEDclear X)
      (fun t : State => t.leds i = if isWhiteKey k0.val then X.colorWhiteKey else X.colorBlackKey)
      _ _ k0 (List.mem_finRange k0) t ht (fun t k ht => hinvstep t r0 k ht) ?_
      (fun t k ht hp => hstep t r0 k ht hp)
    intro t ht
    have hB : t.bufferRain = X.bufferRain := (clear_fields t X ht).1
    have hW : t.colorWhiteKey = X.colorWhiteKey := (clear_fields t X ht).2.1
    have hK : t.colorBlackKey = X.colorBlackKey := (clear_fields t X ht).2.2
    rw [if_pos (by rw [hB]; exact hset), setLed_leds, if_pos hi, hW, hK]
  · intro t r ht hp
    exact (foldl_invariant
      (fun t : State => fastLEDclear t = fastLEDclear X ∧
        t.leds i = if isWhiteKey k0.val then X.colorWhiteKey else X.colorBlackKey) _ _ t
      ⟨ht, hp⟩ (fun t k ht => ⟨hinvstep t r k ht.1, hstep t r k ht.1 ht.2⟩)).2

/-- The test `white` of the source is membership of `k % 12` in the
white-key pitch classes. -/
theorem isWhiteKey_iff (k : Nat) :
    isWhiteKey k = true ↔ k % 12 ∈ [0, 2, 4, 5, 7, 9, 11] := by
  have h : ∀ m < 12, ((m == 0 || m == 2 || m == 4 || m == 5 || m == 7 || m == 9 || m == 11)
      = true ↔ m ∈ [0, 2, 4, 5, 7, 9, 11]) := by decide
  exact h (k % 12) (Nat.mod_lt k (by decide))

theorem fastLEDshow_leds (s : State) : (fastLEDshow s).leds = s.leds := rfl

theorem fastLEDshow_shown (s : State) : (fastLEDshow s).shown = s.leds := rfl

theorem fastLEDclear_leds (s : State) (i : Fin NUM_LEDS) :
    (fastLEDclear s).leds i = CRGB.Black := rfl

theorem fastLEDclear_colors (s : State) :
    (fastLEDclear s).colorWhiteKey = s.colorWhiteKey ∧
    (fastLEDclear s).colorBlackKey = s.colorBlackKey := ⟨rfl, rfl⟩

/-- The frame after a streaming tick, LED by LED, in terms of the history
after the shift. -/
theorem loop_streaming_leds (now : Nat) (s : State) (hready : s.showReadyFlag = false)
    (hconn : s.isConnected = true) (htick : subUL now s.lastStep ≥ s.bufferIntervalMs)
    (i : Fin NUM_LEDS) :
    (∀ (r : Fin LEDS_PER_NOTE) (k : Fin NUM_NOTE_COLUMNS),
      (loop now s).bufferRain r k = true → physicalIndex k.val r.val = i.val →
        (loop now s).leds i = if isWhiteKey k.val then s.colorWhiteKey else s.colorBlackKey) ∧
    ((∀ r k, (loop now s).bufferRain r k = true → physicalIndex k.val r.val ≠ i.val) →
      (loop now s).leds i = CRGB.Black) ∧
    (loop now s).shown = (loop now s).leds := by
  obtain ⟨hB, -⟩ := loop_streaming_clear now s hready hconn htick
  rw [hB, loop_streaming now s hready hconn htick, fastLEDshow_leds, fastLEDshow_shown]
  have hW : (shiftRain { s with lastStep := now % ULONG_MOD }).colorWhiteKey = s.colorWhiteKey ∧
      (shiftRain { s with lastStep := now % ULONG_MOD }).colorBlackKey = s.colorBlackKey := by
    rw [shiftRain_eq]
    exact ⟨rfl, rfl⟩
  refine ⟨?_, ?_, rfl⟩
  · intro r k hset hi
    rw [paintRain_led_of_hit _ r k (by rw [fastLEDclear_bufferRain]; exact hset) i hi,
      (fastLEDclear_colors _).1, (fastLEDclear_colors _).2, hW.1, hW.2]
  · intro hmiss
    rw [paintRain_led_of_miss _ i (fun r k h => hmiss r k (by rw [← fastLEDclear_bufferRain]; exact h)),
      fastLEDclear_leds]

/-- C16. After a streaming render tick, for every physical LED index `i` in
`[0, 484)`: if a cell `(r, k)` of the history after the shift is true and
`physicalIndex k r = i`, the LED holds the white-key colour when `k % 12` is
one of 0, 2, 4, 5, 7, 9, 11 and the black-key colour otherwise; if there is no
such cell the LED is black, whatever the frame held before; hence the LEDs at
offsets 8..10 of every column region are black; and the frame shown is the
frame buffer. -/
theorem streaming_frame_from_history (now : Nat) (s : State)
    (hready : s.showReadyFlag = false) (hconn : s.isConnected = true)
    (htick : subUL now s.lastStep ≥ s.bufferIntervalMs) (i : Fin NUM_LEDS) :
    (∀ (r : Fin LEDS_PER_NOTE) (k : Fin NUM_NOTE_COLUMNS),
      (loop now s).bufferRain r k = true → physicalIndex k.val r.val = i.val →
        (loop now s).leds i =
          if k.val % 12 ∈ [0, 2, 4, 5, 7, 9, 11] then s.colorWhiteKey else s.colorBlackKey) ∧
    ((¬ ∃ r k, (loop now s).bufferRain r k = true ∧ physicalIndex k.val r.val = i.val) →
      (loop now s).leds i = CRGB.Black) ∧
    (∀ k off : Nat, k < 44 → 8 ≤ off → off < 11 → i.val = k * 11 + off →
      (loop now s).leds i = CRGB.Black) ∧
    (loop now s).shown = (loop now s).leds := by
  obtain ⟨h1, h2, h3⟩ := loop_streaming_leds now s hready hconn htick i
  refine ⟨?_, ?_, ?_, h3⟩
  · intro r k hset hi
    rw [h1 r k hset hi]
    by_cases hw : isWhiteKey k.val = true
    · rw [if_pos hw, if_pos ((isWhiteKey_iff k.val).1 hw)]
    · rw [if_neg hw, if_neg (fun h => hw ((isWhiteKey_iff k.val).2 h))]
  · intro hno
    exact h2 (fun r k hset hi => hno ⟨r, k, hset, hi⟩)
  · intro k off hk h8 h11 hi
    apply h2
    intro r2 k2 _ hp
    have hk2 : k2.val < 44 := k2.isLt
    have hr2 : r2.val < 8 := r2.isLt
    rw [physicalIndex_eq _ _ hk2 hr2, hi] at hp
    split_ifs at hp <;> omega

/-- Witness of C16: after the tick at time 1000 from `fullState`, the LED at
offset 8 of column 0 is black. -/
theorem streaming_frame_from_history_witness :
    fullState.showReadyFlag = false ∧ fullState.isConnected = true ∧
    subUL 1000 fullState.lastStep ≥ fullState.bufferIntervalMs ∧
    (loop 1000 fullState).leds ⟨8, by decide⟩ = CRGB.Black :=
  ⟨rfl, rfl, by decide,
    (streaming_frame_from_history 1000 fullState rfl rfl (by decide) ⟨8, by decide⟩).2.2.1
      0 8 (by decide) (by decide) (by decide) rfl⟩

/-! ## The three modes of the control loop -/

/-- A property that the body of a counted loop keeps holds after the loop. -/
theorem forUpTo_invariant {σ : Type} (P : σ → Prop) (n : Nat) (body : Nat → σ → σ) (s : σ)
    (h0 : P s) (hstep : ∀ i s, P s → P (body i s)) : P (forUpTo n body s) :=
  foldl_invariant P (fun acc i => body i acc) (List.range n) s h0 (fun s i h => hstep i s h)

/-- Fields of a state `fastLEDshow P` when `P` differs from `s` by its frame only. -/
theorem show_fields (P s : State) (h : fastLEDclear P = fastLEDclear s) :
    (fastLEDshow P).bufferRain = s.bufferRain ∧ (fastLEDshow P).active = s.active ∧
    (fastLEDshow P).lastStep = s.lastStep ∧ (fastLEDshow P).btBlinkOn = s.btBlinkOn ∧
    (fastLEDshow P).btBlinkLast = s.btBlinkLast ∧
    (fastLEDshow P).showReadyFlag = s.showReadyFlag ∧
    (fastLEDshow P).isConnected = s.isConnected ∧
    (fastLEDshow P).readyStartTime = s.readyStartTime := by
  cases P
  cases s
  simp only [fastLEDclear, State.mk.injEq] at h
  simp only [fastLEDshow]
  tauto

/-- The banner screen changes the frame only. -/
theorem showReady_fields (s : State) :
    (showReady s).bufferRain = s.bufferRain ∧ (showReady s).active = s.active ∧
    (showReady s).lastStep = s.lastStep ∧ (showReady s).btBlinkOn = s.btBlinkOn ∧
    (showReady s).btBlinkLast = s.btBlinkLast ∧
    (showReady s).showReadyFlag = s.showReadyFlag ∧
    (showReady s).isConnected = s.isConnected ∧
    (showReady s).readyStartTime = s.readyStartTime := by
  unfold showReady
  apply show_fields
  refine forUpTo_invariant (fun t : State => fastLEDclear t = fastLEDclear s) _ _ _ rfl ?_
  intro r t ht
  refine forUpTo_invariant (fun t : State => fastLEDclear t = fastLEDclear s) _ _ _ ht ?_
  intro c t ht
  split_ifs
  · rw [setLed_clear]; exact ht
  · exact ht

/-- The Bluetooth screen changes the frame only. -/
theorem drawBT_fields (lit : Bool) (s : State) :
    (drawBT lit s).bufferRain = s.bufferRain ∧ (drawBT lit s).active = s.active ∧
    (drawBT lit s).lastStep = s.lastStep ∧ (drawBT lit s).btBlinkOn = s.btBlinkOn ∧
    (drawBT lit s).btBlinkLast = s.btBlinkLast ∧
    (drawBT lit s).showReadyFlag = s.showReadyFlag ∧
    (drawBT lit s).isConnected = s.isConnected ∧
    (drawBT lit s).readyStartTime = s.readyStartTime := by
  unfold drawBT
  apply show_fields
  split_ifs
  · refine forUpTo_invariant (fun t : State => fastLEDclear t = fastLEDclear s) _ _ _ rfl ?_
    intro r t ht
    refine forUpTo_invariant (fun t : State => fastLEDclear t = fastLEDclear s) _ _ _ ht ?_
    intro c t ht
    split_ifs
    · rw [setLed_clear]; exact ht
    · exact ht
  · rfl

/-- An iteration with the banner flag set. -/
theorem loop_banner (now : Nat) (s : State) (hready : s.showReadyFlag = true) :
    loop now s =
      if subUL now (showReady s).readyStartTime > 4000 then
        { fastLEDshow (fastLEDclear { showReady s with showReadyFlag := false }) with
          bufferRain := fun _ _ => false }
      else showReady s := by
  unfold loop
  dsimp only
  rw [if_pos hready, subUL_mod]

/-- An iteration with the banner flag clear and the link down. -/
theorem loop_disconnected (now : Nat) (s : State) (hready : s.showReadyFlag = false)
    (hconn : s.isConnected = false) :
    loop now s =
      if subUL now s.btBlinkLast > 600 then
        drawBT (!s.btBlinkOn) { { s with btBlinkLast := now % ULONG_MOD } with
          btBlinkOn := !s.btBlinkOn }
      else s := by
  unfold loop
  dsimp only
  rw [if_neg (by simp [hready]), if_pos (by simp [hconn]), subUL_mod]

/-- An iteration with the banner flag clear and the link up, before the
tick interval has elapsed. -/
theorem loop_idle (now : Nat) (s : State) (hready : s.showReadyFlag = false)
    (hconn : s.isConnected = true) (htick : ¬ subUL now s.lastStep ≥ s.bufferIntervalMs) :
    loop now s = s := by
  unfold loop
  dsimp only
  rw [if_neg (by simp [hready]), if_neg (by simp [hconn]), if_neg (by rwa [subUL_mod])]

/-- C17. One iteration of `loop` runs one mode, chosen in the order banner,
disconnected, streaming. With the banner flag set, whatever the link flag
and the timers: the history is not shifted (it is kept, or cleared when the
banner expires), the time of the last step, the column flags and the blink
state are kept. With the banner flag clear and the link down: the history,
the time of the last step and the column flags are kept and the banner flag
stays clear. With the banner flag clear and the link up: before the interval
has elapsed nothing changes; once it has, the history is shifted (row 0 from
`active`, row `r` from row `r - 1`), the time is recorded and the blink state
and banner flag are kept. -/
theorem loop_mode_priority (now : Nat) (s : State) :
    (s.showReadyFlag = true →
      (loop now s).bufferRain
        = (if subUL now s.readyStartTime > 4000 then (fun _ _ => false) else s.bufferRain) ∧
      (loop now s).lastStep = s.lastStep ∧ (loop now s).active = s.active ∧
      (loop now s).btBlinkOn = s.btBlinkOn ∧ (loop now s).btBlinkLast = s.btBlinkLast) ∧
    (s.showReadyFlag = false → s.isConnected = false →
      (loop now s).bufferRain = s.bufferRain ∧ (loop now s).lastStep = s.lastStep ∧
      (loop now s).active = s.active ∧ (loop now s).showReadyFlag = false) ∧
    (s.showReadyFlag = false → s.isConnected = true →
      ¬ subUL now s.lastStep ≥ s.bufferIntervalMs → loop now s = s) ∧
    (s.showReadyFlag = false → s.isConnected = true →
      subUL now s.lastStep ≥ s.bufferIntervalMs →
      (loop now s).bufferRain = (fun r k =>
        (if r.val = 0 then s.active k
         else s.bufferRain (⟨r.val - 1, by have := r.isLt; omega⟩) k)) ∧
      (loop now s).lastStep = now % ULONG_MOD ∧
      (loop now s).btBlinkOn = s.btBlinkOn ∧ (loop now s).btBlinkLast = s.btBlinkLast ∧
      (loop now s).showReadyFlag = false) := by
  refine ⟨?_, ?_, ?_, ?_⟩
  · intro hready
    obtain ⟨h1, h2, h3, h4, h5, -, -, h8⟩ := showReady_fields s
    rw [loop_banner now s hready, h8]
    generalize showReady s = R at h1 h2 h3 h4 h5
    by_cases ht : subUL now s.readyStartTime > 4000
    · rw [if_pos ht, if_pos ht]
      exact ⟨rfl, h3, h2, h4, h5⟩
    · rw [if_neg ht, if_neg ht]
      exact ⟨h1, h3, h2, h4, h5⟩
  · intro hready hconn
    rw [loop_disconnected now s hready hconn]
    by_cases ht : subUL now s.btBlinkLast > 600
    · rw [if_pos ht]
      obtain ⟨h1, h2, h3, -, -, h6, -, -⟩ := drawBT_fields (!s.btBlinkOn)
        { { s with btBlinkLast := now % ULONG_MOD } with btBlinkOn := !s.btBlinkOn }
      exact ⟨h1, h3, h2, h6.trans hready⟩
    · rw [if_neg ht]
      exact ⟨rfl, rfl, rfl, hready⟩
  · intro hready hconn ht
    exact loop_idle now s hready hconn ht
  · intro hready hconn ht
    obtain ⟨f1, -, f3, -, f5, f6, -⟩ := loop_streaming_fields now s hready hconn ht
    exact ⟨(loop_streaming_rain now s hready hconn ht).1, f3, f5, f6, f1.trans hready⟩

/-- Witness of C17: with the banner flag set on `fullState` (link up, interval
elapsed at time 1000) the iteration records no step. -/
theorem loop_mode_priority_witness :
    ({ fullState with showReadyFlag := true } : State).showReadyFlag = true ∧
    (loop 1000 { fullState with showReadyFlag := true }).lastStep
      = ({ fullState with showReadyFlag := true } : State).lastStep :=
  ⟨rfl, ((loop_mode_priority 1000 { fullState with showReadyFlag := true }).1 rfl).2.1⟩

/-! ## Decoding a chunk twice -/

theorem overwrites_id {α : Type} (o : State → α) : Overwrites o (fun s => s) :=
  Or.inl (fun _ => rfl)

theorem overwrites_comp {α : Type} (o : State → α) (f g : State → State)
    (hf : Overwrites o f) (hg : Overwrites o g) : Overwrites o (fun s => f (g s)) := by
  rcases hf with hf | ⟨v, hf⟩
  · rcases hg with hg | ⟨w, hg⟩
    · exact Or.inl (fun s => (hf (g s)).trans (hg s))
    · exact Or.inr ⟨w, fun s => (hf (g s)).trans (hg s)⟩
  · exact Or.inr ⟨v, fun s => hf (g s)⟩

/-- Applying an overwriting transformer twice shows what applying it once shows. -/
theorem overwrites_idem {α : Type} (o : State → α) (f : State → State)
    (hf : Overwrites o f) (s : State) : o (f (f s)) = o (f s) := by
  rcases hf with hf | ⟨v, hf⟩
  · exact hf (f s)
  · exact (hf (f s)).trans (hf s).symm

/-- The note/CC loop overwrites whatever the note events and `allNotesOff` overwrite. -/
theorem notePass_overwrites {α : Type} (o : State → α)
    (hnote : ∀ rs note vel, Overwrites o (noteEvent rs note vel))
    (hoff : Overwrites o allNotesOff) (d : List Byte) (rs : Nat) :
    Overwrites o (fun s => notePass d rs s) :=
  notePass_closure (Overwrites o) (overwrites_id o) (overwrites_comp o) hnote hoff d rs

/-- The SysEx pass overwrites whatever `processSysEx` overwrites. -/
theorem sysExPass_overwrites {α : Type} (o : State → α)
    (hp : ∀ msg, Overwrites o (processSysEx msg)) (d buf : List Byte) :
    Overwrites o (fun s => sysExPass processSysEx d buf s) := by
  have e : (fun s => sysExPass processSysEx d buf s)
      = fun s => (sysExPass (fun frame acc => acc ++ [frame]) d buf []).foldl
          (fun s frame => processSysEx frame s) s := by
    funext s
    exact sysExPass_eq_foldl processSysEx d buf s
  rw [e]
  generalize sysExPass (fun frame acc => acc ++ [frame]) d buf [] = frames
  induction frames with
  | nil => exact overwrites_id o
  | cons f rest ih =>
    exact overwrites_comp o _ _ ih (hp f)

/-- Decoding a chunk overwrites whatever the three kinds of event overwrite. -/
theorem onWrite_overwrites {α : Type} (o : State → α)
    (hnote : ∀ rs note vel, Overwrites o (noteEvent rs note vel))
    (hoff : Overwrites o allNotesOff) (hp : ∀ msg, Overwrites o (processSysEx msg))
    (d : List Byte) : Overwrites o (onWrite d) := by
  have e : onWrite d = fun s =>
      if d.isEmpty then s else notePass d 0 (sysExPass processSysEx d [] s) := by
    funext s
    rfl
  rw [e]
  by_cases h : d.isEmpty = true
  · simp only [h, if_true]
    exact overwrites_id o
  · simp only [h, if_false]
    exact overwrites_comp o _ _ (notePass_overwrites o hnote hoff d 0)
      (sysExPass_overwrites o hp d [])

/-- A note event overwrites one column flag and nothing else. -/
theorem noteEvent_overwrites (rs : Nat) (note vel : Byte) :
    (∀ k, Overwrites (fun s : State => s.active k) (noteEvent rs note vel)) ∧
    Overwrites (fun s : State => (s.leds, s.bufferRain, s.shown)) (noteEvent rs note vel) ∧
    Overwrites (fun s : State => (s.lastStep, s.showReadyFlag, s.readyStartTime, s.btBlinkOn,
      s.btBlinkLast, s.isConnected)) (noteEvent rs note vel) ∧
    Overwrites (fun s : State => (s.ledBrightness, s.fastledBrightness))
      (noteEvent rs note vel) ∧
    Overwrites (fun s : State => s.colorWhiteKey) (noteEvent rs note vel) ∧
    Overwrites (fun s : State => s.colorBlackKey) (noteEvent rs note vel) ∧
    Overwrites (fun s : State => s.bufferIntervalMs) (noteEvent rs note vel) := by
  refine ⟨fun k => ?_, ?_, ?_, ?_, ?_, ?_, ?_⟩
  · unfold Overwrites noteEvent
    dsimp only
    split_ifs with h1 h2
    · by_cases hk : k = ⟨_, h1⟩
      · exact Or.inr ⟨true, fun s => by rw [hk]; exact Function.update_same _ _ _⟩
      · exact Or.inl (fun s => by simp [Function.update_noteq hk])
    · by_cases hk : k = ⟨_, h1⟩
      · exact Or.inr ⟨false, fun s => by rw [hk]; exact Function.update_same _ _ _⟩
      · exact Or.inl (fun s => by simp [Function.update_noteq hk])
    · exact Or.inl (fun _ => rfl)
  all_goals
    unfold Overwrites noteEvent
    dsimp only
    split_ifs <;> exact Or.inl (fun _ => rfl)

/-- The function `allNotesOff` overwrites the column flags, the history and
the frame, with constants. -/
theorem allNotesOff_overwrites :
    (∀ k, Overwrites (fun s : State => s.active k) allNotesOff) ∧
    Overwrites (fun s : State => (s.leds, s.bufferRain, s.shown)) allNotesOff ∧
    Overwrites (fun s : State => (s.lastStep, s.showReadyFlag, s.readyStartTime, s.btBlinkOn,
      s.btBlinkLast, s.isConnected)) allNotesOff ∧
    Overwrites (fun s : State => (s.ledBrightness, s.fastledBrightness)) allNotesOff ∧
    Overwrites (fun s : State => s.colorWhiteKey) allNotesOff ∧
    Overwrites (fun s : State => s.colorBlackKey) allNotesOff ∧
    Overwrites (fun s : State => s.bufferIntervalMs) allNotesOff :=
  ⟨fun _ => Or.inr ⟨false, fun _ => rfl⟩,
    Or.inr ⟨(fun _ => CRGB.Black, fun _ _ => false, fun _ => CRGB.Black), fun _ => rfl⟩,
    Or.inl (fun _ => rfl), Or.inl (fun _ => rfl), Or.inl (fun _ => rfl), Or.inl (fun _ => rfl),
    Or.inl (fun _ => rfl)⟩

/-- The five things `processSysEx` can do with a message. -/
theorem processSysEx_cases (msg : List Byte) :
    (∀ s, processSysEx msg s = s) ∨
    (∃ b, ∀ s, processSysEx msg s = { s with ledBrightness := b, fastledBrightness := b }) ∨
    (∃ c, ∀ s, processSysEx msg s = { s with colorWhiteKey := c }) ∨
    (∃ c, ∀ s, processSysEx msg s = { s with colorBlackKey := c }) ∨
    (∃ n, ∀ s, processSysEx msg s = { s with bufferIntervalMs := n }) := by
  by_cases h1 : msg.length < 5
  · exact Or.inl (fun s => by unfold processSysEx; rw [if_pos h1])
  by_cases h2 : msg.getD 0 0 ≠ 0xF0 ∨ msg.getD 1 0 ≠ 0x7D ∨ msg.getLastD 0 ≠ 0xF7
  · exact Or.inl (fun s => by unfold processSysEx; rw [if_neg h1, if_pos h2])
  by_cases c1 : msg.getD 2 0 = 0x01
  · by_cases l1 : msg.length - 4 ≥ 1
    · exact Or.inr (Or.inl ⟨(msg.drop 3).getD 0 0, fun s => by
        unfold processSysEx
        rw [if_neg h1, if_neg h2]
        dsimp only
        rw [if_pos c1, if_pos l1]
        rfl⟩)
    · exact Or.inl (fun s => by
        unfold processSysEx
        rw [if_neg h1, if_neg h2]
        dsimp only
        rw [if_pos c1, if_neg l1])
  by_cases c2 : msg.getD 2 0 = 0x02
  · by_cases l2 : msg.length - 4 ≥ 3
    · exact Or.inr (Or.inr (Or.inl
        ⟨⟨(msg.drop 3).getD 0 0, (msg.drop 3).getD 1 0, (msg.drop 3).getD 2 0⟩, fun s => by
          unfold processSysEx
          rw [if_neg h1, if_neg h2]
          dsimp only
          rw [if_neg c1, if_pos c2, if_pos l2]⟩))
    · exact Or.inl (fun s => by
        unfold processSysEx
        rw [if_neg h1, if_neg h2]
        dsimp only
        rw [if_neg c1, if_pos c2, if_neg l2])
  by_cases c3 : msg.getD 2 0 = 0x03
  · by_cases l3 : msg.length - 4 ≥ 3
    · exact Or.inr (Or.inr (Or.inr (Or.inl
        ⟨⟨(msg.drop 3).getD 0 0, (msg.drop 3).getD 1 0, (msg.drop 3).getD 2 0⟩, fun s => by
          unfold processSysEx
          rw [if_neg h1, if_neg h2]
          dsimp only
          rw [if_neg c1, if_neg c2, if_pos c3, if_pos l3]⟩)))
    · exact Or.inl (fun s => by
        unfold processSysEx
        rw [if_neg h1, if_neg h2]
        dsimp only
        rw [if_neg c1, if_neg c2, if_pos c3, if_neg l3])
  by_cases c4 : msg.getD 2 0 = 0x04
  · by_cases l4 : msg.length - 4 ≥ 2
    · exact Or.inr (Or.inr (Or.inr (Or.inr
        ⟨(((msg.drop 3).getD 0 0).val <<< 7 ||| ((msg.drop 3).getD 1 0).val) % 65536, fun s => by
          unfold processSysEx
          rw [if_neg h1, if_neg h2]
          dsimp only
          rw [if_neg c1, if_neg c2, if_neg c3, if_pos c4, if_pos l4]⟩)))
    · exact Or.inl (fun s => by
        unfold processSysEx
        rw [if_neg h1, if_neg h2]
        dsimp only
        rw [if_neg c1, if_neg c2, if_neg c3, if_pos c4, if_neg l4])
  · exact Or.inl (fun s => by
      unfold processSysEx
      rw [if_neg h1, if_neg h2]
      dsimp only
      rw [if_neg c1, if_neg c2, if_neg c3, if_neg c4])

/-- The interpreter `processSysEx` overwrites fields of the configuration only. -/
theorem processSysEx_overwrites (msg : List Byte) :
    (∀ k, Overwrites (fun s : State => s.active k) (processSysEx msg)) ∧
    Overwrites (fun s : State => (s.leds, s.bufferRain, s.shown)) (processSysEx msg) ∧
    Overwrites (fun s : State => (s.lastStep, s.showReadyFlag, s.readyStartTime, s.btBlinkOn,
      s.btBlinkLast, s.isConnected)) (processSysEx msg) ∧
    Overwrites (fun s : State => (s.ledBrightness, s.fastledBrightness)) (processSysEx msg) ∧
    Overwrites (fun s : State => s.colorWhiteKey) (processSysEx msg) ∧
    Overwrites (fun s : State => s.colorBlackKey) (processSysEx msg) ∧
    Overwrites (fun s : State => s.bufferIntervalMs) (processSysEx msg) := by
  rcases processSysEx_cases msg with h | ⟨b, h⟩ | ⟨c, h⟩ | ⟨c, h⟩ | ⟨n, h⟩
  · have e : ∀ {α : Type} (o : State → α), Overwrites o (processSysEx msg) :=
      fun o => Or.inl (fun s => by rw [h])
    exact ⟨fun k => e _, e _, e _, e _, e _, e _, e _⟩
  · exact ⟨fun k => Or.inl (fun s => by rw [h]), Or.inl (fun s => by rw [h]),
      Or.inl (fun s => by rw [h]), Or.inr ⟨(b, b), fun s => by rw [h]⟩,
      Or.inl (fun s => by rw [h]), Or.inl (fun s => by rw [h]), Or.inl (fun s => by rw [h])⟩
  · exact ⟨fun k => Or.inl (fun s => by rw [h]), Or.inl (fun s => by rw [h]),
      Or.inl (fun s => by rw [h]), Or.inl (fun s => by rw [h]),
      Or.inr ⟨c, fun s => by rw [h]⟩, Or.inl (fun s => by rw [h]), Or.inl (fun s => by rw [h])⟩
  · exact ⟨fun k => Or.inl (fun s => by rw [h]), Or.inl (fun s => by rw [h]),
      Or.inl (fun s => by rw [h]), Or.inl (fun s => by rw [h]),
      Or.inl (fun s => by rw [h]), Or.inr ⟨c, fun s => by rw [h]⟩, Or.inl (fun s => by rw [h])⟩
  · exact ⟨fun k => Or.inl (fun s => by rw [h]), Or.inl (fun s => by rw [h]),
      Or.inl (fun s => by rw [h]), Or.inl (fun s => by rw [h]),
      Or.inl (fun s => by rw [h]), Or.inl (fun s => by rw [h]), Or.inr ⟨n, fun s => by rw [h]⟩⟩

/-- Two states that agree on every observation are equal. -/
theorem state_eq_of_observations (a b : State) (h1 : ∀ k, a.active k = b.active k)
    (h2 : (a.leds, a.bufferRain, a.shown) = (b.leds, b.bufferRain, b.shown))
    (h3 : (a.lastStep, a.showReadyFlag, a.readyStartTime, a.btBlinkOn, a.btBlinkLast,
        a.isConnected)
      = (b.lastStep, b.showReadyFlag, b.readyStartTime, b.btBlinkOn, b.btBlinkLast,
        b.isConnected))
    (h4 : (a.ledBrightness, a.fastledBrightness) = (b.ledBrightness, b.fastledBrightness))
    (h5 : a.colorWhiteKey = b.colorWhiteKey) (h6 : a.colorBlackKey = b.colorBlackKey)
    (h7 : a.bufferIntervalMs = b.bufferIntervalMs) : a = b := by
  have h1b : a.active = b.active := funext h1
  cases a
  cases b
  simp only [Prod.mk.injEq] at h2 h3 h4
  simp only at h1b h5 h6 h7
  obtain ⟨h21, h22, h23⟩ := h2
  obtain ⟨h31, h32, h33, h34, h35, h36⟩ := h3
  obtain ⟨h41, h42⟩ := h4
  subst h1b h5 h6 h7 h21 h22 h23 h31 h32 h33 h34 h35 h36 h41 h42
  rfl

/-- C19. Decoding is idempotent: for every chunk `c` and every state `s`,
decoding `c` twice in a row gives the same state as decoding it once; in
particular the same column flags, rain history and RenderConfig. -/
theorem onWrite_idempotent (c : List Byte) (s : State) :
    onWrite c (onWrite c s) = onWrite c s ∧
    (onWrite c (onWrite c s)).active = (onWrite c s).active ∧
    (onWrite c (onWrite c s)).bufferRain = (onWrite c s).bufferRain ∧
    renderConfig (onWrite c (onWrite c s)) = renderConfig (onWrite c s) := by
  have e : onWrite c (onWrite c s) = onWrite c s := by
    have key : ∀ {α : Type} (o : State → α),
        (∀ rs note vel, Overwrites o (noteEvent rs note vel)) → Overwrites o allNotesOff →
        (∀ msg, Overwrites o (processSysEx msg)) →
        o (onWrite c (onWrite c s)) = o (onWrite c s) :=
      fun o hn ha hp => overwrites_idem o (onWrite c) (onWrite_overwrites o hn ha hp c) s
    apply state_eq_of_observations
    · intro k
      exact key (fun s : State => s.active k) (fun rs n v => (noteEvent_overwrites rs n v).1 k)
        (allNotesOff_overwrites.1 k) (fun m => (processSysEx_overwrites m).1 k)
    · exact key _ (fun rs n v => (noteEvent_overwrites rs n v).2.1)
        allNotesOff_overwrites.2.1 (fun m => (processSysEx_overwrites m).2.1)
    · exact key _ (fun rs n v => (noteEvent_overwrites rs n v).2.2.1)
        allNotesOff_overwrites.2.2.1 (fun m => (processSysEx_overwrites m).2.2.1)
    · exact key _ (fun rs n v => (noteEvent_overwrites rs n v).2.2.2.1)
        allNotesOff_overwrites.2.2.2.1 (fun m => (processSysEx_overwrites m).2.2.2.1)
    · exact key _ (fun rs n v => (noteEvent_overwrites rs n v).2.2.2.2.1)
        allNotesOff_overwrites.2.2.2.2.1 (fun m => (processSysEx_overwrites m).2.2.2.2.1)
    · exact key _ (fun rs n v => (noteEvent_overwrites rs n v).2.2.2.2.2.1)
        allNotesOff_overwrites.2.2.2.2.2.1 (fun m => (processSysEx_overwrites m).2.2.2.2.2.1)
    · exact key _ (fun rs n v => (noteEvent_overwrites rs n v).2.2.2.2.2.2)
        allNotesOff_overwrites.2.2.2.2.2.2 (fun m => (processSysEx_overwrites m).2.2.2.2.2.2)
  rw [e]
  exact ⟨rfl, rfl, rfl, rfl⟩

/-! ## The running status -/

theorem notePassLog_status (b : Byte) (rest : List Byte) (rs : Nat) (s : State)
    (h : b.val &&& 0xF0 = 0x80 ∨ b.val &&& 0xF0 = 0x90 ∨ b.val &&& 0xF0 = 0xB0) :
    notePassLog (b :: rest) rs s = logStep rs false (notePassLog rest b.val s) := by
  have hb : b.val &&& 0x80 ≠ 0 := status_high_bit b h
  cases rest <;> rcases h with h | h | h <;> simp [notePassLog, hb, h]

theorem notePassLog_skip (b : Byte) (rest : List Byte) (rs : Nat) (s : State)
    (hb : b.val &&& 0x80 ≠ 0)
    (h : b.val &&& 0xF0 ≠ 0x80 ∧ b.val &&& 0xF0 ≠ 0x90 ∧ b.val &&& 0xF0 ≠ 0xB0) :
    notePassLog (b :: rest) rs s = logStep rs false (notePassLog rest rs s) := by
  cases rest <;> simp [notePassLog, hb, h]

theorem notePassLog_data_zero (b : Byte) (rest : List Byte) (s : State)
    (hb : b.val &&& 0x80 = 0) :
    notePassLog (b :: rest) 0 s = logStep 0 false (notePassLog rest 0 s) := by
  cases rest <;> simp [notePassLog, hb]

theorem notePassLog_note (b vel : Byte) (rest : List Byte) (rs : Nat) (s : State)
    (hb : b.val &&& 0x80 = 0) (h : rs &&& 0xF0 = 0x90 ∨ rs &&& 0xF0 = 0x80) :
    notePassLog (b :: vel :: rest) rs s
      = logStep rs false (notePassLog rest rs (noteEvent rs b vel s)) := by
  have h0 : rs ≠ 0 := by rintro rfl; simp at h
  simp [notePassLog, hb, h, h0]

theorem notePassLog_note_last (b : Byte) (rs : Nat) (s : State)
    (hb : b.val &&& 0x80 = 0) (h : rs &&& 0xF0 = 0x90 ∨ rs &&& 0xF0 = 0x80) :
    notePassLog [b] rs s = (s, [rs], false) := by
  have h0 : rs ≠ 0 := by rintro rfl; simp at h
  simp [notePassLog, hb, h, h0]

theorem notePassLog_cc (b val : Byte) (rest : List Byte) (rs : Nat) (s : State)
    (hb : b.val &&& 0x80 = 0) (h : rs &&& 0xF0 = 0xB0) :
    notePassLog (b :: val :: rest) rs s
      = logStep rs false
          (notePassLog rest rs (if b = 123 ∧ val = 0 then allNotesOff s else s)) := by
  have h0 : rs ≠ 0 := by rintro rfl; simp at h
  simp [notePassLog, hb, h, h0]

theorem notePassLog_cc_last (b : Byte) (rs : Nat) (s : State)
    (hb : b.val &&& 0x80 = 0) (h : rs &&& 0xF0 = 0xB0) :
    notePassLog [b] rs s = (s, [rs], false) := by
  have h0 : rs ≠ 0 := by rintro rfl; simp at h
  simp [notePassLog, hb, h, h0]

/-- The log of a loop that is left at once. -/
theorem log_leave (rs : Nat) (s : State) (h : RsOK rs) :
    ((s, [rs], false) : State × List Nat × Bool).1 = s ∧
    (∀ x ∈ ((s, [rs], false) : State × List Nat × Bool).2.1, RsOK x) ∧
    ((s, [rs], false) : State × List Nat × Bool).2.2 = false := by
  refine ⟨rfl, ?_, rfl⟩
  intro x hx
  rw [List.mem_singleton] at hx
  rw [hx]
  exact h

/-- One more iteration in the log. -/
theorem log_step (rs : Nat) (r : State × List Nat × Bool) (t : State) (h : RsOK rs)
    (hr : r.1 = t ∧ (∀ x ∈ r.2.1, RsOK x) ∧ r.2.2 = false) :
    (logStep rs false r).1 = t ∧ (∀ x ∈ (logStep rs false r).2.1, RsOK x) ∧
    (logStep rs false r).2.2 = false := by
  obtain ⟨h1, h2, h3⟩ := hr
  refine ⟨h1, ?_, by simp [logStep, h3]⟩
  intro x hx
  simp only [logStep, List.mem_cons] at hx
  rcases hx with rfl | hx
  · exact h
  · exact h2 x hx

/-- The log, from a running status that is 0 or of the families `0x8_`,
`0x9_`, `0xB_`: the state is that of `notePass`, every logged running status
is 0 or of these families, and the final `j++` is never reached. -/
theorem notePassLog_spec (d : List Byte) (rs : Nat) (s : State) (hrs : RsOK rs) :
    (notePassLog d rs s).1 = notePass d rs s ∧
    (∀ x ∈ (notePassLog d rs s).2.1, RsOK x) ∧ (notePassLog d rs s).2.2 = false := by
  have key : ∀ n (d : List Byte), d.length ≤ n → ∀ (rs : Nat) (s : State), RsOK rs →
      (notePassLog d rs s).1 = notePass d rs s ∧
      (∀ x ∈ (notePassLog d rs s).2.1, RsOK x) ∧ (notePassLog d rs s).2.2 = false := by
    intro n
    induction n with
    | zero =>
      intro d hd rs s hrs
      have : d = [] := List.length_eq_zero.mp (by omega)
      subst this
      exact log_leave rs s hrs
    | succ n ih =>
      intro d hd rs s hrs
      cases d with
      | nil => exact log_leave rs s hrs
      | cons b rest =>
        have hrest : rest.length ≤ n := by simpa using hd
        by_cases hbit : b.val &&& 0x80 = 0
        · rcases hrs with h0 | h8 | h9 | hB
          · subst h0
            rw [notePassLog_data_zero b rest s hbit, notePass_data_zero b rest s hbit]
            exact log_step 0 _ _ (Or.inl rfl) (ih rest hrest 0 s (Or.inl rfl))
          · cases rest with
            | nil =>
              rw [notePassLog_note_last b rs s hbit (Or.inr h8),
                notePass_note_last b rs s hbit (Or.inr h8)]
              exact log_leave rs s (Or.inr (Or.inl h8))
            | cons v rest2 =>
              have h2 : rest2.length ≤ n := by
                simp only [List.length_cons] at hrest; omega
              rw [notePassLog_note b v rest2 rs s hbit (Or.inr h8),
                notePass_note b v rest2 rs s hbit (Or.inr h8)]
              exact log_step rs _ _ (Or.inr (Or.inl h8))
                (ih rest2 h2 rs _ (Or.inr (Or.inl h8)))
          · cases rest with
            | nil =>
              rw [notePassLog_note_last b rs s hbit (Or.inl h9),
                notePass_note_last b rs s hbit (Or.inl h9)]
              exact log_leave rs s (Or.inr (Or.inr (Or.inl h9)))
            | cons v rest2 =>
              have h2 : rest2.length ≤ n := by
                simp only [List.length_cons] at hrest; omega
              rw [notePassLog_note b v rest2 rs s hbit (Or.inl h9),
                notePass_note b v rest2 rs s hbit (Or.inl h9)]
              exact log_step rs _ _ (Or.inr (Or.inr (Or.inl h9)))
                (ih rest2 h2 rs _ (Or.inr (Or.inr (Or.inl h9))))
          · cases rest with
            | nil =>
              rw [notePassLog_cc_last b rs s hbit hB, notePass_cc_last b rs s hbit hB]
              exact log_leave rs s (Or.inr (Or.inr (Or.inr hB)))
            | cons v rest2 =>
              have h2 : rest2.length ≤ n := by
                simp only [List.length_cons] at hrest; omega
              rw [notePassLog_cc b v rest2 rs s hbit hB, notePass_cc b v rest2 rs s hbit hB]
              exact log_step rs _ _ (Or.inr (Or.inr (Or.inr hB)))
                (ih rest2 h2 rs _ (Or.inr (Or.inr (Or.inr hB))))
        · by_cases hfam : b.val &&& 0xF0 = 0x80 ∨ b.val &&& 0xF0 = 0x90 ∨ b.val &&& 0xF0 = 0xB0
          · rw [notePassLog_status b rest rs s hfam, notePass_status b rest rs s hfam]
            exact log_step rs _ _ hrs (ih rest hrest b.val s (Or.inr hfam))
          · have hf2 : b.val &&& 0xF0 ≠ 0x80 ∧ b.val &&& 0xF0 ≠ 0x90 ∧ b.val &&& 0xF0 ≠ 0xB0 := by
              tauto
            rw [notePassLog_skip b rest rs s hbit hf2, notePass_skip b rest rs s hbit hf2]
            exact log_step rs _ _ hrs (ih rest hrest rs s hrs)
  exact key d.length d (Nat.le_refl _) rs s hrs

/-- C20. Throughout the note/CC loop over any chunk `d`, started as
`onWrite` starts it (running status 0): the logged loop computes the state of
`notePass`, every value the running status takes is 0 or a byte whose top
nibble is 8, 9 or B, and the final `j++` kept for other status families is
never reached; and a byte `t` with the high bit set of any other family is
skipped without changing the running status `rs`, so the bytes after it are
decoded under `rs`. -/
theorem runningStatus_families (d : List Byte) (s : State) :
    (notePassLog d 0 s).1 = notePass d 0 s ∧
    (∀ x ∈ (notePassLog d 0 s).2.1,
      x = 0 ∨ x &&& 0xF0 = 0x80 ∨ x &&& 0xF0 = 0x90 ∨ x &&& 0xF0 = 0xB0) ∧
    (notePassLog d 0 s).2.2 = false ∧
    (∀ (t : Byte) (rest : List Byte) (rs : Nat) (st : State), t.val &&& 0x80 ≠ 0 →
      (t.val &&& 0xF0 ≠ 0x80 ∧ t.val &&& 0xF0 ≠ 0x90 ∧ t.val &&& 0xF0 ≠ 0xB0) →
      notePass (t :: rest) rs st = notePass rest rs st ∧
      (notePassLog (t :: rest) rs st).2.1 = rs :: (notePassLog rest rs st).2.1) := by
  obtain ⟨h1, h2, h3⟩ := notePassLog_spec d 0 s (Or.inl rfl)
  refine ⟨h1, h2, h3, fun t rest rs st ht htf => ⟨notePass_skip t rest rs st ht htf, ?_⟩⟩
  rw [notePassLog_skip t rest rs st ht htf]
  rfl

set_option maxRecDepth 100000 in
/-- Witness of C20: the byte `0xC5` met under running status `0x90`. -/
theorem runningStatus_families_witness :
    (0xC5 : Byte).val &&& 0x80 ≠ 0 ∧
    ((0xC5 : Byte).val &&& 0xF0 ≠ 0x80 ∧ (0xC5 : Byte).val &&& 0xF0 ≠ 0x90
      ∧ (0xC5 : Byte).val &&& 0xF0 ≠ 0xB0) ∧
    notePass (0xC5 :: [62, 100]) 0x90 initState = notePass [62, 100] 0x90 initState :=
  ⟨by decide, by decide,
    ((runningStatus_families [] initState).2.2.2 0xC5 [62, 100] 0x90 initState (by decide)
      (by decide)).1⟩

/-! ## Termination and bounds of the reads -/

/-- A read inside the array succeeds. -/
theorem readAt_ok (v : List Byte) (i : Nat) (h : i < v.length) :
    readAt v i = Except.ok (v.getD i 0) := by
  unfold readAt
  rw [List.getD_eq_getElem?_getD, List.getElem?_eq_getElem h]
  rfl

/-- The byte `pl[i]` is the byte `msg[3 + i]`. -/
theorem getD_drop3 (msg : List Byte) (i : Nat) :
    (msg.drop 3).getD i 0 = msg.getD (3 + i) 0 := by
  rw [List.getD_eq_getElem?_getD, List.getD_eq_getElem?_getD, List.getElem?_drop]

/-- The byte `msg.back()` is the byte at index `size - 1`. -/
theorem getD_last (msg : List Byte) :
    msg.getD (msg.length - 1) 0 = msg.getLastD 0 := by
  rw [List.getLastD_eq_getLast?, List.getLast?_eq_getElem?, List.getD_eq_getElem?_getD]

/-- The checked interpreter never faults, and computes `processSysEx`. -/
theorem processSysExChecked_eq (msg : List Byte) (s : State) :
    processSysExChecked msg s = Except.ok (processSysEx msg s) := by
  unfold processSysExChecked processSysEx
  by_cases h1 : msg.length < 5
  · rw [if_pos h1, if_pos h1]
  rw [if_neg h1, if_neg h1]
  rw [readAt_ok msg 0 (by omega), readAt_ok msg 1 (by omega),
    readAt_ok msg (msg.length - 1) (by omega), readAt_ok msg 2 (by omega), getD_last msg]
  dsimp only
  by_cases h2 : msg.getD 0 0 ≠ 0xF0 ∨ msg.getD 1 0 ≠ 0x7D ∨ msg.getLastD 0 ≠ 0xF7
  · rw [if_pos h2, if_pos h2]
  rw [if_neg h2, if_neg h2]
  rw [getD_drop3, getD_drop3, getD_drop3]
  by_cases c1 : msg.getD 2 0 = 0x01
  · rw [if_pos c1, if_pos c1]
    by_cases l1 : msg.length - 4 ≥ 1
    · rw [if_pos l1, if_pos l1, readAt_ok msg 3 (by omega)]
    · rw [if_neg l1, if_neg l1]
  rw [if_neg c1, if_neg c1]
  by_cases c2 : msg.getD 2 0 = 0x02
  · rw [if_pos c2, if_pos c2]
    by_cases l2 : msg.length - 4 ≥ 3
    · rw [if_pos l2, if_pos l2, readAt_ok msg 3 (by omega), readAt_ok msg 4 (by omega),
        readAt_ok msg 5 (by omega)]
    · rw [if_neg l2, if_neg l2]
  rw [if_neg c2, if_neg c2]
  by_cases c3 : msg.getD 2 0 = 0x03
  · rw [if_pos c3, if_pos c3]
    by_cases l3 : msg.length - 4 ≥ 3
    · rw [if_pos l3, if_pos l3, readAt_ok msg 3 (by omega), readAt_ok msg 4 (by omega),
        readAt_ok msg 5 (by omega)]
    · rw [if_neg l3, if_neg l3]
  rw [if_neg c3, if_neg c3]
  by_cases c4 : msg.getD 2 0 = 0x04
  · rw [if_pos c4, if_pos c4]
    by_cases l4 : msg.length - 4 ≥ 2
    · rw [if_pos l4, if_pos l4, readAt_ok msg 3 (by omega), readAt_ok msg 4 (by omega)]
    · rw [if_neg l4, if_neg l4]
  rw [if_neg c4, if_neg c4]

/-- The part of the chunk from the cursor on, when the cursor is inside. -/
theorem drop_cursor (d : List Byte) (j : Nat) (h : j < d.length) :
    d.drop j = d.getD j 0 :: d.drop (j + 1) := by
  rw [List.drop_eq_getElem_cons h, List.getD_eq_getElem?_getD, List.getElem?_eq_getElem h]
  rfl

/-- The SysEx loop with cursor and checked reads never faults when it may
run one iteration per remaining byte, and computes `sysExPass` on the part of
the chunk from the cursor on. -/
theorem sysExLoop_eq (d : List Byte) (fuel j : Nat) (buf : List Byte) (s : State)
    (hf : d.length - j ≤ fuel) :
    sysExLoop d fuel j buf s = Except.ok (sysExPass processSysEx (d.drop j) buf s) := by
  induction fuel generalizing j buf s with
  | zero =>
    have hj : ¬ j < d.length := by omega
    rw [sysExLoop, if_neg hj, List.drop_eq_nil_of_le (by omega)]
    rfl
  | succ fuel ih =>
    rw [sysExLoop]
    by_cases hj : j < d.length
    · have hf2 : d.length - (j + 1) ≤ fuel := by omega
      rw [if_pos hj, readAt_ok d j hj, drop_cursor d j hj, sysExPass]
      dsimp only
      by_cases h1 : d.getD j 0 = 0xF0
      · rw [if_pos h1, if_pos h1, ih (j + 1) _ s hf2]
      · rw [if_neg h1, if_neg h1]
        by_cases h2 : ¬ buf.isEmpty = true
        · rw [if_pos h2, if_pos h2]
          by_cases h3 : d.getD j 0 = 0xF7
          · rw [if_pos h3, if_pos h3, processSysExChecked_eq]
            dsimp only
            rw [ih (j + 1) _ _ hf2]
          · rw [if_neg h3, if_neg h3, ih (j + 1) _ s hf2]
        · rw [if_neg h2, if_neg h2, ih (j + 1) _ s hf2]
    · rw [if_neg hj, List.drop_eq_nil_of_le (by omega)]
      rfl

/-- A data byte met under a running status of another family is passed over. -/
theorem notePass_other (b : Byte) (rest : List Byte) (rs : Nat) (s : State)
    (hb : b.val &&& 0x80 = 0) (h0 : rs ≠ 0)
    (h1 : ¬ (rs &&& 0xF0 = 0x90 ∨ rs &&& 0xF0 = 0x80)) (h2 : ¬ rs &&& 0xF0 = 0xB0) :
    notePass (b :: rest) rs s = notePass rest rs s := by
  cases rest <;> simp [notePass, hb, h0, h1, h2]

/-- The note/CC loop with cursor and checked reads never faults when it may
run one iteration per remaining byte, and computes `notePass` on the part of
the chunk from the cursor on. -/
theorem noteLoop_eq (d : List Byte) (fuel j rs : Nat) (s : State)
    (hf : d.length - j ≤ fuel) :
    noteLoop d fuel j rs s = Except.ok (notePass (d.drop j) rs s) := by
  induction fuel generalizing j rs s with
  | zero =>
    have hj : ¬ j < d.length := by omega
    rw [noteLoop, if_neg hj, List.drop_eq_nil_of_le (by omega)]
    rfl
  | succ fuel ih =>
    rw [noteLoop]
    by_cases hj : j < d.length
    · have hf1 : d.length - (j + 1) ≤ fuel := by omega
      have hf2 : d.length - (j + 2) ≤ fuel := by omega
      rw [if_pos hj, readAt_ok d j hj, drop_cursor d j hj]
      dsimp only
      by_cases hskip : ((d.getD j 0).val &&& 0x80) ≠ 0 ∧ ((d.getD j 0).val &&& 0xF0) ≠ 0x80
          ∧ ((d.getD j 0).val &&& 0xF0) ≠ 0x90 ∧ ((d.getD j 0).val &&& 0xF0) ≠ 0xB0
      · rw [if_pos hskip, notePass_skip _ _ _ _ hskip.1 hskip.2, ih (j + 1) rs s hf1]
      rw [if_neg hskip]
      by_cases hbit : ((d.getD j 0).val &&& 0x80) ≠ 0
      · have hfam : (d.getD j 0).val &&& 0xF0 = 0x80 ∨ (d.getD j 0).val &&& 0xF0 = 0x90
            ∨ (d.getD j 0).val &&& 0xF0 = 0xB0 := by tauto
        rw [if_pos hbit, notePass_status _ _ _ _ hfam, ih (j + 1) _ s hf1]
      rw [if_neg hbit]
      have hdata : (d.getD j 0).val &&& 0x80 = 0 := by
        by_contra hc; exact hbit hc
      by_cases h0 : rs = 0
      · subst h0
        rw [if_pos rfl, notePass_data_zero _ _ _ hdata, ih (j + 1) 0 s hf1]
      rw [if_neg h0]
      by_cases hnote : (rs &&& 0xF0) = 0x90 ∨ (rs &&& 0xF0) = 0x80
      · rw [if_pos hnote]
        by_cases hend : j + 1 ≥ d.length
        · rw [if_pos hend, List.drop_eq_nil_of_le hend, notePass_note_last _ _ _ hdata hnote]
        · have hj1 : j + 1 < d.length := by omega
          rw [if_neg hend, readAt_ok d (j + 1) hj1, drop_cursor d (j + 1) hj1,
            notePass_note _ _ _ _ _ hdata hnote]
          dsimp only
          rw [ih (j + 2) rs _ hf2]
      rw [if_neg hnote]
      by_cases hcc : (rs &&& 0xF0) = 0xB0
      · rw [if_pos hcc]
        by_cases hend : j + 1 ≥ d.length
        · rw [if_pos hend, List.drop_eq_nil_of_le hend, notePass_cc_last _ _ _ hdata hcc]
        · have hj1 : j + 1 < d.length := by omega
          rw [if_neg hend, readAt_ok d (j + 1) hj1, drop_cursor d (j + 1) hj1,
            notePass_cc _ _ _ _ _ hdata hcc]
          dsimp only
          rw [ih (j + 2) rs _ hf2]
      rw [if_neg hcc, notePass_other _ _ _ _ hdata h0 hnote hcc, ih (j + 1) rs s hf1]
    · rw [if_neg hj, List.drop_eq_nil_of_le (by omega)]
      rfl

/-- C18. For every chunk and every state the decoder terminates without
reading outside the chunk: with every read of the chunk and of a SysEx frame
checked against the length, and at most one iteration allowed per byte of the
chunk, `onWriteChecked` returns normally with the state that `onWrite`
computes. The same holds of `processSysExChecked` on every frame, and of each
pass started at any cursor `j` with `d.length - j` iterations allowed, so each
iteration advances the cursor or stops, and the second byte of a note or
control-change pair is only read at an index inside the chunk. -/
theorem decoder_terminates_in_bounds (d : List Byte) (s : State) :
    onWriteChecked d s = Except.ok (onWrite d s) ∧
    (∀ msg : List Byte, processSysExChecked msg s = Except.ok (processSysEx msg s)) ∧
    (∀ (buf : List Byte) (j : Nat),
      sysExLoop d (d.length - j) j buf s
        = Except.ok (sysExPass processSysEx (d.drop j) buf s)) ∧
    (∀ rs j : Nat, noteLoop d (d.length - j) j rs s = Except.ok (notePass (d.drop j) rs s)) := by
  refine ⟨?_, fun msg => processSysExChecked_eq msg s,
    fun buf j => sysExLoop_eq d _ j buf s (Nat.le_refl _),
    fun rs j => noteLoop_eq d _ j rs s (Nat.le_refl _)⟩
  unfold onWriteChecked onWrite
  by_cases h : d.isEmpty = true
  · rw [if_pos h, if_pos h]
  · rw [if_neg h, if_neg h, sysExLoop_eq d d.length 0 [] s (by omega)]
    dsimp only
    rw [noteLoop_eq d d.length 0 0 _ (by omega)]
    rfl

/-! ## The pairs decoded from a SysEx frame -/

theorem notePairs_status (b : Byte) (rest : List Byte) (rs : Nat)
    (h : b.val &&& 0xF0 = 0x80 ∨ b.val &&& 0xF0 = 0x90 ∨ b.val &&& 0xF0 = 0xB0) :
    notePairs (b :: rest) rs = notePairs rest b.val := by
  have hb : b.val &&& 0x80 ≠ 0 := status_high_bit b h
  cases rest <;> rcases h with h | h | h <;> simp [notePairs, hb, h]

theorem notePairs_skip (b : Byte) (rest : List Byte) (rs : Nat)
    (hb : b.val &&& 0x80 ≠ 0)
    (h : b.val &&& 0xF0 ≠ 0x80 ∧ b.val &&& 0xF0 ≠ 0x90 ∧ b.val &&& 0xF0 ≠ 0xB0) :
    notePairs (b :: rest) rs = notePairs rest rs := by
  cases rest <;> simp [notePairs, hb, h]

theorem notePairs_data_zero (b : Byte) (rest : List Byte)
    (hb : b.val &&& 0x80 = 0) :
    notePairs (b :: rest) 0 = notePairs rest 0 := by
  cases rest <;> simp [notePairs, hb]

theorem notePairs_note (b vel : Byte) (rest : List Byte) (rs : Nat)
    (hb : b.val &&& 0x80 = 0) (h : rs &&& 0xF0 = 0x90 ∨ rs &&& 0xF0 = 0x80) :
    notePairs (b :: vel :: rest) rs = (rs, b, vel) :: notePairs rest rs := by
  have h0 : rs ≠ 0 := by rintro rfl; simp at h
  simp [notePairs, hb, h, h0]

theorem notePairs_note_last (b : Byte) (rs : Nat)
    (hb : b.val &&& 0x80 = 0) (h : rs &&& 0xF0 = 0x90 ∨ rs &&& 0xF0 = 0x80) :
    notePairs [b] rs = [] := by
  simp [notePairs, hb, h]

theorem notePairs_cc (b val : Byte) (rest : List Byte) (rs : Nat)
    (hb : b.val &&& 0x80 = 0) (h : rs &&& 0xF0 = 0xB0) :
    notePairs (b :: val :: rest) rs = (rs, b, val) :: notePairs rest rs := by
  have h0 : rs ≠ 0 := by rintro rfl; simp at h
  simp [notePairs, hb, h, h0]

theorem notePairs_cc_last (b : Byte) (rs : Nat)
    (hb : b.val &&& 0x80 = 0) (h : rs &&& 0xF0 = 0xB0) :
    notePairs [b] rs = [] := by
  simp [notePairs, hb, h]

theorem notePairs_other (b : Byte) (rest : List Byte) (rs : Nat)
    (hb : b.val &&& 0x80 = 0) (h0 : rs ≠ 0)
    (h1 : ¬ (rs &&& 0xF0 = 0x90 ∨ rs &&& 0xF0 = 0x80)) (h2 : ¬ rs &&& 0xF0 = 0xB0) :
    notePairs (b :: rest) rs = notePairs rest rs := by
  cases rest <;> simp [notePairs, hb, h0, h1, h2]

/-- On a pair decoded under a note status, the loop runs `noteEvent`. -/
theorem pairEffect_note (rs : Nat) (b vel : Byte) (s : State)
    (h : rs &&& 0xF0 = 0x90 ∨ rs &&& 0xF0 = 0x80) :
    pairEffect (rs, b, vel) s = noteEvent rs b vel s := by
  unfold pairEffect
  dsimp only
  rw [if_pos h]

/-- On a pair decoded under a control-change status, the loop tests for
controller 123 with value 0. -/
theorem pairEffect_cc (rs : Nat) (b val : Byte) (s : State) (h : rs &&& 0xF0 = 0xB0) :
    pairEffect (rs, b, val) s = if b = 123 ∧ val = 0 then allNotesOff s else s := by
  have h1 : ¬ (rs &&& 0xF0 = 0x90 ∨ rs &&& 0xF0 = 0x80) := by omega
  unfold pairEffect
  dsimp only
  rw [if_neg h1, if_pos h]

/-- The note/CC loop runs, in order, the statements of the pairs that
`notePairs` lists, and nothing else. -/
theorem notePass_eq_pairs (d : List Byte) (rs : Nat) (s : State) :
    notePass d rs s = (notePairs d rs).foldl (fun t p => pairEffect p t) s := by
  have key : ∀ n (d : List Byte), d.length ≤ n → ∀ rs s,
      notePass d rs s = (notePairs d rs).foldl (fun t p => pairEffect p t) s := by
    intro n
    induction n with
    | zero =>
      intro d hd rs s
      have : d = [] := List.length_eq_zero.mp (by omega)
      subst this
      rfl
    | succ n ih =>
      intro d hd rs s
      cases d with
      | nil => rfl
      | cons b rest =>
        have hrest : rest.length ≤ n := by simpa using hd
        by_cases hbit : b.val &&& 0x80 = 0
        · by_cases h0 : rs = 0
          · subst h0
            rw [notePass_data_zero b rest s hbit, notePairs_data_zero b rest hbit]
            exact ih rest hrest 0 s
          by_cases hnote : rs &&& 0xF0 = 0x90 ∨ rs &&& 0xF0 = 0x80
          · cases rest with
            | nil => rw [notePass_note_last b rs s hbit hnote, notePairs_note_last b rs hbit hnote]
                     rfl
            | cons vel rest2 =>
              have h2 : rest2.length ≤ n := by
                simp only [List.length_cons] at hrest
                omega
              rw [notePass_note b vel rest2 rs s hbit hnote, notePairs_note b vel rest2 rs hbit hnote,
                List.foldl_cons, pairEffect_note rs b vel s hnote]
              exact ih rest2 h2 rs _
          by_cases hcc : rs &&& 0xF0 = 0xB0
          · cases rest with
            | nil => rw [notePass_cc_last b rs s hbit hcc, notePairs_cc_last b rs hbit hcc]
                     rfl
            | cons val rest2 =>
              have h2 : rest2.length ≤ n := by
                simp only [List.length_cons] at hrest
                omega
              rw [notePass_cc b val rest2 rs s hbit hcc, notePairs_cc b val rest2 rs hbit hcc,
                List.foldl_cons, pairEffect_cc rs b val s hcc]
              exact ih rest2 h2 rs _
          rw [notePass_other b rest rs s hbit h0 hnote hcc,
            notePairs_other b rest rs hbit h0 hnote hcc]
          exact ih rest hrest rs s
        · by_cases hfam : b.val &&& 0xF0 = 0x80 ∨ b.val &&& 0xF0 = 0x90 ∨ b.val &&& 0xF0 = 0xB0
          · rw [notePass_status b rest rs s hfam, notePairs_status b rest rs hfam]
            exact ih rest hrest b.val s
          · have hn : b.val &&& 0xF0 ≠ 0x80 ∧ b.val &&& 0xF0 ≠ 0x90 ∧ b.val &&& 0xF0 ≠ 0xB0 := by
              tauto
            rw [notePass_skip b rest rs s hbit hn, notePairs_skip b rest rs hbit hn]
            exact ih rest hrest rs s
  exact key d.length d (Nat.le_refl _) rs s

/-- A pair whose statements reach no write leaves the whole state as it was. -/
theorem pairEffect_id (p : Nat × Byte × Byte) (h : writesColumns p = false) (s : State) :
    pairEffect p s = s := by
  unfold writesColumns at h
  unfold pairEffect
  by_cases h1 : (p.1 &&& 0xF0) = 0x90 ∨ (p.1 &&& 0xF0) = 0x80
  · rw [if_pos h1] at h
    rw [if_pos h1]
    have hk := of_decide_eq_false h
    unfold noteEvent
    dsimp only
    rw [dif_neg hk]
  · rw [if_neg h1] at h
    rw [if_neg h1]
    by_cases h2 : (p.1 &&& 0xF0) = 0xB0
    · rw [if_pos h2] at h
      rw [if_pos h2, if_neg (of_decide_eq_false h)]
    · rw [if_neg h2]

/-- A pair whose statements reach a write sets some column flag to a value
that does not depend on the state. -/
theorem pairEffect_const (p : Nat × Byte × Byte) (h : writesColumns p = true) :
    ∃ (k : Fin NUM_NOTE_COLUMNS) (v : Bool), ∀ s : State, (pairEffect p s).active k = v := by
  unfold writesColumns at h
  by_cases h1 : (p.1 &&& 0xF0) = 0x90 ∨ (p.1 &&& 0xF0) = 0x80
  · rw [if_pos h1] at h
    have hk := of_decide_eq_true h
    refine ⟨⟨_, hk⟩, decide ((p.1 &&& 0xF0) = 0x90 ∧ p.2.2.val > 0), fun s => ?_⟩
    unfold pairEffect
    rw [if_pos h1]
    unfold noteEvent
    dsimp only
    rw [dif_pos hk]
    by_cases hv : (p.1 &&& 0xF0) = 0x90 ∧ p.2.2.val > 0
    · rw [if_pos hv, decide_eq_true hv]
      exact Function.update_same _ _ _
    · rw [if_neg hv, decide_eq_false hv]
      exact Function.update_same _ _ _
  · rw [if_neg h1] at h
    by_cases h2 : (p.1 &&& 0xF0) = 0xB0
    · rw [if_pos h2] at h
      refine ⟨⟨0, by decide⟩, false, fun s => ?_⟩
      unfold pairEffect
      rw [if_neg h1, if_pos h2, if_pos (of_decide_eq_true h)]
      rfl
    · rw [if_neg h2] at h
      exact absurd h (by decide)

/-- The statements of a decoded pair overwrite each column flag. -/
theorem pairEffect_overwrites (p : Nat × Byte × Byte) (k : Fin NUM_NOTE_COLUMNS) :
    Overwrites (fun s : State => s.active k) (pairEffect p) := by
  by_cases h1 : (p.1 &&& 0xF0) = 0x90 ∨ (p.1 &&& 0xF0) = 0x80
  · have e : pairEffect p = noteEvent p.1 p.2.1 p.2.2 := by
      funext s
      unfold pairEffect
      rw [if_pos h1]
    rw [e]
    exact (noteEvent_overwrites p.1 p.2.1 p.2.2).1 k
  · by_cases h2 : (p.1 &&& 0xF0) = 0xB0 ∧ (p.2.1 = 123 ∧ p.2.2 = 0)
    · have e : pairEffect p = allNotesOff := by
        funext s
        unfold pairEffect
        rw [if_neg h1, if_pos h2.1, if_pos h2.2]
      rw [e]
      exact allNotesOff_overwrites.1 k
    · have e : pairEffect p = fun s => s := by
        funext s
        unfold pairEffect
        rw [if_neg h1]
        by_cases h3 : (p.1 &&& 0xF0) = 0xB0
        · rw [if_pos h3, if_neg (fun h => h2 ⟨h3, h⟩)]
        · rw [if_neg h3]
      rw [e]
      exact overwrites_id _

/-- Running the statements of a list of pairs overwrites each column flag. -/
theorem pairs_overwrites (l : List (Nat × Byte × Byte)) (k : Fin NUM_NOTE_COLUMNS) :
    Overwrites (fun s : State => s.active k)
      (fun s => l.foldl (fun t p => pairEffect p t) s) := by
  induction l with
  | nil => exact overwrites_id _
  | cons p rest ih =>
    exact overwrites_comp _ _ _ ih (pairEffect_overwrites p k)

/-- Pairs that reach no write, run in order, leave the whole state as it was. -/
theorem pairs_id (l : List (Nat × Byte × Byte)) (h : ∀ p ∈ l, writesColumns p = false)
    (s : State) : l.foldl (fun t p => pairEffect p t) s = s := by
  induction l generalizing s with
  | nil => rfl
  | cons p rest ih =>
    rw [List.foldl_cons, pairEffect_id p (h p (List.mem_cons_self _ _))]
    exact ih (fun q hq => h q (List.mem_cons_of_mem _ hq)) s

/-- When one pair of the list sets the flag of column `k` to a constant,
the flag of column `k` after the whole list does not depend on the state. -/
theorem pairs_const (l : List (Nat × Byte × Byte)) (k : Fin NUM_NOTE_COLUMNS)
    (h : ∃ p ∈ l, ∃ v : Bool, ∀ s : State, (pairEffect p s).active k = v) :
    ∃ v : Bool, ∀ s : State, (l.foldl (fun t p => pairEffect p t) s).active k = v := by
  induction l with
  | nil =>
    obtain ⟨p, hp, -⟩ := h
    exact absurd hp (List.not_mem_nil p)
  | cons q rest ih =>
    obtain ⟨p, hp, v, hv⟩ := h
    rcases List.mem_cons.mp hp with rfl | hp
    · rcases pairs_overwrites rest k with hid | ⟨w, hw⟩
      · exact ⟨v, fun s => (hid (pairEffect p s)).trans (hv s)⟩
      · exact ⟨w, fun s => hw (pairEffect p s)⟩
    · obtain ⟨w, hw⟩ := ih ⟨p, hp, v, hv⟩
      exact ⟨w, fun s => hw (pairEffect q s)⟩

/-- Decoding a non-empty chunk is the SysEx pass followed by the statements
of the pairs that the note/CC loop decodes from the same chunk. -/
theorem onWrite_eq_pairs (d : List Byte) (hd : d ≠ []) (s : State) :
    onWrite d s = (notePairs d 0).foldl (fun t p => pairEffect p t)
      (sysExPass processSysEx d [] s) := by
  unfold onWrite
  rw [if_neg (by simpa using hd)]
  exact notePass_eq_pairs d 0 _

/-- A non-empty chunk leaves the column flags and the rain history as they
were, whatever the state, exactly when none of the pairs that the note/CC
loop decodes from it reaches a write. -/
theorem onWrite_columns_iff (d : List Byte) (hd : d ≠ []) :
    (∀ s : State, (onWrite d s).active = s.active ∧ (onWrite d s).bufferRain = s.bufferRain)
      ↔ ∀ p ∈ notePairs d 0, writesColumns p = false := by
  constructor
  · intro h p hp
    by_contra hw
    have hw2 : writesColumns p = true := by
      cases hc : writesColumns p
      · exact absurd hc hw
      · rfl
    obtain ⟨k, v, hv⟩ := pairEffect_const p hw2
    obtain ⟨w, hw3⟩ := pairs_const (notePairs d 0) k ⟨p, hp, v, hv⟩
    have hall : ∀ s : State, s.active k = w := by
      intro s
      have h1 := congrFun (h s).1 k
      rw [onWrite_eq_pairs d hd s, hw3] at h1
      exact h1.symm
    have h2 := hall { initState with active := fun _ => !w }
    cases w <;> simp at h2
  · intro h s
    rw [onWrite_eq_pairs d hd s, pairs_id _ h]
    exact sysExPass_columns d [] s

set_option maxRecDepth 100000 in
/-- A byte with its high bit clear is a data byte `0..127`, and conversely. -/
theorem data_iff : ∀ b : Byte, b.val &&& 0x80 = 0 ↔ b.val < 128 := by
  decide

/-- A byte with the high bit set is not the data byte of a pair that
follows: it can be dropped from the front of the chunk. -/
theorem data_pair_sublist_cons (b : Byte) (rest : List Byte) (hb : b.val &&& 0x80 ≠ 0) :
    (∃ x y : Byte, x.val < 128 ∧ List.Sublist [x, y] (b :: rest))
      ↔ ∃ x y : Byte, x.val < 128 ∧ List.Sublist [x, y] rest := by
  constructor
  · rintro ⟨x, y, hx, h⟩
    rcases List.sublist_cons_iff.mp h with h | ⟨r, hr, -⟩
    · exact ⟨x, y, hx, h⟩
    · have hxb : x = b := (List.cons.inj hr).1
      subst hxb
      exact absurd ((data_iff x).mpr hx) hb
  · rintro ⟨x, y, hx, h⟩
    exact ⟨x, y, hx, h.cons b⟩

/-- Under a running status of the families `0x8_`, `0x9_`, `0xB_` the loop
decodes no pair exactly when no data byte of the chunk has a byte after it. -/
theorem notePairs_running_nil (d : List Byte) (rs : Nat)
    (hrs : rs &&& 0xF0 = 0x80 ∨ rs &&& 0xF0 = 0x90 ∨ rs &&& 0xF0 = 0xB0) :
    notePairs d rs = [] ↔ ¬ ∃ x y : Byte, x.val < 128 ∧ List.Sublist [x, y] d := by
  induction d generalizing rs with
  | nil =>
    constructor
    · rintro - ⟨x, y, -, h⟩
      have := h.length_le
      simp at this
    · intro _
      rfl
  | cons b rest ih =>
    by_cases hbit : b.val &&& 0x80 = 0
    · have h0 : rs ≠ 0 := by rintro rfl; simp at hrs
      have hx : b.val < 128 := (data_iff b).mp hbit
      cases rest with
      | nil =>
        constructor
        · rintro - ⟨x, y, -, h⟩
          have := h.length_le
          simp at this
        · intro _
          by_cases hnote : rs &&& 0xF0 = 0x90 ∨ rs &&& 0xF0 = 0x80
          · exact notePairs_note_last b rs hbit hnote
          · exact notePairs_cc_last b rs hbit (by tauto)
      | cons v rest2 =>
        have hsub : List.Sublist [b, v] (b :: v :: rest2) :=
          List.cons_sublist_cons.mpr (List.cons_sublist_cons.mpr (List.nil_sublist _))
        constructor
        · intro h
          by_cases hnote : rs &&& 0xF0 = 0x90 ∨ rs &&& 0xF0 = 0x80
          · rw [notePairs_note b v rest2 rs hbit hnote] at h
            exact absurd h (List.cons_ne_nil _ _)
          · rw [notePairs_cc b v rest2 rs hbit (by tauto)] at h
            exact absurd h (List.cons_ne_nil _ _)
        · intro h
          exact absurd ⟨b, v, hx, hsub⟩ h
    · rw [data_pair_sublist_cons b rest hbit]
      by_cases hfam : b.val &&& 0xF0 = 0x80 ∨ b.val &&& 0xF0 = 0x90 ∨ b.val &&& 0xF0 = 0xB0
      · rw [notePairs_status b rest rs hfam]
        exact ih b.val hfam
      · rw [notePairs_skip b rest rs hbit (by tauto)]
        exact ih rs hrs

/-- From the start of a chunk (running status 0) the loop decodes no pair
exactly when no byte of the families `0x8_`, `0x9_`, `0xB_` is followed,
later in the chunk, by a data byte that has a byte after it. -/
theorem notePairs_nil_iff (d : List Byte) :
    notePairs d 0 = [] ↔
      ¬ ∃ st x y : Byte,
        (st.val &&& 0xF0 = 0x80 ∨ st.val &&& 0xF0 = 0x90 ∨ st.val &&& 0xF0 = 0xB0)
          ∧ x.val < 128 ∧ List.Sublist [st, x, y] d := by
  induction d with
  | nil =>
    constructor
    · rintro - ⟨st, x, y, -, -, h⟩
      have := h.length_le
      simp at this
    · intro _
      rfl
  | cons b rest ih =>
    by_cases hfam : b.val &&& 0xF0 = 0x80 ∨ b.val &&& 0xF0 = 0x90 ∨ b.val &&& 0xF0 = 0xB0
    · rw [notePairs_status b rest 0 hfam, notePairs_running_nil rest b.val hfam]
      apply not_congr
      constructor
      · rintro ⟨x, y, hx, h⟩
        exact ⟨b, x, y, hfam, hx, List.cons_sublist_cons.mpr h⟩
      · rintro ⟨st, x, y, -, hx, h⟩
        exact ⟨x, y, hx, h.of_cons_cons⟩
    · have e : notePairs (b :: rest) 0 = notePairs rest 0 := by
        by_cases hbit : b.val &&& 0x80 = 0
        · exact notePairs_data_zero b rest hbit
        · exact notePairs_skip b rest 0 hbit (by tauto)
      rw [e, ih]
      apply not_congr
      constructor
      · rintro ⟨st, x, y, hst, hx, h⟩
        exact ⟨st, x, y, hst, hx, h.cons b⟩
      · rintro ⟨st, x, y, hst, hx, h⟩
        rcases List.sublist_cons_iff.mp h with h | ⟨r, hr, -⟩
        · exact ⟨st, x, y, hst, hx, h⟩
        · have hsb : st = b := (List.cons.inj hr).1
          subst hsb
          exact absurd hst hfam

/-- In a frame `F0 7D cmd payload... F7` the loop decodes no pair exactly
when no byte of the families `0x8_`, `0x9_`, `0xB_` among the command and the
payload is followed, later in the payload, by a data byte. -/
theorem frame_pairs_nil_iff (cmd : Byte) (payload : List Byte) :
    notePairs ([0xF0, 0x7D, cmd] ++ payload ++ [0xF7]) 0 = [] ↔
      ¬ ∃ st x : Byte,
        (st.val &&& 0xF0 = 0x80 ∨ st.val &&& 0xF0 = 0x90 ∨ st.val &&& 0xF0 = 0xB0)
          ∧ x.val < 128 ∧ List.Sublist [st, x] (cmd :: payload) := by
  have e : [0xF0, 0x7D, cmd] ++ payload ++ [0xF7] = 0xF0 :: 0x7D :: ((cmd :: payload) ++ [0xF7]) := by
    simp
  rw [e, notePairs_skip 0xF0 _ 0 (by decide) (by decide),
    notePairs_data_zero 0x7D _ (by decide), notePairs_nil_iff]
  apply not_congr
  constructor
  · rintro ⟨st, x, y, hst, hx, h⟩
    refine ⟨st, x, hst, hx, ?_⟩
    have hr : List.Sublist ([st, x] ++ [y]).reverse ((cmd :: payload) ++ [0xF7]).reverse :=
      List.reverse_sublist.mpr h
    rw [List.reverse_append, List.reverse_append] at hr
    exact List.reverse_sublist.mp hr.of_cons_cons
  · rintro ⟨st, x, hst, hx, h⟩
    exact ⟨st, x, 0xF7, hst, hx, h.append (List.Sublist.refl [0xF7])⟩

/-- C10, amended. For every chunk that consists of one SysEx frame
`[0xF0, 0x7D, cmd, payload..., 0xF7]`, with `cmd` and the payload bytes
arbitrary octets: decoding it is the SysEx pass followed by the statements
of the pairs that the note/CC loop decodes when it rescans the frame; it
leaves `active` and `bufferRain` unchanged from every state if and only if
none of those pairs reaches a write (a note pair of a column below 44, or
controller 123 with value 0 under a control-change status); the loop decodes
no pair at all if and only if no octet of the families `0x8_`, `0x9_`, `0xB_`
among `cmd` and the payload is followed, later in the payload, by a data byte
`0..127`, and in that case `active` and `bufferRain` are unchanged; and every
brightness frame `F0 7D 01 p F7`, for `p` any octet, leaves them unchanged. -/
theorem sysEx_frame_keeps_columns (cmd : Byte) (payload : List Byte) :
    (∀ s : State, onWrite ([0xF0, 0x7D, cmd] ++ payload ++ [0xF7]) s
      = (notePairs ([0xF0, 0x7D, cmd] ++ payload ++ [0xF7]) 0).foldl (fun t p => pairEffect p t)
          (sysExPass processSysEx ([0xF0, 0x7D, cmd] ++ payload ++ [0xF7]) [] s)) ∧
    ((∀ s : State,
        (onWrite ([0xF0, 0x7D, cmd] ++ payload ++ [0xF7]) s).active = s.active ∧
        (onWrite ([0xF0, 0x7D, cmd] ++ payload ++ [0xF7]) s).bufferRain = s.bufferRain)
      ↔ ∀ p ∈ notePairs ([0xF0, 0x7D, cmd] ++ payload ++ [0xF7]) 0, writesColumns p = false) ∧
    (notePairs ([0xF0, 0x7D, cmd] ++ payload ++ [0xF7]) 0 = []
      ↔ ¬ ∃ st x : Byte,
          (st.val &&& 0xF0 = 0x80 ∨ st.val &&& 0xF0 = 0x90 ∨ st.val &&& 0xF0 = 0xB0)
            ∧ x.val < 128 ∧ List.Sublist [st, x] (cmd :: payload)) ∧
    ((¬ ∃ st x : Byte,
          (st.val &&& 0xF0 = 0x80 ∨ st.val &&& 0xF0 = 0x90 ∨ st.val &&& 0xF0 = 0xB0)
            ∧ x.val < 128 ∧ List.Sublist [st, x] (cmd :: payload)) →
      ∀ s : State,
        (onWrite ([0xF0, 0x7D, cmd] ++ payload ++ [0xF7]) s).active = s.active ∧
        (onWrite ([0xF0, 0x7D, cmd] ++ payload ++ [0xF7]) s).bufferRain = s.bufferRain) ∧
    (∀ (p : Byte) (s : State),
      (onWrite [0xF0, 0x7D, 0x01, p, 0xF7] s).active = s.active ∧
      (onWrite [0xF0, 0x7D, 0x01, p, 0xF7] s).bufferRain = s.bufferRain) := by
  have hne : ∀ (c : Byte) (pl : List Byte), [0xF0, 0x7D, c] ++ pl ++ [0xF7] ≠ [] := by
    intro c pl
    simp
  have hsuff : ∀ (c : Byte) (pl : List Byte),
      (¬ ∃ st x : Byte,
          (st.val &&& 0xF0 = 0x80 ∨ st.val &&& 0xF0 = 0x90 ∨ st.val &&& 0xF0 = 0xB0)
            ∧ x.val < 128 ∧ List.Sublist [st, x] (c :: pl)) →
      ∀ s : State,
        (onWrite ([0xF0, 0x7D, c] ++ pl ++ [0xF7]) s).active = s.active ∧
        (onWrite ([0xF0, 0x7D, c] ++ pl ++ [0xF7]) s).bufferRain = s.bufferRain := by
    intro c pl h
    have hnil := (frame_pairs_nil_iff c pl).mpr h
    apply (onWrite_columns_iff _ (hne c pl)).mpr
    intro q hq
    rw [hnil] at hq
    exact absurd hq (List.not_mem_nil q)
  refine ⟨fun s => onWrite_eq_pairs _ (hne cmd payload) s,
    onWrite_columns_iff _ (hne cmd payload), frame_pairs_nil_iff cmd payload,
    hsuff cmd payload, ?_⟩
  intro p s
  apply hsuff 0x01 [p]
  rintro ⟨st, x, hst, -, h⟩
  have e : [st, x] = [0x01, p] := h.eq_of_length rfl
  have hst1 : st = 0x01 := (List.cons.inj e).1
  subst hst1
  revert hst
  decide

set_option maxRecDepth 100000 in
/-- Witness of C10 (amended): in the frame `F0 7D 02 90 FF C8 F7` the octet
`0x90` of the payload is followed by no data byte, the loop decodes no pair
from it, and from the state with every column and the whole history set the
columns and the history are unchanged. -/
theorem sysEx_frame_keeps_columns_witness :
    notePairs ([0xF0, 0x7D, 0x02] ++ [0x90, 0xFF, 0xC8] ++ [0xF7]) 0 = [] ∧
    (¬ ∃ st x : Byte,
        (st.val &&& 0xF0 = 0x80 ∨ st.val &&& 0xF0 = 0x90 ∨ st.val &&& 0xF0 = 0xB0)
          ∧ x.val < 128 ∧ List.Sublist [st, x] (0x02 :: [0x90, 0xFF, 0xC8])) ∧
    ((onWrite ([0xF0, 0x7D, 0x02] ++ [0x90, 0xFF, 0xC8] ++ [0xF7]) fullState).active
        = fullState.active ∧
      (onWrite ([0xF0, 0x7D, 0x02] ++ [0x90, 0xFF, 0xC8] ++ [0xF7]) fullState).bufferRain
        = fullState.bufferRain) :=
  ⟨by decide,
    (sysEx_frame_keeps_columns 0x02 [0x90, 0xFF, 0xC8]).2.2.1.mp (by decide),
    (sysEx_frame_keeps_columns 0x02 [0x90, 0xFF, 0xC8]).2.2.2.1
      ((sysEx_frame_keeps_columns 0x02 [0x90, 0xFF, 0xC8]).2.2.1.mp (by decide)) fullState⟩

end Pianissimo
